import Mathlib

/-!
# DragonSnorting: the quality-gated image acquisition pipeline

A shallow embedding of `src/enhanced-google-images-scraper.js` and the parts of
`src/index.js` it calls.  Collaborators (HTTP client, browser session, storage,
image decoder, clock) are explicit oracles; exceptions are `Except String`;
JavaScript strings are `String`, treated as lists of characters.
-/

namespace DragonSnorting

/-! ## JavaScript value helpers -/

/-- JavaScript truthiness of a string-valued property: `null`, `undefined` and `''` are falsy. -/
def truthyStr : Option String → Bool
  | none => false
  | some s => !(s == "")

/-- JavaScript truthiness of a number-valued property: `undefined` and `0` are falsy. -/
def truthyNum : Option Nat → Bool
  | none => false
  | some n => !(n == 0)

/-! ## URL normalizer (`cleanImageUrl`, lines 458-473) -/

/-- Worker of `replaceAll`: a left-to-right scan; `fuel` bounds the number of scan steps. -/
def replaceAllFuel (pat : List Char) (rep : Char) : Nat → List Char → List Char
  | 0, l => l
  | _ + 1, [] => []
  | fuel + 1, c :: cs =>
    if pat.isPrefixOf (c :: cs) then
      rep :: replaceAllFuel pat rep fuel ((c :: cs).drop pat.length)
    else
      c :: replaceAllFuel pat rep fuel cs

/-- `s.replace(/pat/g, rep)` for a literal pattern: every non-overlapping occurrence found by a
left-to-right scan is replaced by the single character `rep`. -/
def replaceAll (pat : List Char) (rep : Char) (l : List Char) : List Char :=
  replaceAllFuel pat rep l.length l

/-- The characters matched by the regular expression `/\\u003d/g`: a backslash, then `u003d`. -/
def escapedEquals : List Char := ['\\', 'u', '0', '0', '3', 'd']

/-- The characters matched by the regular expression `/\\u0026/g`: a backslash, then `u0026`. -/
def escapedAmpersand : List Char := ['\\', 'u', '0', '0', '2', '6']

/-- Line 463: `url.replace(/\\u003d/g, '=').replace(/\\u0026/g, '&')`. -/
def unescapeUrl (url : String) : String :=
  String.mk (replaceAll escapedAmpersand '&' (replaceAll escapedEquals '=' url.data))

/-- Line 466: `new URL(cleanUrl)` throws unless the string parses under the URL grammar.
The grammar itself is the parameter `validUrl`. -/
def newURL (validUrl : String → Bool) (s : String) : Except String Unit :=
  if validUrl s then .ok () else .error "Invalid URL"

/-- The body of the `try` block of `cleanImageUrl` (lines 462-468). -/
def cleanImageUrlBody (validUrl : String → Bool) (url : String) : Except String String :=
  let cleanUrl := unescapeUrl url
  match newURL validUrl cleanUrl with
  | .error e => .error e
  | .ok _ => .ok cleanUrl

/-- `cleanImageUrl(url)` (lines 458-473).  The result is `.ok none` for JavaScript `null`; an
`.error` is an exception escaping the function.  `hasLogger` says that `this.logger` is set:
the constructor leaves it `null` (`src/index.js`, line 37) and `ensureInitialized` sets it, so
on a scraper that has not been initialised the `this.logger.warn` of the `catch` block raises
a `TypeError`.  A logger that is set is taken to write its entry without failing. -/
def cleanImageUrl (hasLogger : Bool) (validUrl : String → Bool) (url : Option String) :
    Except String (Option String) :=
  if !truthyStr url then .ok none
  else
    match url with
    | none => .ok none
    | some u =>
      match cleanImageUrlBody validUrl u with
      | .ok cleanUrl => .ok (some cleanUrl)
      | .error _ =>
        if hasLogger then .ok none
        else .error "Cannot read properties of null (reading 'warn')"

/-- The value `cleanImageUrl` returns on an initialised scraper, written without the exception
plumbing. -/
def cleanValue (validUrl : String → Bool) (url : Option String) : Option String :=
  match url with
  | none => none
  | some u => if u = "" then none else if validUrl (unescapeUrl u) then some (unescapeUrl u) else none


/-! ## Numbers -/

/-- A non-negative rational `num / den`: a JavaScript number that need not be an integer
(a megapixel figure), kept exact. -/
structure Frac where
  num : Nat
  den : Nat
  den_pos : 0 < den
deriving DecidableEq

/-- The JavaScript comparison `a < b`, decided by cross-multiplication. -/
def Frac.lt (a b : Frac) : Bool :=
  decide (a.num * b.den < b.num * a.den)

/-- The rational number a `Frac` stands for. -/
def Frac.toRat (a : Frac) : ℚ :=
  (a.num : ℚ) / (a.den : ℚ)

/-! ## Data model -/

/-- The recognised fields of `this.googleOptions` (lines 13-24) the pipeline reads. -/
structure GoogleOptions where
  maxResults : Nat
  minWidth : Nat
  minHeight : Nat
  minMegapixels : Frac
  maxSourceNavigations : Nat
  fallbackToThumbnails : Bool
deriving DecidableEq

/-- The fields of `this.options` (`src/index.js`, lines 27-34) the batch reads. -/
structure Options where
  downloadDir : String
  delay : Nat
deriving DecidableEq

/-- The pure URL services of the platform: `new URL(s)` succeeds exactly on `validUrl s`, and
`pathExtname s` is `path.extname(new URL(s).pathname).toLowerCase().substring(1)`. -/
structure UrlOracle where
  validUrl : String → Bool
  pathExtname : String → String

/-- The `width` or `height` property of a candidate: a number, or a non-empty string where
`imageInfo[k] || 0` finds one in the slot of a structured-data tuple and passes it through. -/
inductive Declared where
  | num (n : Nat)
  | text (s : String)
deriving DecidableEq

/-- One entry of `imageDataArray`, as built by `extractEnhancedImageData`. -/
structure ImageCandidate where
  thumbnailUrl : Option String
  fullSizeUrl : Option String
  sourcePageUrl : Option String
  title : String
  width : Declared
  height : Declared
  source : String
deriving DecidableEq

/-- The values of the `resolution` property: `'real-fullsize'`, `'enhanced'`, `'thumbnail'`,
`'failed'`.  No code path assigns `'ldi-full'`, which line 612 also tests for. -/
inductive Resolution where
  | realFullsize
  | enhanced
  | thumbnail
  | failed
deriving DecidableEq

/-- The string a `Resolution` is in the source. -/
def Resolution.tag : Resolution → String
  | .realFullsize => "real-fullsize"
  | .enhanced => "enhanced"
  | .thumbnail => "thumbnail"
  | .failed => "failed"

/-- The record `{ ...imageData, finalImageUrl, resolution }`. -/
structure ResolvedImage where
  candidate : ImageCandidate
  finalImageUrl : Option String
  resolution : Resolution
deriving DecidableEq

/-- What `sharp(filepath).metadata()` and `fs.stat(filepath)` report.  `width` and `height` are
optional in the decoder's interface; for a file it has decoded it reports both, each at least
1 pixel (`reportsDimensions`). -/
structure RawMetadata where
  width : Option Nat
  height : Option Nat
  format : String
  size : Nat
deriving DecidableEq

/-- The object `getImageMetadata` returns (`src/index.js`, lines 146-153). -/
structure ImageMetadata where
  width : Option Nat
  height : Option Nat
  format : String
  size : Nat
  quality : Nat
  filepath : String
deriving DecidableEq

/-- The `error` property of a result.  `noValidUrl` is `'No valid image URL available'`,
`thumbnailRejected` is `'Thumbnail rejected - real images only'`, `tooSmall w h` is the
`Downloaded image too small: WxH (..MP)` message, `thrown m` is the `error.message` of an
exception caught at line 732. -/
inductive Failure where
  | noValidUrl
  | thumbnailRejected
  | tooSmall (width height : Option Nat)
  | thrown (message : String)
deriving DecidableEq

/-- One element of the returned `results` array.  A property the source does not set on a
record is `none`. -/
structure AcquisitionResult where
  candidate : ImageCandidate
  finalImageUrl : Option String
  resolution : Option Resolution
  filepath : Option String
  metadata : Option ImageMetadata
  searchTerm : Option String
  error : Option Failure
  success : Bool
  kept : Bool
deriving DecidableEq

/-! ## Collaborators -/

/-- Outcome of `axios.head(url, ...)`: a response with a status code, or a rejection. -/
inductive HeadOutcome where
  | status (code : Nat)
  | error (message : String)
deriving DecidableEq

/-- Outcome of the browser work of lines 417-427.  `createPageFails`: `createPage()` rejects,
which is outside the `try` and escapes.  `gotoFails`: `page.goto` rejects and is caught at
line 441.  `loaded u`: the page loads and `findHighestResolutionImage` returns `u` (it catches
its own errors and then returns `null`).  `page.close()` is taken to succeed. -/
inductive NavOutcome where
  | createPageFails (message : String)
  | gotoFails (message : String)
  | loaded (higherResUrl : Option String)
deriving DecidableEq

/-- Outcome of `downloadImage`: the file is written, or the request or the write rejects (no
file is then counted as stored). -/
inductive DownloadOutcome where
  | saved
  | error (message : String)
deriving DecidableEq

/-- Everything the outside world answers while one candidate is processed.  Each of these is
asked for at most once per candidate. -/
structure Effects where
  head : HeadOutcome
  nav : NavOutcome
  download : DownloadOutcome
  inspect : Option RawMetadata
  now : Nat
deriving DecidableEq

/-- An observable action on a collaborator. -/
inductive Event where
  | headCheck (url : String) (status : Option Nat)
  | navigate (url : String)
  | download (url : String) (filepath : String)
  | unlink (filepath : String)
deriving DecidableEq

/-! ## `src/index.js`: image metadata -/

/-- `assessImageQuality(metadata, fileSize)` (`src/index.js`, lines 160-186).  A missing width
or height makes `pixels` and `bytesPerPixel` `NaN`, for which every comparison is false; zero
pixels make `bytesPerPixel` infinite (or `NaN` for an empty file).  `fileSize / pixels > 3` and
`> 1.5` are decided exactly. -/
def assessImageQuality (width height : Option Nat) (format : String) (fileSize : Nat) : Nat :=
  let resolutionScore :=
    match width, height with
    | some w, some h =>
      let pixels := w * h
      if pixels > 2000000 then 40
      else if pixels > 1000000 then 30
      else if pixels > 500000 then 20
      else 10
    | _, _ => 10
  let sizeScore :=
    match width, height with
    | some w, some h =>
      let pixels := w * h
      if pixels = 0 then (if fileSize > 0 then 30 else 10)
      else if fileSize > 3 * pixels then 30
      else if 2 * fileSize > 3 * pixels then 20
      else 10
    | _, _ => 10
  let formatScore :=
    if format = "png" then 30
    else if format = "jpeg" then 25
    else if format = "webp" then 20
    else 10
  min (resolutionScore + sizeScore + formatScore) 100

/-- `getImageMetadata(filepath)` (`src/index.js`, lines 141-158): `null` when the decoder or
`fs.stat` rejects. -/
def getImageMetadata (inspect : Option RawMetadata) (filepath : String) : Option ImageMetadata :=
  match inspect with
  | none => none
  | some metadata =>
    some { width := metadata.width, height := metadata.height, format := metadata.format,
           size := metadata.size,
           quality := assessImageQuality metadata.width metadata.height metadata.format
             metadata.size,
           filepath := filepath }

/-! ## Resolution strategist (`navigateToSourceForFullSize`, lines 375-456) -/

/-- Lines 412-455: source-page navigation, then the thumbnail fallback. -/
def sourcePageStep (urls : UrlOracle) (e : Effects) (imageData : ImageCandidate)
    (cleanThumbnailUrl : Option String) : List Event × Except String ResolvedImage :=
  let thumbnailFallback : Except String ResolvedImage :=
    .ok { candidate := imageData, finalImageUrl := cleanThumbnailUrl, resolution := .thumbnail }
  match imageData.sourcePageUrl with
  | none => ([], thumbnailFallback)
  | some sourcePageUrl =>
    if truthyStr (some sourcePageUrl) then
      match e.nav with
      | .createPageFails message => ([], .error message)
      | .gotoFails _ => ([.navigate sourcePageUrl], thumbnailFallback)
      | .loaded higherResUrl =>
        if truthyStr higherResUrl && higherResUrl != cleanThumbnailUrl then
          match cleanImageUrl true urls.validUrl higherResUrl with
          | .error _ => ([.navigate sourcePageUrl], thumbnailFallback)
          | .ok cleanHigherRes =>
            if truthyStr cleanHigherRes then
              ([.navigate sourcePageUrl],
                .ok { candidate := imageData, finalImageUrl := cleanHigherRes,
                      resolution := .enhanced })
            else ([.navigate sourcePageUrl], thumbnailFallback)
        else ([.navigate sourcePageUrl], thumbnailFallback)
    else ([], thumbnailFallback)

/-- `navigateToSourceForFullSize(imageData)`: the actions taken and either the resolved record
or the message of an exception that escapes.  `ensureInitialized` (line 376) is taken to
succeed, so the logger is set when `cleanImageUrl` is called. -/
def navigateToSourceForFullSize (urls : UrlOracle) (e : Effects) (imageData : ImageCandidate) :
    List Event × Except String ResolvedImage :=
  match cleanImageUrl true urls.validUrl imageData.thumbnailUrl with
  | .error message => ([], .error message)
  | .ok cleanThumbnailUrl =>
    match (if truthyStr imageData.fullSizeUrl then
        cleanImageUrl true urls.validUrl imageData.fullSizeUrl else .ok none) with
    | .error message => ([], .error message)
    | .ok cleanFullSizeUrl =>
      if !truthyStr cleanThumbnailUrl then
        ([], .ok { candidate := imageData, finalImageUrl := none, resolution := .failed })
      else
        match cleanFullSizeUrl with
        | none => sourcePageStep urls e imageData cleanThumbnailUrl
        | some fullUrl =>
          if truthyStr (some fullUrl) && some fullUrl != cleanThumbnailUrl then
            match e.head with
            | .status code =>
              if code == 200 then
                ([.headCheck fullUrl (some code)],
                  .ok { candidate := imageData, finalImageUrl := some fullUrl,
                        resolution := .realFullsize })
              else
                let next := sourcePageStep urls e imageData cleanThumbnailUrl
                (.headCheck fullUrl (some code) :: next.1, next.2)
            | .error _ =>
              let next := sourcePageStep urls e imageData cleanThumbnailUrl
              (.headCheck fullUrl none :: next.1, next.2)
          else sourcePageStep urls e imageData cleanThumbnailUrl

/-! ## Acquisition loop (`downloadEnhancedImageBatch`, lines 563-763) -/

/-- Line 592: `searchTerm.replace(/[^a-z0-9]/gi, '_').toLowerCase()`.  The expression has no `u`
flag, so a character outside the basic plane is two code units and becomes two underscores. -/
def searchFolderOf (searchTerm : String) : String :=
  String.mk (searchTerm.data.flatMap fun c =>
    if c.isAlphanum then [c.toLower]
    else if c.val ≥ 0x10000 then ['_', '_']
    else ['_'])

/-- `getImageExtension(imageUrl)` (lines 809-817). -/
def getImageExtension (urls : UrlOracle) (imageUrl : String) : String :=
  if urls.validUrl imageUrl then
    let ext := urls.pathExtname imageUrl
    if ext ∈ ["jpg", "jpeg", "png", "webp", "gif"] then ext else "jpg"
  else "jpg"

/-- The segments of a path: the runs of characters between `/` characters; `current` holds
the segment being read, last character first. -/
def splitSegments : List Char → List Char → List (List Char)
  | [], current => [current.reverse]
  | c :: rest, current =>
    if c = '/' then current.reverse :: splitSegments rest []
    else splitSegments rest (c :: current)

/-- The function `normalizeString` of Node's `path` module on the segments of a path: an empty
segment and `.` are dropped, `..` removes the segment before it, and where there is none to
remove (or it is itself `..`) it is kept only when `allowAboveRoot`.  `res` holds the segments
kept so far, last one first. -/
def normalizeSegments (allowAboveRoot : Bool) :
    List (List Char) → List (List Char) → List (List Char)
  | [], res => res.reverse
  | segment :: rest, res =>
    if segment = [] ∨ segment = ['.'] then normalizeSegments allowAboveRoot rest res
    else if segment = ['.', '.'] then
      match res with
      | last :: before =>
        if last = ['.', '.'] then
          if allowAboveRoot then normalizeSegments allowAboveRoot rest (segment :: res)
          else normalizeSegments allowAboveRoot rest res
        else normalizeSegments allowAboveRoot rest before
      | [] =>
        if allowAboveRoot then normalizeSegments allowAboveRoot rest [segment]
        else normalizeSegments allowAboveRoot rest []
    else normalizeSegments allowAboveRoot rest (segment :: res)

/-- `path.normalize(p)` of the POSIX variant of Node's `path` module. -/
def pathNormalize (p : String) : String :=
  if p = "" then "."
  else
    let isAbsolute := p.data.head? == some '/'
    let trailingSeparator := p.data.getLast? == some '/'
    let segments := normalizeSegments (!isAbsolute) (splitSegments p.data []) []
    if segments = [] then
      if isAbsolute then "/" else if trailingSeparator then "./" else "."
    else
      (if isAbsolute then "/" else "") ++ String.mk (List.intercalate ['/'] segments) ++
        (if trailingSeparator then "/" else "")

/-- `path.join(...segments)` of the POSIX variant of Node's `path` module: the non-empty
arguments are joined with `/` and the result is normalized. -/
def pathJoin (segments : List String) : String :=
  match segments.filter (fun segment => segment != "") with
  | [] => "."
  | parts => pathNormalize ("/".intercalate parts)

/-- The mutable variables of the loop (lines 591-595) together with the storage and the
actions performed so far, each tagged with the index of the candidate that caused it. -/
structure LoopState where
  results : List AcquisitionResult
  sourceNavigationCount : Nat
  actuallyKeptImages : Nat
  processed : Nat
  storage : List String
  trace : List (Nat × Event)
deriving DecidableEq

/-- `results.push(r)`. -/
def LoopState.push (st : LoopState) (r : AcquisitionResult) : LoopState :=
  { st with results := st.results ++ [r] }

/-- `processed++`. -/
def LoopState.advance (st : LoopState) : LoopState :=
  { st with processed := st.processed + 1 }

/-- Record actions as caused by the current candidate. -/
def LoopState.log (st : LoopState) (events : List Event) : LoopState :=
  { st with trace := st.trace ++ events.map (fun ev => (st.processed, ev)) }

/-- The record `{ ...imageData, error, success: false, kept: false }`. -/
def failureRecord (imageData : ImageCandidate) (error : Failure) : AcquisitionResult :=
  { candidate := imageData, finalImageUrl := none, resolution := none, filepath := none,
    metadata := none, searchTerm := none, error := some error, success := false, kept := false }

/-- The record `{ ...enhancedData, error, success: false, kept: false }` (lines 708-713). -/
def rejectionRecord (enhancedData : ResolvedImage) (error : Failure) : AcquisitionResult :=
  { candidate := enhancedData.candidate, finalImageUrl := enhancedData.finalImageUrl,
    resolution := some enhancedData.resolution, filepath := none, metadata := none,
    searchTerm := none, error := some error, success := false, kept := false }

/-- The record `{ ...enhancedData, filepath, metadata, searchTerm, success: true, kept: true }`
(lines 721-728). -/
def keeperRecord (enhancedData : ResolvedImage) (filepath : String) (metadata : ImageMetadata)
    (searchTerm : String) : AcquisitionResult :=
  { candidate := enhancedData.candidate, finalImageUrl := enhancedData.finalImageUrl,
    resolution := some enhancedData.resolution, filepath := some filepath,
    metadata := some metadata, searchTerm := some searchTerm, error := none, success := true,
    kept := true }

/-- Lines 732-743: the `catch` of the iteration, followed by the `processed++` after it. -/
def catchHandler (st : LoopState) (imageData : ImageCandidate) (message : String) : LoopState :=
  (st.push (failureRecord imageData (.thrown message))).advance

/-- Lines 698-702: the measured dimensions fall short of the standard.  JavaScript computes
`width * height / 1000000` in floating point; here the quotient is kept exact. -/
def belowStandard (go : GoogleOptions) (width height : Nat) : Bool :=
  let actualMegapixels : Frac := ⟨width * height, 1000000, by decide⟩
  decide (width < go.minWidth) || decide (height < go.minHeight) ||
    actualMegapixels.lt go.minMegapixels

/-- Lines 697-702: the downloaded file is rejected.  `metadata` is not `null` here; a width or
height that is missing or `0` is falsy and skips the comparison. -/
def rejectsDownloaded (go : GoogleOptions) (width height : Option Nat) : Bool :=
  match width, height with
  | some w, some h => truthyNum (some w) && truthyNum (some h) && belowStandard go w h
  | _, _ => false

/-- Lines 691-744: read the metadata of the downloaded file, then delete or keep it. -/
def gradeDownload (go : GoogleOptions) (inspect : Option RawMetadata) (searchTerm : String)
    (imageData : ImageCandidate) (enhancedData : ResolvedImage) (filepath : String)
    (st : LoopState) : LoopState :=
  match getImageMetadata inspect filepath with
  | none => catchHandler st imageData "Cannot read properties of null (reading 'width')"
  | some metadata =>
    if rejectsDownloaded go metadata.width metadata.height then
      let st1 := st.log [.unlink filepath]
      let st2 := { st1 with storage := st1.storage.filter (fun p => p != filepath) }
      (st2.push (rejectionRecord enhancedData
        (.tooSmall metadata.width metadata.height))).advance
    else
      let st1 := { st with actuallyKeptImages := st.actuallyKeptImages + 1 }
      (st1.push (keeperRecord enhancedData filepath metadata searchTerm)).advance

/-- Lines 624-744: everything after `enhancedData` is known. -/
def afterResolution (urls : UrlOracle) (go : GoogleOptions) (opts : Options) (e : Effects)
    (searchTerm searchFolder : String) (imageData : ImageCandidate)
    (enhancedData : ResolvedImage) (st : LoopState) : LoopState :=
  if !truthyStr enhancedData.finalImageUrl || enhancedData.resolution == .failed then
    (st.push (failureRecord imageData .noValidUrl)).advance
  else if enhancedData.resolution == .thumbnail && !go.fallbackToThumbnails then
    (st.push (failureRecord imageData .thumbnailRejected)).advance
  else
    match enhancedData.finalImageUrl with
    | none => catchHandler st imageData "Cannot read properties of null (reading 'substring')"
    | some finalImageUrl =>
      let extension :=
        if getImageExtension urls finalImageUrl == "" then "jpg"
        else getImageExtension urls finalImageUrl
      let filename := searchFolder ++ "_" ++ toString (st.actuallyKeptImages + 1) ++ "_" ++
        enhancedData.resolution.tag ++ "_" ++ toString e.now ++ "." ++ extension
      let fullDirPath := pathJoin [opts.downloadDir, pathJoin ["candidates", searchFolder]]
      let filepath := pathJoin [fullDirPath, filename]
      match e.download with
      | .error message =>
        catchHandler (st.log [.download finalImageUrl filepath]) imageData message
      | .saved =>
        let st1 := st.log [.download finalImageUrl filepath]
        let st2 := { st1 with storage := filepath :: st1.storage }
        gradeDownload go e.inspect searchTerm imageData enhancedData filepath st2

/-- One iteration of the `while` loop (lines 599-744) on `imageData = imageDataArray[processed]`,
with `e` the answers of the outside world during it.  The logger is set (line 564). -/
def processCandidate (urls : UrlOracle) (go : GoogleOptions) (opts : Options) (e : Effects)
    (searchTerm searchFolder : String) (imageData : ImageCandidate) (st : LoopState) :
    LoopState :=
  if truthyStr imageData.fullSizeUrl || truthyStr imageData.sourcePageUrl then
    match navigateToSourceForFullSize urls e imageData with
    | (events, .error message) => catchHandler (st.log events) imageData message
    | (events, .ok enhancedData) =>
      let st1 := st.log events
      let st2 :=
        if enhancedData.resolution == .enhanced then
          { st1 with sourceNavigationCount := st1.sourceNavigationCount + 1 }
        else st1
      afterResolution urls go opts e searchTerm searchFolder imageData enhancedData st2
  else
    match cleanImageUrl true urls.validUrl imageData.thumbnailUrl with
    | .error message => catchHandler st imageData message
    | .ok finalUrl =>
      afterResolution urls go opts e searchTerm searchFolder imageData
        { candidate := imageData, finalImageUrl := finalUrl, resolution := .thumbnail } st

/-- The `while` loop of line 598, run for at most `fuel` iterations.  `world i` are the answers
of the outside world while candidate `i` is processed. -/
def huntLoop (urls : UrlOracle) (go : GoogleOptions) (opts : Options) (world : Nat → Effects)
    (searchTerm searchFolder : String) (target : Nat) (imageDataArray : List ImageCandidate) :
    Nat → LoopState → LoopState
  | 0, st => st
  | fuel + 1, st =>
    if st.actuallyKeptImages < target ∧ st.processed < imageDataArray.length then
      match imageDataArray[st.processed]? with
      | none => st
      | some imageData =>
        huntLoop urls go opts world searchTerm searchFolder target imageDataArray fuel
          (processCandidate urls go opts (world st.processed) searchTerm searchFolder imageData
            st)
    else st

/-- The two closing log lines of lines 754-758. -/
inductive Report where
  | missionAccomplished
  | huntIncomplete
deriving DecidableEq

/-- What a run of `downloadEnhancedImageBatch` leaves behind: the returned `results`, the final
values of the loop variables, the quota and the closing report. -/
structure BatchRun where
  results : List AcquisitionResult
  final : LoopState
  target : Nat
  report : Report
deriving DecidableEq

/-- Line 567: `targetCount || this.googleOptions.maxResults`. -/
def targetOf (go : GoogleOptions) (targetCount : Option Nat) : Nat :=
  match targetCount with
  | some n => if truthyNum (some n) then n else go.maxResults
  | none => go.maxResults

/-- The state of lines 591-595 before the first iteration; `storage` is what is on disk. -/
def initialState (storage : List String) : LoopState :=
  { results := [], sourceNavigationCount := 0, actuallyKeptImages := 0, processed := 0,
    storage := storage, trace := [] }

/-- `downloadEnhancedImageBatch(imageDataArray, searchTerm, targetCount)`.  Initialisation of the
logger and the browser is taken to succeed; every iteration advances `processed`, so
`imageDataArray.length` iterations are enough fuel. -/
def downloadEnhancedImageBatch (urls : UrlOracle) (go : GoogleOptions) (opts : Options)
    (world : Nat → Effects) (storage : List String) (imageDataArray : List ImageCandidate)
    (searchTerm : String) (targetCount : Option Nat) : BatchRun :=
  let target := targetOf go targetCount
  let searchFolder := searchFolderOf searchTerm
  let st := huntLoop urls go opts world searchTerm searchFolder target imageDataArray
    imageDataArray.length (initialState storage)
  { results := st.results, final := st, target := target,
    report := if st.actuallyKeptImages ≥ target then .missionAccomplished else .huntIncomplete }

/-! ## Predicates used to state the properties -/

/-- Lines 609-622 as a value: the record the iteration works with. -/
def resolveCandidate (urls : UrlOracle) (e : Effects) (imageData : ImageCandidate) :
    Except String ResolvedImage :=
  if truthyStr imageData.fullSizeUrl || truthyStr imageData.sourcePageUrl then
    (navigateToSourceForFullSize urls e imageData).2
  else
    match cleanImageUrl true urls.validUrl imageData.thumbnailUrl with
    | .error message => .error message
    | .ok finalUrl =>
      .ok { candidate := imageData, finalImageUrl := finalUrl, resolution := .thumbnail }

/-- The candidate passes the measured quality gate: it resolves to a URL that the loop
downloads, the download is saved, the decoder reads the file, and the check of lines 697-702
does not reject the measured dimensions. -/
def measuredPass (urls : UrlOracle) (go : GoogleOptions) (e : Effects)
    (imageData : ImageCandidate) : Bool :=
  match resolveCandidate urls e imageData with
  | .error _ => false
  | .ok enhancedData =>
    truthyStr enhancedData.finalImageUrl && enhancedData.resolution != .failed &&
    !(enhancedData.resolution == .thumbnail && !go.fallbackToThumbnails) &&
    e.download == .saved &&
    (match e.inspect with
     | none => false
     | some metadata => !rejectsDownloaded go metadata.width metadata.height)

/-- Whether candidate `i` of the array passes the measured quality gate. -/
def passesAt (urls : UrlOracle) (go : GoogleOptions) (world : Nat → Effects)
    (imageDataArray : List ImageCandidate) (i : Nat) : Bool :=
  match imageDataArray[i]? with
  | none => false
  | some imageData => measuredPass urls go (world i) imageData

/-- The number of indices below `n` at which `p` holds. -/
def countBelow (p : Nat → Bool) : Nat → Nat
  | 0 => 0
  | n + 1 => countBelow p n + (if p n then 1 else 0)


/-- Lines 625 and 659: the resolved record is one the loop goes on to download. -/
def downloadable (go : GoogleOptions) (enhancedData : ResolvedImage) : Bool :=
  truthyStr enhancedData.finalImageUrl && enhancedData.resolution != .failed &&
    !(enhancedData.resolution == .thumbnail && !go.fallbackToThumbnails)

/-- The decoder reads the file and lines 697-702 do not reject what it measured. -/
def measuredAdmit (go : GoogleOptions) (inspect : Option RawMetadata) : Bool :=
  match inspect with
  | none => false
  | some metadata => !rejectsDownloaded go metadata.width metadata.height

/-- What one iteration on candidate `imageData` does to the loop variables, `keep` telling
whether the candidate is kept. -/
structure StepFacts (go : GoogleOptions) (imageData : ImageCandidate) (keep : Bool)
    (st st' : LoopState) : Prop where
  processed : st'.processed = st.processed + 1
  kept : st'.actuallyKeptImages = st.actuallyKeptImages + (if keep then 1 else 0)
  results : ∃ r, st'.results = st.results ++ [r] ∧ r.kept = keep ∧ r.success = keep ∧
    r.candidate = imageData ∧
    (r.kept = true → ∃ m, r.metadata = some m ∧
      rejectsDownloaded go m.width m.height = false)
  trace : ∀ ev ∈ st'.trace, ev ∈ st.trace ∨ ev.1 = st.processed

/-- The invariant of the `while` loop of line 598, in terms of which candidates pass. -/
structure LoopInv (pass : Nat → Bool) (target len : Nat) (st : LoopState) : Prop where
  kept_eq : st.actuallyKeptImages = countBelow pass st.processed
  results_length : st.results.length = st.processed
  kept_results : (st.results.filter (fun r => r.kept)).length = st.actuallyKeptImages
  processed_le : st.processed ≤ len
  entered : st.processed = 0 ∨ countBelow pass (st.processed - 1) < target
  trace_lt : ∀ ev ∈ st.trace, ev.1 < st.processed

/-- The measured dimensions are present and meet the standard: the three-way gate of the
specification. -/
def meetsStandard (go : GoogleOptions) (width height : Option Nat) : Prop :=
  ∃ w h, width = some w ∧ height = some h ∧ go.minWidth ≤ w ∧ go.minHeight ≤ h ∧
    go.minMegapixels.toRat ≤ ((w * h : Nat) : ℚ) / 1000000

/-- What `sharp(filepath).metadata()` reports for a file it has decoded: a width and a
height, each at least 1 pixel. -/
def reportsDimensions (metadata : RawMetadata) : Bool :=
  match metadata.width, metadata.height with
  | some w, some h => decide (0 < w) && decide (0 < h)
  | _, _ => false

/-! ## Candidate extractor (`extractEnhancedImageData`, lines 164-373) -/

/-- `s.includes(pat)`. -/
def jsIncludes (s pat : String) : Bool :=
  s.data.tails.any (fun t => pat.data.isPrefixOf t)

/-- `s.startsWith(pat)`. -/
def jsStartsWith (s pat : String) : Bool :=
  pat.data.isPrefixOf s.data

/-- `s.length`: the number of UTF-16 code units. -/
def jsLength (s : String) : Nat :=
  (s.data.map (fun c => if c.val ≥ 0x10000 then 2 else 1)).sum

/-- A slot of a structured-data tuple: a JSON string, number or `null`.  Booleans, nested
arrays and objects in a slot are not modelled. -/
inductive Slot where
  | null
  | num (n : Nat)
  | str (s : String)
deriving DecidableEq

/-- One value of `window.google.ldi`.  `malformed`: `JSON.parse(value)` throws, or `data[1]` is
missing or not an array; both leave the entry without a candidate (lines 180-181, 219-221).
`tuple imageInfo`: `data[1]` is the array `imageInfo`. -/
inductive LdiEntry where
  | malformed
  | tuple (imageInfo : List Slot)
deriving DecidableEq

/-- `imageInfo[k] || null` (or `|| ''`) read where a string is expected; a non-zero number is
carried as its decimal text. -/
def slotText (slot : Option Slot) : Option String :=
  match slot with
  | some (.str s) => if s = "" then none else some s
  | some (.num n) => if n = 0 then none else some (toString n)
  | _ => none

/-- `imageInfo[k] || 0`: the slot's value when it is truthy, `0` when the slot is missing,
`null`, `0` or the empty string. -/
def slotOrZero (slot : Option Slot) : Declared :=
  match slot with
  | some (.num n) => .num n
  | some (.str s) => if s = "" then .num 0 else .text s
  | _ => .num 0

/-- Line 196: the string names an image file. -/
def hasImageExtension (item : String) : Bool :=
  jsIncludes item ".jpg" || jsIncludes item ".png" || jsIncludes item ".jpeg" ||
    jsIncludes item ".webp"

/-- Lines 192-204: the scan of the slots from index 4 on; the result is
`(originalImageUrl, sourcePageUrl)`. -/
def scanTrailing : List Slot → Option String → Option String × Option String
  | [], sourcePageUrl => (none, sourcePageUrl)
  | .str item :: rest, sourcePageUrl =>
    if jsStartsWith item "http" && !jsIncludes item "encrypted-tbn" &&
        !jsIncludes item "google" then
      if hasImageExtension item then (some item, sourcePageUrl)
      else if !truthyStr sourcePageUrl then scanTrailing rest (some item)
      else scanTrailing rest sourcePageUrl
    else scanTrailing rest sourcePageUrl
  | _ :: rest, sourcePageUrl => scanTrailing rest sourcePageUrl

/-- Lines 182-217: the candidate a tuple yields, if any.  A thumbnail slot holding a non-zero
number has no `includes` method: the `TypeError` is caught at line 219 and nothing is pushed. -/
def ldiCandidate (imageInfo : List Slot) : Option ImageCandidate :=
  let fullSizeUrl := slotText imageInfo[3]?
  let scan := scanTrailing (imageInfo.drop 4) none
  match (imageInfo[0]? : Option Slot) with
  | some (Slot.str thumbnailUrl) =>
    if truthyStr (some thumbnailUrl) && jsIncludes thumbnailUrl "encrypted-tbn" then
      some { thumbnailUrl := some thumbnailUrl,
             fullSizeUrl := if truthyStr scan.1 then scan.1 else fullSizeUrl,
             sourcePageUrl := scan.2,
             title := (slotText imageInfo[6]?).getD "",
             width := slotOrZero imageInfo[1]?,
             height := slotOrZero imageInfo[2]?,
             source := "ldi-enhanced" }
    else none
  | _ => none

/-- Lines 179-221: what one entry of the structured data contributes. -/
def ldiEmit : LdiEntry → Option ImageCandidate
  | .malformed => none
  | .tuple imageInfo => ldiCandidate imageInfo

/-- What the page offers for one element of `document.querySelectorAll('a[href*="imgres"]')`:
whether `new URL(link.href)` succeeds, the query parameters `imgurl` and `imgrefurl`, the values
of `parseInt` on the parameters `w` and `h` (`none` for `NaN`), the `src` of the thumbnail image
found in the container (`none` when there is none), and the `aria-label` attribute. -/
structure ImgresLink where
  hrefParses : Bool
  imgurl : Option String
  imgrefurl : Option String
  w : Option Int
  h : Option Int
  thumbnailSrc : Option String
  ariaLabel : Option String
deriving DecidableEq

/-- `parseInt(..) || 0`. -/
def parsedOrZero (n : Option Int) : Int :=
  match n with
  | some k => k
  | none => 0

/-- Lines 238-281: the candidate a result anchor yields, if any.  `decodeURIComponent` answers
`none` when it throws; every exception is caught at line 279. -/
def imgresCandidate (decodeURIComponent : String → Option String) (link : ImgresLink) :
    Option ImageCandidate :=
  if !link.hrefParses then none
  else
    let width := parsedOrZero link.w
    let height := parsedOrZero link.h
    match link.imgurl with
    | none => none
    | some imgurl =>
      if truthyStr (some imgurl) && decide (width > 512) && decide (height > 512) then
        let megapixels : Frac := ⟨(width * height).toNat, 1000000, by decide⟩
        if !megapixels.lt ⟨1, 2, by decide⟩ then
          match decodeURIComponent imgurl with
          | none => none
          | some fullSizeUrl =>
            if truthyStr link.imgrefurl then
              match decodeURIComponent (link.imgrefurl.getD "") with
              | none => none
              | some sourcePageUrl =>
                some { thumbnailUrl := link.thumbnailSrc, fullSizeUrl := some fullSizeUrl,
                       sourcePageUrl := some sourcePageUrl,
                       title := if truthyStr link.ariaLabel then link.ariaLabel.getD "" else "",
                       width := .num width.toNat, height := .num height.toNat,
                       source := "imgres-link" }
            else
              some { thumbnailUrl := link.thumbnailSrc, fullSizeUrl := some fullSizeUrl,
                     sourcePageUrl := none,
                     title := if truthyStr link.ariaLabel then link.ariaLabel.getD "" else "",
                     width := .num width.toNat, height := .num height.toNat,
                       source := "imgres-link" }
        else none
      else none

/-- One result of `urlPairPattern.exec(content)` (line 302): the first capture group and what
`surroundingText.match(..)` of line 311 returns for the window around the match (`none` for
`null`).  The regular-expression engine is a collaborator. -/
structure PairMatch where
  thumbnailUrl : String
  nearbyUrls : Option (List String)
deriving DecidableEq

/-- One inline script: its `textContent` and the successive matches of `urlPairPattern`. -/
structure Script where
  textContent : Option String
  pairMatches : List PairMatch
deriving DecidableEq

/-- Lines 315-317: the longest nearby URL that is not a thumbnail URL. -/
def pickOriginal (nearbyUrls : List String) : Option String :=
  nearbyUrls.foldl (fun best current =>
    if decide (jsLength current > (match best with
        | some b => jsLength b
        | none => 0)) && !jsIncludes current "encrypted-tbn" then
      some current
    else best) none

/-- Lines 303-329: the candidate a script match yields, if any. -/
def scriptCandidate (m : PairMatch) : Option ImageCandidate :=
  if truthyStr (some m.thumbnailUrl) && jsIncludes m.thumbnailUrl "encrypted-tbn" then
    some { thumbnailUrl := some m.thumbnailUrl,
           fullSizeUrl :=
             match m.nearbyUrls with
             | some urls => if urls.length > 0 then pickOriginal urls else none
             | none => none,
           sourcePageUrl := none, title := "", width := .num 0, height := .num 0,
           source := "script-enhanced" }
  else none

/-- The shape shared by the loops of lines 176-222, 235-282 and 302-330: stop as soon as
`images.length >= maxResults`, otherwise push what the item yields. -/
def pushUntilQuota {α : Type} (maxResults : Nat) (emit : α → Option ImageCandidate) :
    List α → List ImageCandidate → List ImageCandidate
  | [], images => images
  | x :: rest, images =>
    if images.length ≥ maxResults then images
    else
      match emit x with
      | some candidate => pushUntilQuota maxResults emit rest (images ++ [candidate])
      | none => pushUntilQuota maxResults emit rest images

/-- Lines 290-335: the loop over the inline scripts. -/
def scriptLoop (maxResults : Nat) : List Script → List ImageCandidate → List ImageCandidate
  | [], images => images
  | script :: rest, images =>
    if images.length ≥ maxResults then images
    else
      let content := script.textContent.getD ""
      if jsIncludes content "encrypted-tbn" && jsIncludes content "http" then
        scriptLoop maxResults rest
          (pushUntilQuota maxResults scriptCandidate script.pairMatches images)
      else scriptLoop maxResults rest images

/-- The part of the rendered page the extractor reads: `window.google.ldi` (`none` when it is
absent), the result anchors and the inline scripts, each in document order. -/
structure PageState where
  ldi : Option (List LdiEntry)
  imgresLinks : List ImgresLink
  scripts : List Script
deriving DecidableEq

/-- `extractEnhancedImageData(page, maxResults)`: the value of the `page.evaluate` call of lines
167-340, which the function returns after logging. -/
def extractEnhancedImageData (decodeURIComponent : String → Option String) (page : PageState)
    (maxResults : Nat) : List ImageCandidate :=
  let images1 :=
    match page.ldi with
    | some entries => pushUntilQuota maxResults ldiEmit entries []
    | none => []
  let images2 :=
    if images1.length < maxResults then
      pushUntilQuota maxResults (imgresCandidate decodeURIComponent) page.imgresLinks images1
    else images1
  let images3 :=
    if images2.length < maxResults then scriptLoop maxResults page.scripts images2
    else images2
  images3.take maxResults

/-- What each strategy yields when no quota stops it, in strategy order. -/
def allCandidates (decodeURIComponent : String → Option String) (page : PageState) :
    List ImageCandidate :=
  (match page.ldi with
    | some entries => entries.filterMap ldiEmit
    | none => []) ++
  page.imgresLinks.filterMap (imgresCandidate decodeURIComponent) ++
  (page.scripts.filter (fun script =>
      jsIncludes (script.textContent.getD "") "encrypted-tbn" &&
        jsIncludes (script.textContent.getD "") "http")).flatMap
    (fun script => script.pairMatches.filterMap scriptCandidate)

/-! ## Configuration (constructor, lines 10-34) -/

/-- The properties `...options.googleOptions` may override. -/
structure GoogleOverrides where
  maxResults : Option Nat := none
  minWidth : Option Nat := none
  minHeight : Option Nat := none
  minMegapixels : Option Frac := none
  maxSourceNavigations : Option Nat := none
  fallbackToThumbnails : Option Bool := none
deriving DecidableEq

/-- The `options` argument of the constructor, as far as the pipeline reads it. -/
structure ScraperOptions where
  maxResults : Option Nat := none
  minWidth : Option Nat := none
  minHeight : Option Nat := none
  minMegapixels : Option Frac := none
  maxSourceNavigations : Option Nat := none
  fallbackToThumbnails : Option Bool := none
  googleOptions : GoogleOverrides := {}
deriving DecidableEq

/-- `value || fallback` for a number. -/
def orDefault (value : Option Nat) (fallback : Nat) : Nat :=
  match value with
  | some n => if n = 0 then fallback else n
  | none => fallback

/-- Lines 13-24: `this.googleOptions`. -/
def googleOptionsOf (options : ScraperOptions) : GoogleOptions :=
  let base : GoogleOptions :=
    { maxResults := orDefault options.maxResults 50,
      minWidth := orDefault options.minWidth 400,
      minHeight := orDefault options.minHeight 400,
      minMegapixels :=
        match options.minMegapixels with
        | some m => if m.num = 0 then ⟨2, 5, by decide⟩ else m
        | none => ⟨2, 5, by decide⟩,
      maxSourceNavigations := orDefault options.maxSourceNavigations 3,
      fallbackToThumbnails := options.fallbackToThumbnails == some true }
  { maxResults := options.googleOptions.maxResults.getD base.maxResults,
    minWidth := options.googleOptions.minWidth.getD base.minWidth,
    minHeight := options.googleOptions.minHeight.getD base.minHeight,
    minMegapixels := options.googleOptions.minMegapixels.getD base.minMegapixels,
    maxSourceNavigations :=
      options.googleOptions.maxSourceNavigations.getD base.maxSourceNavigations,
    fallbackToThumbnails :=
      options.googleOptions.fallbackToThumbnails.getD base.fallbackToThumbnails }

/-! ## More predicates used to state the properties -/

/-- Line 675: the file name of a download. -/
def filenameFor (searchFolder : String) (n : Nat) (resolution : Resolution) (now : Nat)
    (extension : String) : String :=
  searchFolder ++ "_" ++ toString n ++ "_" ++ resolution.tag ++ "_" ++ toString now ++ "." ++
    extension

/-- Lines 685-689 with lines 768 and 782 of `downloadImage`: where a download is stored. -/
def storagePath (opts : Options) (searchFolder filename : String) : String :=
  pathJoin [pathJoin [opts.downloadDir, pathJoin ["candidates", searchFolder]], filename]

/-- The message of the error raised while a candidate is processed, if one is raised: by the
resolution, by the download, or by reading the metadata of an undecodable file (line 694). -/
def faultOf (urls : UrlOracle) (go : GoogleOptions) (e : Effects) (imageData : ImageCandidate) :
    Option String :=
  match resolveCandidate urls e imageData with
  | .error message => some message
  | .ok enhancedData =>
    if downloadable go enhancedData then
      match e.download with
      | .error message => some message
      | .saved =>
        match e.inspect with
        | none => some "Cannot read properties of null (reading 'width')"
        | some _ => none
    else none

/-- The number of source-page navigations in a trace. -/
def navigationCount (trace : List (Nat × Event)) : Nat :=
  trace.countP (fun ev =>
    match ev.2 with
    | .navigate _ => true
    | _ => false)

/-! ## On-page largest-image search (`findHighestResolutionImage`, lines 475-561) -/

/-- What the search reads of one element of the source page: its tag name, its rendered and
natural dimensions, its `src`, the `data-src`, `data-original` and `data-lazy` attributes, its
class name and its `alt` text.  A property that is `undefined` is `none`. -/
structure DomElement where
  tagName : String
  width : Nat
  height : Nat
  naturalWidth : Nat
  naturalHeight : Nat
  src : Option String
  dataSrc : Option String
  dataOriginal : Option String
  dataLazy : Option String
  className : Option String
  alt : Option String
deriving DecidableEq

/-- The part of the source page the search reads: `document.querySelectorAll('img')` and, for
each of the ten selectors of lines 513-517 in order, `document.querySelectorAll(selector)`. -/
structure SourcePage where
  images : List DomElement
  contentImages : List (List DomElement)
deriving DecidableEq

/-- The object `bestCandidate` of lines 499-507 and 531-540, without the derived `megapixels`;
`fromContentArea` is `false` where the source leaves it unset. -/
structure BestImage where
  src : String
  width : Nat
  height : Nat
  pixelCount : Nat
  alt : String
  className : String
  fromContentArea : Bool
deriving DecidableEq

/-- The two variables of the search: `bestCandidate` and `highestPixelCount`. -/
structure ScanState where
  bestCandidate : Option BestImage
  highestPixelCount : Nat
deriving DecidableEq

/-- `a || b` on string-valued properties. -/
def orStr (a b : Option String) : Option String :=
  if truthyStr a then a else b

/-- `n || m` on numbers. -/
def orNat (n m : Nat) : Nat :=
  if n = 0 then m else n

/-- `img.className?.includes(part)`; `undefined` is falsy. -/
def classIncludes (img : DomElement) (part : String) : Bool :=
  match img.className with
  | some name => jsIncludes name part
  | none => false

/-- Lines 494 and 527: `(img.naturalWidth || img.width) * (img.naturalHeight || img.height)`. -/
def pixelCountOf (img : DomElement) : Nat :=
  orNat img.naturalWidth img.width * orNat img.naturalHeight img.height

/-- The object literal of lines 499-507 (and 531-540 with `fromContentArea`). -/
def bestOf (img : DomElement) (src : String) (fromContentArea : Bool) : BestImage :=
  { src := src,
    width := orNat img.naturalWidth img.width,
    height := orNat img.naturalHeight img.height,
    pixelCount := pixelCountOf img,
    alt := (orStr img.alt (some "")).getD "",
    className := (orStr img.className (some "")).getD "",
    fromContentArea := fromContentArea }

/-- Lines 485-492: the `src` of an image the first pass goes on to measure; `none` when one of
the three `continue` statements skips the image. -/
def pass1Src (img : DomElement) : Option String :=
  if decide (img.width < 512) || decide (img.height < 512) then none
  else
    match orStr (orStr (orStr img.src img.dataSrc) img.dataOriginal) img.dataLazy with
    | none => none
    | some src =>
      if !truthyStr (some src) || jsIncludes src "data:" || jsIncludes src "placeholder" ||
          jsIncludes src "spinner" then none
      else if jsIncludes src "ads" || jsIncludes src "logo" || jsIncludes src "nav" ||
          classIncludes img "ad" || classIncludes img "logo" then none
      else some src

/-- Lines 483-510: one iteration of the first pass. -/
def pass1Step (st : ScanState) (img : DomElement) : ScanState :=
  match pass1Src img with
  | none => st
  | some src =>
    let pixelCount := pixelCountOf img
    let megapixels : Frac := ⟨pixelCount, 1000000, by decide⟩
    if decide (pixelCount > st.highestPixelCount) && !megapixels.lt ⟨1, 2, by decide⟩ &&
        decide (pixelCount > 512 * 512) then
      { bestCandidate := some (bestOf img src false), highestPixelCount := pixelCount }
    else st

/-- Lines 522-525: the `src` of an element the content pass goes on to measure; `none` when a
`continue` skips it. -/
def contentSrc (img : DomElement) : Option String :=
  if img.tagName != "IMG" then none
  else
    match orStr (orStr img.src img.dataSrc) img.dataOriginal with
    | none => none
    | some src =>
      if !truthyStr (some src) || decide (img.width < 512) || decide (img.height < 512) then
        none
      else some src

/-- Lines 521-543: one iteration of the content pass. -/
def contentStep (st : ScanState) (img : DomElement) : ScanState :=
  match contentSrc img with
  | none => st
  | some src =>
    let pixelCount := pixelCountOf img
    let megapixels : Frac := ⟨pixelCount, 1000000, by decide⟩
    if decide (pixelCount > st.highestPixelCount) && !megapixels.lt ⟨1, 2, by decide⟩ then
      { bestCandidate := some (bestOf img src true), highestPixelCount := pixelCount }
    else st

/-- Lines 478-547: the value of the `page.evaluate` call, the `bestCandidate` after both
passes. -/
def bestImageOnPage (page : SourcePage) : Option BestImage :=
  let afterImages := page.images.foldl pass1Step { bestCandidate := none, highestPixelCount := 0 }
  let afterContent :=
    page.contentImages.foldl (fun st contentImages => contentImages.foldl contentStep st)
      afterImages
  afterContent.bestCandidate

/-- `findHighestResolutionImage(page, originalData)`, with `page.evaluate` taken to succeed;
when it rejects, the `catch` of line 557 returns `null`. -/
def findHighestResolutionImage (page : SourcePage) : Option String :=
  match bestImageOnPage page with
  | some bestImage => some bestImage.src
  | none => none

/-- The `src` under which a pass measures an element, if it does: `content` selects the
content pass. -/
def measuredSrc (content : Bool) (img : DomElement) : Option String :=
  if content then contentSrc img else pass1Src img

/-- An element qualifies in a pass: the pass measures it and its pixel count meets the floor of
that pass (0.5 megapixels, and in the first pass also more than 512 x 512). -/
def qualifies (content : Bool) (img : DomElement) : Bool :=
  (measuredSrc content img).isSome && decide (500000 ≤ pixelCountOf img) &&
    (content || decide (pixelCountOf img > 512 * 512))

/-- The elements of a page with the pass that visits them, in visiting order. -/
def visited (page : SourcePage) : List (Bool × DomElement) :=
  page.images.map (fun img => (false, img)) ++
    page.contentImages.flatten.map (fun img => (true, img))

/-- The identifying attributes suggest advertising, navigation or logo chrome (lines
491-492). -/
def looksLikeChrome (img : DomElement) (src : String) : Bool :=
  jsIncludes src "ads" || jsIncludes src "logo" || jsIncludes src "nav" ||
    classIncludes img "ad" || classIncludes img "logo"

/-- One step of the search on an element of `visited`. -/
def scanStep (st : ScanState) (v : Bool × DomElement) : ScanState :=
  if v.1 then contentStep st v.2 else pass1Step st v.2

/-- The invariant of the two loops of the search, over the elements visited so far: the
highest pixel count bounds every qualifying element, and the best candidate, if any, is a
qualifying element of that pixel count. -/
structure ScanInv (seen : List (Bool × DomElement)) (st : ScanState) : Prop where
  bound : ∀ v ∈ seen, qualifies v.1 v.2 = true → pixelCountOf v.2 ≤ st.highestPixelCount
  absent : st.bestCandidate = none → ∀ v ∈ seen, qualifies v.1 v.2 = false
  present : ∀ b, st.bestCandidate = some b →
    ∃ v ∈ seen, ∃ src, measuredSrc v.1 v.2 = some src ∧ qualifies v.1 v.2 = true ∧
      b = bestOf v.2 src v.1 ∧ st.highestPixelCount = pixelCountOf v.2

/-! ## Concrete scenarios -/

/-- A URL grammar for the scenarios: a string is a URL when it starts with `http`; every path
has the extension `jpg`. -/
def demoUrls : UrlOracle :=
  { validUrl := fun s => ['h', 't', 't', 'p'].isPrefixOf s.data, pathExtname := fun _ => "jpg" }

/-- The default standard of lines 13-24 (400 x 400 pixels, 0.4 megapixels), with the thumbnail
fallback switched by `fallback`. -/
def demoStandard (fallback : Bool) : GoogleOptions :=
  { maxResults := 50, minWidth := 400, minHeight := 400, minMegapixels := ⟨2, 5, by decide⟩,
    maxSourceNavigations := 3, fallbackToThumbnails := fallback }

/-- The default options of `src/index.js`. -/
def demoOptions : Options :=
  { downloadDir := "./downloads", delay := 2000 }

/-- A candidate of the structured-data strategy with a thumbnail and nothing else. -/
def thumbnailOnly (n : Nat) : ImageCandidate :=
  { thumbnailUrl := some ("https://encrypted-tbn0.gstatic.com/images?q=" ++ toString n),
    fullSizeUrl := none, sourcePageUrl := none, title := "", width := .num 0,
    height := .num 0, source := "ldi-enhanced" }

/-- A world in which the download is saved at time `now` and the decoder answers `inspect`. -/
def downloading (now : Nat) (inspect : Option RawMetadata) : Effects :=
  { head := .error "unused", nav := .gotoFails "unused", download := .saved,
    inspect := inspect, now := now }

/-- What the decoder reports for a JPEG of the given dimensions. -/
def jpegOf (width height : Option Nat) : RawMetadata :=
  { width := width, height := height, format := "jpeg", size := 90000 }

/-- Scenario D: ten candidates; the downloads of the first two measure 300 x 300, all later
ones 800 x 600. -/
def scenarioDCandidates : List ImageCandidate :=
  (List.range 10).map thumbnailOnly

/-- The world of scenario D. -/
def scenarioDWorld : Nat → Effects := fun i =>
  if i < 2 then downloading (1700000000000 + i) (some (jpegOf (some 300) (some 300)))
  else downloading (1700000000000 + i) (some (jpegOf (some 800) (some 600)))

/-- A world in which every download measures 800 x 600. -/
def allPassWorld : Nat → Effects := fun i =>
  downloading (1700000000000 + i) (some (jpegOf (some 800) (some 600)))

/-- A world in which every download measures 300 x 300. -/
def allSmallWorld : Nat → Effects := fun i =>
  downloading (1700000000000 + i) (some (jpegOf (some 300) (some 300)))

/-- A world in which the decoder reports no dimensions for the downloaded file. -/
def noDimensionsWorld : Nat → Effects := fun i =>
  downloading (1700000000000 + i) (some (jpegOf none none))

/-- A world in which the downloaded file cannot be decoded: `getImageMetadata` returns `null`. -/
def undecodableWorld : Nat → Effects := fun i =>
  downloading (1700000000000 + i) none

/-- A candidate of the result-anchor strategy: a full-size URL and a source page. -/
def anchorCandidate : ImageCandidate :=
  { thumbnailUrl := some "https://encrypted-tbn0.gstatic.com/images?q=tbn",
    fullSizeUrl := some "https://example.org/dragon.jpg?v\\u003d1",
    sourcePageUrl := some "https://example.org/gallery", title := "dragon",
    width := .num 1600, height := .num 1200, source := "imgres-link" }

/-- A world in which the HEAD request answers 200 and the source page would offer an image. -/
def headOkEffects : Effects :=
  { head := .status 200, nav := .loaded (some "https://example.org/large.jpg"),
    download := .saved, inspect := some (jpegOf (some 1600) (some 1200)), now := 1700000000000 }

/-! ## Further scenarios -/

/-- A candidate with a thumbnail and a source page, and no full-size URL. -/
def sourcePageCandidate (n : Nat) : ImageCandidate :=
  { thumbnailUrl := some ("https://encrypted-tbn0.gstatic.com/images?q=" ++ toString n),
    fullSizeUrl := none,
    sourcePageUrl := some ("https://example.org/gallery/" ++ toString n), title := "",
    width := .num 0, height := .num 0, source := "ldi-enhanced" }

/-- A world in which every source page loads and offers a large image, and every download
measures 1600 x 1200. -/
def sourcePageWorld : Nat → Effects := fun i =>
  { head := .error "unused",
    nav := .loaded (some ("https://example.org/large/" ++ toString i ++ ".jpg")),
    download := .saved, inspect := some (jpegOf (some 1600) (some 1200)),
    now := 1700000000000 + i }

/-- A world in which every download request fails. -/
def downloadFailsWorld : Nat → Effects := fun i =>
  { head := .error "unused", nav := .gotoFails "unused",
    download := .error "Request failed with status code 403", inspect := none,
    now := 1700000000000 + i }

/-- A candidate of the structured-data strategy whose thumbnail is protocol-relative, which
`new URL` does not accept, and which has nothing else. -/
def relativeThumbnailCandidate : ImageCandidate :=
  { thumbnailUrl := some "//encrypted-tbn0.gstatic.com/images?q=tbn", fullSizeUrl := none,
    sourcePageUrl := none, title := "", width := .num 0,
    height := .num 0, source := "ldi-enhanced" }

/-- The effects of a candidate whose full-size URL answers 404 and whose source page offers a
large image. -/
def headFailsEffects : Effects :=
  { head := .status 404, nav := .loaded (some "https://example.org/large.jpg"),
    download := .saved, inspect := some (jpegOf (some 1600) (some 1200)), now := 1700000000000 }

/-- `decodeURIComponent` for the scenarios: the strings used hold no escape. -/
def demoDecode : String → Option String := fun s => some s

/-- A result anchor of the image `https://example.org/dragon.jpg`, declared 1600 x 1200. -/
def dragonAnchor (thumbnailSrc imgrefurl : Option String) : ImgresLink :=
  { hrefParses := true,
    imgurl := some "https://example.org/dragon.jpg",
    imgrefurl := imgrefurl,
    w := some 1600,
    h := some 1200,
    thumbnailSrc := thumbnailSrc,
    ariaLabel := some "dragon" }

/-- A page on which one image shows up in the structured data, in a result anchor and in an
inline script. -/
def repeatedImagePage : PageState :=
  { ldi := some [.tuple [.str "https://encrypted-tbn0.gstatic.com/images?q=tbn", .num 1600,
                         .num 1200, .null, .str "https://example.org/dragon.jpg"]],
    imgresLinks := [dragonAnchor (some "https://encrypted-tbn0.gstatic.com/images?q=tbn") none],
    scripts :=
      [{ textContent := some "[\"https://encrypted-tbn0.gstatic.com/images?q=tbn\"]",
         pairMatches :=
           [{ thumbnailUrl := "https://encrypted-tbn0.gstatic.com/images?q=tbn",
              nearbyUrls := some ["https://example.org/dragon.jpg"] }] }] }

/-- A page with one result anchor of a large image whose container holds no thumbnail image
with an `encrypted-tbn` source. -/
def anchorWithoutThumbnailPage : PageState :=
  { ldi := none,
    imgresLinks := [dragonAnchor none (some "https://example.org/gallery")],
    scripts := [] }

/-- The candidate the result-anchor strategy builds for the anchor of
`anchorWithoutThumbnailPage`. -/
def anchorOnlyCandidate : ImageCandidate :=
  { thumbnailUrl := none, fullSizeUrl := some "https://example.org/dragon.jpg",
    sourcePageUrl := some "https://example.org/gallery", title := "dragon",
    width := .num 1600, height := .num 1200, source := "imgres-link" }

/-- What the iteration on a candidate adds to `results` when it keeps the candidate: a record
whose file name carries the kept counter plus one. -/
def KeeperNamed (opts : Options) (searchFolder : String) (now : Nat) (st st' : LoopState) :
    Prop :=
  ∃ r, st'.results = st.results ++ [r] ∧
    (r.kept = true → ∃ tier ext, r.resolution = some tier ∧
      r.filepath = some (storagePath opts searchFolder
        (filenameFor searchFolder (st.actuallyKeptImages + 1) tier now ext)))

/-- The effects of a candidate whose full-size URL answers 204 (a status of the 200 class
other than 200) and whose source page does not load. -/
def headNoContentEffects : Effects :=
  { head := .status 204, nav := .gotoFails "net::ERR_TIMED_OUT", download := .saved,
    inspect := some (jpegOf (some 1600) (some 1200)), now := 1700000000000 }

/-- An image of the article, 1200 x 800. -/
def articlePhoto : DomElement :=
  { tagName := "IMG", width := 1200, height := 800, naturalWidth := 1200, naturalHeight := 800,
    src := some "https://example.org/photos/dragon.jpg", dataSrc := none, dataOriginal := none,
    dataLazy := none, className := some "photo", alt := some "dragon" }

/-- A lazily loaded advertising banner, 1600 x 1200, served from an `ads` path. -/
def adBanner : DomElement :=
  { tagName := "IMG", width := 1600, height := 1200, naturalWidth := 1600,
    naturalHeight := 1200, src := some "https://cdn.example.org/ads/banner.jpg",
    dataSrc := some "https://cdn.example.org/ads/banner.jpg", dataOriginal := none,
    dataLazy := none, className := some "ad-slot", alt := none }

/-- A source page with the photo and the banner; the banner carries a `data-src` attribute and
so is matched by the content selector `[data-src]`. -/
def pageWithAdBanner : SourcePage :=
  { images := [articlePhoto, adBanner], contentImages := [[adBanner]] }

/-- Lines 611-614 followed by the rest of the iteration: the iteration as it runs when the
candidate is handed to `navigateToSourceForFullSize`, whatever the test of line 610 says. -/
def processViaNavigate (urls : UrlOracle) (go : GoogleOptions) (opts : Options) (e : Effects)
    (searchTerm searchFolder : String) (imageData : ImageCandidate) (st : LoopState) :
    LoopState :=
  match navigateToSourceForFullSize urls e imageData with
  | (events, .error message) => catchHandler (st.log events) imageData message
  | (events, .ok enhancedData) =>
    let st1 := st.log events
    let st2 :=
      if enhancedData.resolution == .enhanced then
        { st1 with sourceNavigationCount := st1.sourceNavigationCount + 1 }
      else st1
    afterResolution urls go opts e searchTerm searchFolder imageData enhancedData st2

/-- The strings among the slots, in slot order (the test `typeof item === 'string'` of line
194). -/
def slotStrings (slots : List Slot) : List String :=
  slots.filterMap fun slot =>
    match slot with
    | .str item => some item
    | _ => none

/-- The test of line 195 on a string of a trailing slot. -/
def eligibleUrl (item : String) : Bool :=
  jsStartsWith item "http" && !jsIncludes item "encrypted-tbn" && !jsIncludes item "google"

/-- The full-size URL as the specification words it: the first string in the slots from index
4 on that is an absolute http URL matching the image-extension pattern. -/
def firstHttpImageUrl (imageInfo : List Slot) : Option String :=
  (slotStrings (imageInfo.drop 4)).find? fun item =>
    jsStartsWith item "http" && hasImageExtension item

/-- A tuple whose first trailing string is an image URL on a `google` host. -/
def googleHostedTuple : List Slot :=
  [.str "https://encrypted-tbn0.gstatic.com/images?q=tbn", .num 1600, .num 1200,
   .str "https://example.org/dragon.jpg", .str "https://www.google.com/imgres/dragon.png",
   .str "https://example.org/gallery"]

/-! ## Lemmas on the URL normalizer -/

theorem replaceAllFuel_irrel (pat : List Char) (rep : Char) (hpat : pat ≠ []) :
    ∀ (n m : Nat) (l : List Char), l.length ≤ n → l.length ≤ m →
      replaceAllFuel pat rep n l = replaceAllFuel pat rep m l := by
  intro n
  induction n with
  | zero =>
    intro m l hn _
    have hl : l = [] := List.length_eq_zero.mp (Nat.le_zero.mp hn)
    subst hl
    cases m <;> simp [replaceAllFuel]
  | succ n ih =>
    intro m l hn hm
    cases l with
    | nil => cases m <;> simp [replaceAllFuel]
    | cons c cs =>
      cases m with
      | zero => simp at hm
      | succ m =>
        have hlen : 0 < pat.length := List.length_pos.mpr hpat
        simp only [List.length_cons] at hn hm
        have hd : ((c :: cs).drop pat.length).length ≤ cs.length := by
          simp only [List.length_drop, List.length_cons]; omega
        simp only [replaceAllFuel]
        split
        · rw [ih m _ (by omega) (by omega)]
        · rw [ih m _ (by omega) (by omega)]

theorem replaceAll_nil (pat : List Char) (rep : Char) : replaceAll pat rep [] = [] := by
  simp [replaceAll, replaceAllFuel]

theorem replaceAll_cons (pat : List Char) (rep : Char) (hpat : pat ≠ []) (c : Char)
    (cs : List Char) :
    replaceAll pat rep (c :: cs) =
      if pat.isPrefixOf (c :: cs) then rep :: replaceAll pat rep ((c :: cs).drop pat.length)
      else c :: replaceAll pat rep cs := by
  have hlen : 0 < pat.length := List.length_pos.mpr hpat
  have hd : ((c :: cs).drop pat.length).length ≤ cs.length := by
    simp only [List.length_drop, List.length_cons]; omega
  simp only [replaceAll, List.length_cons, replaceAllFuel]
  split
  · rw [replaceAllFuel_irrel pat rep hpat cs.length _ _ hd le_rfl]
  · rfl

/-- A string without an occurrence of the pattern is left unchanged. -/
theorem replaceAll_eq_self (pat : List Char) (rep : Char) (hpat : pat ≠ []) :
    ∀ l : List Char, ¬ pat <:+: l → replaceAll pat rep l = l := by
  intro l
  induction l with
  | nil => intro _; exact replaceAll_nil pat rep
  | cons c cs ih =>
    intro h
    have hp : pat.isPrefixOf (c :: cs) = false := by
      cases hb : pat.isPrefixOf (c :: cs) with
      | false => rfl
      | true => exact absurd (List.isPrefixOf_iff_prefix.mp hb).isInfix h
    have hcs : ¬ pat <:+: cs := fun hi => h (hi.trans (List.suffix_cons c cs).isInfix)
    rw [replaceAll_cons pat rep hpat, hp]
    simp [ih hcs]

/-- A non-empty string free of the replacement character can only start the output where it
already starts the input, at a position that is not a match. -/
theorem prefix_of_prefix_replaceAll (pat : List Char) (rep : Char) (hpat : pat ≠ []) :
    ∀ (l q : List Char), q ≠ [] → rep ∉ q → q <+: replaceAll pat rep l →
      q <+: l ∧ pat.isPrefixOf l = false := by
  intro l
  induction l with
  | nil =>
    intro q hq _ h
    rw [replaceAll_nil] at h
    exact absurd (List.prefix_nil.mp h) hq
  | cons c cs ih =>
    intro q hq hrep h
    rw [replaceAll_cons pat rep hpat] at h
    cases hb : pat.isPrefixOf (c :: cs) with
    | true =>
      rw [hb] at h
      simp only [if_true] at h
      cases q with
      | nil => exact absurd rfl hq
      | cons x xs =>
        have hx : x = rep := (List.cons_prefix_cons.mp h).1
        exact absurd (by simp [hx]) hrep
    | false =>
      rw [hb] at h
      simp only [Bool.false_eq_true, if_false] at h
      refine ⟨?_, rfl⟩
      cases q with
      | nil => exact absurd rfl hq
      | cons x xs =>
        obtain ⟨hx, hxs⟩ := List.cons_prefix_cons.mp h
        subst hx
        by_cases hxs0 : xs = []
        · subst hxs0
          exact List.cons_prefix_cons.mpr ⟨rfl, List.nil_prefix⟩
        · have hrep2 : rep ∉ xs := fun hm => hrep (List.mem_cons_of_mem _ hm)
          exact List.cons_prefix_cons.mpr ⟨rfl, (ih xs hxs0 hrep2 hxs).1⟩

/-- Every suffix of the output is the output of the scan restarted at a suffix of the input. -/
theorem suffix_replaceAll (pat : List Char) (rep : Char) (hpat : pat ≠ []) :
    ∀ (n : Nat) (l t : List Char), l.length ≤ n → t <:+ replaceAll pat rep l →
      ∃ r, r <:+ l ∧ t = replaceAll pat rep r := by
  intro n
  induction n with
  | zero =>
    intro l t hn h
    have hl : l = [] := List.length_eq_zero.mp (Nat.le_zero.mp hn)
    subst hl
    rw [replaceAll_nil] at h
    exact ⟨[], List.suffix_refl _, by rw [replaceAll_nil]; exact List.suffix_nil.mp h⟩
  | succ n ih =>
    intro l t hn h
    cases l with
    | nil =>
      rw [replaceAll_nil] at h
      exact ⟨[], List.suffix_refl _, by rw [replaceAll_nil]; exact List.suffix_nil.mp h⟩
    | cons c cs =>
      have hlen : 0 < pat.length := List.length_pos.mpr hpat
      have hd : ((c :: cs).drop pat.length).length ≤ n := by
        simp only [List.length_drop, List.length_cons] at hn ⊢; omega
      have hcs : cs.length ≤ n := by simpa using hn
      by_cases hb : pat.isPrefixOf (c :: cs) = true
      · have he := replaceAll_cons pat rep hpat c cs
        rw [if_pos hb] at he
        rw [he] at h
        rcases List.suffix_cons_iff.mp h with h1 | h1
        · exact ⟨c :: cs, List.suffix_refl _, by rw [h1, he]⟩
        · obtain ⟨r, hr, ht⟩ := ih _ t hd h1
          exact ⟨r, hr.trans (List.drop_suffix _ _), ht⟩
      · have he := replaceAll_cons pat rep hpat c cs
        rw [if_neg hb] at he
        rw [he] at h
        rcases List.suffix_cons_iff.mp h with h1 | h1
        · exact ⟨c :: cs, List.suffix_refl _, by rw [h1, he]⟩
        · obtain ⟨r, hr, ht⟩ := ih cs t hcs h1
          exact ⟨r, hr.trans (List.suffix_cons c cs), ht⟩

/-- An occurrence of `q` in the output comes from an occurrence in the input that starts at a
position the scan did not match. -/
theorem infix_of_infix_replaceAll (pat : List Char) (rep : Char) (hpat : pat ≠ [])
    (l q : List Char) (hq : q ≠ []) (hrep : rep ∉ q) (h : q <:+: replaceAll pat rep l) :
    ∃ r, r <:+ l ∧ q <+: r ∧ pat.isPrefixOf r = false := by
  obtain ⟨t, hqt, htl⟩ := List.infix_iff_prefix_suffix.mp h
  obtain ⟨r, hr, ht⟩ := suffix_replaceAll pat rep hpat l.length l t le_rfl htl
  subst ht
  obtain ⟨h1, h2⟩ := prefix_of_prefix_replaceAll pat rep hpat r q hq hrep hqt
  exact ⟨r, hr, h1, h2⟩

/-- After the replacement no occurrence of the pattern is left. -/
theorem not_infix_replaceAll_self (pat : List Char) (rep : Char) (hpat : pat ≠ [])
    (hrep : rep ∉ pat) (l : List Char) : ¬ pat <:+: replaceAll pat rep l := by
  intro h
  obtain ⟨r, _, h1, h2⟩ := infix_of_infix_replaceAll pat rep hpat l pat hpat hrep h
  rw [List.isPrefixOf_iff_prefix.mpr h1] at h2
  exact Bool.noConfusion h2

/-- The replacement creates no occurrence of another string that avoids the replacement
character. -/
theorem not_infix_replaceAll_other (pat : List Char) (rep : Char) (hpat : pat ≠ [])
    (q : List Char) (hq : q ≠ []) (hrep : rep ∉ q) (l : List Char) (h : ¬ q <:+: l) :
    ¬ q <:+: replaceAll pat rep l := by
  intro hi
  obtain ⟨r, hr, h1, _⟩ := infix_of_infix_replaceAll pat rep hpat l q hq hrep hi
  exact h (List.infix_iff_prefix_suffix.mpr ⟨r, h1, hr⟩)

theorem unescapeUrl_no_escapedEquals (s : String) : ¬ escapedEquals <:+: (unescapeUrl s).data := by
  show ¬ escapedEquals <:+: replaceAll escapedAmpersand '&' (replaceAll escapedEquals '=' s.data)
  apply not_infix_replaceAll_other escapedAmpersand '&' (by decide) escapedEquals (by decide)
    (by decide)
  exact not_infix_replaceAll_self escapedEquals '=' (by decide) (by decide) _

theorem unescapeUrl_no_escapedAmpersand (s : String) :
    ¬ escapedAmpersand <:+: (unescapeUrl s).data :=
  not_infix_replaceAll_self escapedAmpersand '&' (by decide) (by decide) _

theorem unescapeUrl_idem (s : String) : unescapeUrl (unescapeUrl s) = unescapeUrl s := by
  have h1 := unescapeUrl_no_escapedEquals s
  have h2 := unescapeUrl_no_escapedAmpersand s
  show String.mk (replaceAll escapedAmpersand '&'
    (replaceAll escapedEquals '=' (unescapeUrl s).data)) = unescapeUrl s
  rw [replaceAll_eq_self escapedEquals '=' (by decide) _ h1,
    replaceAll_eq_self escapedAmpersand '&' (by decide) _ h2]

theorem replaceAll_ne_nil (pat : List Char) (rep : Char) (hpat : pat ≠ []) (l : List Char)
    (hl : l ≠ []) : replaceAll pat rep l ≠ [] := by
  cases l with
  | nil => exact absurd rfl hl
  | cons c cs =>
    rw [replaceAll_cons pat rep hpat]
    split <;> simp

theorem unescapeUrl_ne_empty (s : String) (hs : s ≠ "") : unescapeUrl s ≠ "" := by
  intro h
  have hd : s.data ≠ [] := by
    intro hd
    apply hs
    cases s
    simp only at hd
    subst hd
    rfl
  have h3 : (unescapeUrl s).data = [] := by rw [h]
  exact replaceAll_ne_nil escapedAmpersand '&' (by decide) _
    (replaceAll_ne_nil escapedEquals '=' (by decide) _ hd) h3

theorem truthyStr_some (s : String) : truthyStr (some s) = true ↔ s ≠ "" := by
  simp [truthyStr]

theorem cleanImageUrl_eq (validUrl : String → Bool) (url : Option String) :
    cleanImageUrl true validUrl url = .ok (cleanValue validUrl url) := by
  cases url with
  | none => simp [cleanImageUrl, cleanValue, truthyStr]
  | some u =>
    by_cases hu : u = ""
    · simp [cleanImageUrl, cleanValue, truthyStr, hu]
    · by_cases hv : validUrl (unescapeUrl u) = true
      · simp [cleanImageUrl, cleanValue, truthyStr, hu, cleanImageUrlBody, newURL, hv]
      · simp [cleanImageUrl, cleanValue, truthyStr, hu, cleanImageUrlBody, newURL, hv]

theorem cleanValue_truthy (validUrl : String → Bool) (url : Option String) (r : String)
    (h : cleanValue validUrl url = some r) : r ≠ "" ∧ validUrl r = true ∧ unescapeUrl r = r := by
  cases url with
  | none => simp [cleanValue] at h
  | some u =>
    simp only [cleanValue] at h
    split at h
    · exact absurd h (by simp)
    · rename_i hu
      split at h
      · rename_i hv
        have hr : unescapeUrl u = r := by simpa using h
        subst hr
        exact ⟨unescapeUrl_ne_empty u hu, hv, unescapeUrl_idem u⟩
      · exact absurd h (by simp)

/-! ## Lemmas on the acquisition loop -/

theorem countBelow_mono (p : Nat → Bool) {a b : Nat} (h : a ≤ b) :
    countBelow p a ≤ countBelow p b := by
  induction b with
  | zero =>
    have : a = 0 := Nat.le_zero.mp h
    subst this
    exact le_rfl
  | succ b ih =>
    rcases Nat.lt_or_ge a (b + 1) with h1 | h1
    · have := ih (Nat.lt_succ_iff.mp h1)
      simp only [countBelow]
      omega
    · have : a = b + 1 := le_antisymm h h1
      subst this
      exact le_rfl

theorem countBelow_le (p : Nat → Bool) (n : Nat) : countBelow p n ≤ n := by
  induction n with
  | zero => simp [countBelow]
  | succ n ih =>
    simp only [countBelow]
    split <;> omega

theorem countBelow_all (p : Nat → Bool) (n : Nat) (h : ∀ i, i < n → p i = true) :
    countBelow p n = n := by
  induction n with
  | zero => rfl
  | succ n ih =>
    simp only [countBelow]
    rw [ih (fun i hi => h i (Nat.lt_succ_of_lt hi)), h n (Nat.lt_succ_self n)]
    simp

theorem navigate_candidate (urls : UrlOracle) (e : Effects) (c : ImageCandidate)
    (r : ResolvedImage) (h : (navigateToSourceForFullSize urls e c).2 = .ok r) :
    r.candidate = c := by
  have hs : ∀ t, (sourcePageStep urls e c t).2 = .ok r → r.candidate = c := by
    intro t ht
    unfold sourcePageStep at ht
    repeat' split at ht
    all_goals first
      | (simp only [Except.ok.injEq] at ht; rw [← ht])
      | exact absurd ht (by simp)
  unfold navigateToSourceForFullSize at h
  repeat' split at h
  all_goals first
    | (simp only [Except.ok.injEq] at h; rw [← h])
    | exact hs _ h
    | exact absurd h (by simp)

theorem StepFacts.of_pre {go : GoogleOptions} {c : ImageCandidate} {k : Bool}
    {st st1 st' : LoopState} (h : StepFacts go c k st1 st')
    (hp : st1.processed = st.processed) (hk : st1.actuallyKeptImages = st.actuallyKeptImages)
    (hr : st1.results = st.results)
    (ht : ∀ ev ∈ st1.trace, ev ∈ st.trace ∨ ev.1 = st.processed) : StepFacts go c k st st' where
  processed := by rw [h.processed, hp]
  kept := by rw [h.kept, hk]
  results := by
    obtain ⟨r, h1, h2⟩ := h.results
    exact ⟨r, by rw [h1, hr], h2⟩
  trace := by
    intro ev hev
    rcases h.trace ev hev with h1 | h1
    · exact ht ev h1
    · exact Or.inr (by rw [h1, hp])

theorem catchHandler_facts (go : GoogleOptions) (st : LoopState) (c : ImageCandidate)
    (m : String) : StepFacts go c false st (catchHandler st c m) where
  processed := rfl
  kept := rfl
  results := ⟨_, rfl, rfl, rfl, rfl, fun h => absurd h (by simp [failureRecord])⟩
  trace := fun _ hev => Or.inl hev

theorem log_pre (st : LoopState) (events : List Event) :
    (st.log events).processed = st.processed ∧
    (st.log events).actuallyKeptImages = st.actuallyKeptImages ∧
    (st.log events).results = st.results ∧
    (st.log events).storage = st.storage ∧
    ∀ ev ∈ (st.log events).trace, ev ∈ st.trace ∨ ev.1 = st.processed := by
  refine ⟨rfl, rfl, rfl, rfl, ?_⟩
  intro ev hev
  simp only [LoopState.log, List.mem_append, List.mem_map] at hev
  rcases hev with h | ⟨x, _, hx⟩
  · exact Or.inl h
  · exact Or.inr (by rw [← hx])

theorem gradeDownload_facts (go : GoogleOptions) (inspect : Option RawMetadata)
    (searchTerm : String) (c : ImageCandidate) (r : ResolvedImage) (hc : r.candidate = c)
    (filepath : String) (st : LoopState) :
    StepFacts go c (measuredAdmit go inspect) st
      (gradeDownload go inspect searchTerm c r filepath st) := by
  cases inspect with
  | none => exact catchHandler_facts go st c _
  | some m =>
    simp only [gradeDownload, getImageMetadata, measuredAdmit]
    cases hrej : rejectsDownloaded go m.width m.height with
    | true =>
      simp only [if_true]
      refine ⟨rfl, rfl, ⟨_, rfl, rfl, rfl, hc,
        fun h => absurd h (by simp [rejectionRecord])⟩, ?_⟩
      intro ev hev
      exact (log_pre st [.unlink filepath]).2.2.2.2 ev hev
    | false =>
      simp only [Bool.false_eq_true, if_false]
      exact ⟨rfl, rfl, ⟨_, rfl, rfl, rfl, hc, fun _ => ⟨_, rfl, hrej⟩⟩,
        fun _ hev => Or.inl hev⟩

theorem afterResolution_facts (urls : UrlOracle) (go : GoogleOptions) (opts : Options)
    (e : Effects) (searchTerm searchFolder : String) (c : ImageCandidate) (r : ResolvedImage)
    (hc : r.candidate = c) (st : LoopState) :
    StepFacts go c (downloadable go r && e.download == .saved && measuredAdmit go e.inspect) st
      (afterResolution urls go opts e searchTerm searchFolder c r st) := by
  unfold afterResolution
  split
  · rename_i h1
    have hd : downloadable go r = false := by
      simp only [Bool.or_eq_true, Bool.not_eq_true', beq_iff_eq] at h1
      rcases h1 with h1 | h1 <;> simp [downloadable, h1]
    rw [hd]
    exact ⟨rfl, rfl, ⟨_, rfl, rfl, rfl, rfl, fun h => absurd h (by simp [failureRecord])⟩,
      fun _ hev => Or.inl hev⟩
  · rename_i h1
    split
    · rename_i h2
      have hd : downloadable go r = false := by
        simp only [Bool.and_eq_true, beq_iff_eq, Bool.not_eq_true'] at h2
        simp [downloadable, h2.1, h2.2]
      rw [hd]
      exact ⟨rfl, rfl, ⟨_, rfl, rfl, rfl, rfl, fun h => absurd h (by simp [failureRecord])⟩,
        fun _ hev => Or.inl hev⟩
    · rename_i h2
      have hd : downloadable go r = true := by
        simp only [Bool.or_eq_true, Bool.not_eq_true', beq_iff_eq, not_or,
          Bool.not_eq_false] at h1
        simp only [Bool.and_eq_true, beq_iff_eq, Bool.not_eq_true', not_and,
          Bool.not_eq_false] at h2
        simp only [downloadable, h1.1, Bool.true_and, Bool.and_eq_true, bne_iff_ne, ne_eq,
          h1.2, not_false_eq_true, true_and, Bool.not_eq_true', Bool.and_eq_false_imp,
          beq_iff_eq, Bool.not_eq_false']
        exact h2
      rw [hd]
      split
      · rename_i hnone
        rw [hnone] at h1
        simp [truthyStr] at h1
      · rename_i finalImageUrl hsome
        cases hdl : e.download with
        | error message =>
          simp only [Bool.true_and]
          have : (DownloadOutcome.error message == DownloadOutcome.saved) = false := by
            simp
          rw [this]
          simp only [Bool.false_and]
          refine StepFacts.of_pre (catchHandler_facts go _ c message) ?_ ?_ ?_ ?_
          · rfl
          · rfl
          · rfl
          · exact (log_pre st _).2.2.2.2
        | saved =>
          simp only [Bool.true_and, beq_self_eq_true]
          refine StepFacts.of_pre (gradeDownload_facts go e.inspect searchTerm c r hc _ _)
            ?_ ?_ ?_ ?_
          · rfl
          · rfl
          · rfl
          · exact (log_pre st _).2.2.2.2

theorem processCandidate_facts (urls : UrlOracle) (go : GoogleOptions) (opts : Options)
    (e : Effects) (searchTerm searchFolder : String) (c : ImageCandidate) (st : LoopState) :
    StepFacts go c (measuredPass urls go e c) st
      (processCandidate urls go opts e searchTerm searchFolder c st) := by
  have hm : ∀ r, resolveCandidate urls e c = .ok r →
      measuredPass urls go e c =
        (downloadable go r && e.download == .saved && measuredAdmit go e.inspect) := by
    intro r hr
    simp only [measuredPass, hr, downloadable, measuredAdmit]
  have hm' : ∀ m, resolveCandidate urls e c = .error m → measuredPass urls go e c = false := by
    intro m hr
    simp only [measuredPass, hr]
  unfold processCandidate
  split
  · rename_i hif
    have hres : resolveCandidate urls e c = (navigateToSourceForFullSize urls e c).2 := by
      simp only [resolveCandidate, hif, if_true]
    split
    · rename_i events message hnav
      rw [hm' message (by rw [hres, hnav])]
      exact StepFacts.of_pre (catchHandler_facts go (st.log events) c message) rfl rfl rfl
        (log_pre st _).2.2.2.2
    · rename_i events enhancedData hnav
      rw [hm enhancedData (by rw [hres, hnav])]
      have hc : enhancedData.candidate = c :=
        navigate_candidate urls e c enhancedData (by rw [hnav])
      refine StepFacts.of_pre
        (afterResolution_facts urls go opts e searchTerm searchFolder c enhancedData hc _)
        ?_ ?_ ?_ ?_
      · split <;> rfl
      · split <;> rfl
      · split <;> rfl
      · intro ev hev
        have : ev ∈ (st.log events).trace := by
          split at hev <;> exact hev
        exact (log_pre st _).2.2.2.2 ev this
  · rename_i hif
    have hres : resolveCandidate urls e c =
        (match cleanImageUrl true urls.validUrl c.thumbnailUrl with
          | .error message => .error message
          | .ok finalUrl =>
            .ok { candidate := c, finalImageUrl := finalUrl, resolution := .thumbnail }) := by
      simp only [resolveCandidate, hif, Bool.false_eq_true, if_false]
    rw [cleanImageUrl_eq] at hres ⊢
    simp only at hres ⊢
    rw [hm _ hres]
    exact afterResolution_facts urls go opts e searchTerm searchFolder c _ rfl st


theorem passesAt_of_get (urls : UrlOracle) (go : GoogleOptions) (world : Nat → Effects)
    (cands : List ImageCandidate) (i : Nat) (c : ImageCandidate) (h : cands[i]? = some c) :
    passesAt urls go world cands i = measuredPass urls go (world i) c := by
  simp only [passesAt, h]

theorem LoopInv.step {urls : UrlOracle} {go : GoogleOptions} {world : Nat → Effects}
    {cands : List ImageCandidate} {target : Nat} {st st' : LoopState} {c : ImageCandidate}
    (hinv : LoopInv (passesAt urls go world cands) target cands.length st)
    (hk : st.actuallyKeptImages < target) (hp : st.processed < cands.length)
    (hc : cands[st.processed]? = some c)
    (hs : StepFacts go c (measuredPass urls go (world st.processed) c) st st') :
    LoopInv (passesAt urls go world cands) target cands.length st' := by
  obtain ⟨r, hr, hrk, _, _, _⟩ := hs.results
  have hpass := passesAt_of_get urls go world cands st.processed c hc
  refine ⟨?_, ?_, ?_, ?_, ?_, ?_⟩
  · rw [hs.kept, hs.processed, hinv.kept_eq]
    simp only [countBelow, hpass]
  · rw [hr, hs.processed, List.length_append, hinv.results_length]
    rfl
  · rw [hr, hs.kept, List.filter_append, List.length_append, hinv.kept_results]
    cases hm : measuredPass urls go (world st.processed) c <;> simp [List.filter, hrk, hm]
  · rw [hs.processed]
    exact hp
  · right
    rw [hs.processed, Nat.add_sub_cancel, ← hinv.kept_eq]
    exact hk
  · intro ev hev
    rw [hs.processed]
    rcases hs.trace ev hev with h | h
    · exact Nat.lt_succ_of_lt (hinv.trace_lt ev h)
    · rw [h]
      exact Nat.lt_succ_self _

theorem huntLoop_inv (urls : UrlOracle) (go : GoogleOptions) (opts : Options)
    (world : Nat → Effects) (searchTerm searchFolder : String) (target : Nat)
    (cands : List ImageCandidate) :
    ∀ (fuel : Nat) (st : LoopState),
      LoopInv (passesAt urls go world cands) target cands.length st →
      LoopInv (passesAt urls go world cands) target cands.length
        (huntLoop urls go opts world searchTerm searchFolder target cands fuel st) := by
  intro fuel
  induction fuel with
  | zero => intro st h; exact h
  | succ fuel ih =>
    intro st h
    simp only [huntLoop]
    split
    · rename_i hg
      split
      · exact h
      · rename_i c hc
        exact ih _ (h.step hg.1 hg.2 hc (processCandidate_facts urls go opts _ _ _ c st))
    · exact h

theorem huntLoop_exit (urls : UrlOracle) (go : GoogleOptions) (opts : Options)
    (world : Nat → Effects) (searchTerm searchFolder : String) (target : Nat)
    (cands : List ImageCandidate) :
    ∀ (fuel : Nat) (st : LoopState), cands.length ≤ st.processed + fuel →
      ¬ ((huntLoop urls go opts world searchTerm searchFolder target cands fuel
            st).actuallyKeptImages < target ∧
         (huntLoop urls go opts world searchTerm searchFolder target cands fuel
            st).processed < cands.length) := by
  intro fuel
  induction fuel with
  | zero =>
    intro st h
    simp only [huntLoop]
    omega
  | succ fuel ih =>
    intro st h
    simp only [huntLoop]
    split
    · rename_i hg
      split
      · rename_i hnone
        have := List.getElem?_eq_none_iff.mp hnone
        omega
      · rename_i c hc
        apply ih
        rw [(processCandidate_facts urls go opts (world st.processed) searchTerm searchFolder c
          st).processed]
        omega
    · rename_i hg
      exact hg

theorem initialState_inv (pass : Nat → Bool) (target len : Nat) (storage : List String) :
    LoopInv pass target len (initialState storage) :=
  ⟨rfl, rfl, rfl, Nat.zero_le _, Or.inl rfl, fun _ h => absurd h (by simp [initialState])⟩

/-- The state in which `downloadEnhancedImageBatch` leaves its loop: the invariant holds and the
loop condition of line 598 is false, so the loop has ended within the fuel given. -/
theorem batch_final (urls : UrlOracle) (go : GoogleOptions) (opts : Options)
    (world : Nat → Effects) (storage : List String) (cands : List ImageCandidate)
    (searchTerm : String) (targetCount : Option Nat) :
    LoopInv (passesAt urls go world cands) (targetOf go targetCount) cands.length
      (downloadEnhancedImageBatch urls go opts world storage cands searchTerm targetCount).final ∧
    ¬ ((downloadEnhancedImageBatch urls go opts world storage cands searchTerm
          targetCount).final.actuallyKeptImages < targetOf go targetCount ∧
       (downloadEnhancedImageBatch urls go opts world storage cands searchTerm
          targetCount).final.processed < cands.length) :=
  ⟨huntLoop_inv urls go opts world searchTerm _ _ cands _ _ (initialState_inv _ _ _ storage),
   huntLoop_exit urls go opts world searchTerm _ _ cands _ _ (by simp [initialState])⟩

theorem LoopInv.kept_le {pass : Nat → Bool} {target len : Nat} {st : LoopState}
    (h : LoopInv pass target len st) : st.actuallyKeptImages ≤ target := by
  rw [h.kept_eq]
  rcases h.entered with h0 | h1
  · rw [h0]
    exact Nat.zero_le _
  · have hp : st.processed = (st.processed - 1) + 1 ∨ st.processed = 0 := by omega
    rcases hp with hp | hp
    · rw [hp]
      simp only [countBelow]
      split <;> omega
    · rw [hp]
      exact Nat.zero_le _

theorem passesAt_lt (urls : UrlOracle) (go : GoogleOptions) (world : Nat → Effects)
    (cands : List ImageCandidate) (i : Nat) (h : passesAt urls go world cands i = true) :
    i < cands.length := by
  by_contra hlt
  have hnone : cands[i]? = none := List.getElem?_eq_none_iff.mpr (Nat.le_of_not_lt hlt)
  simp [passesAt, hnone] at h

theorem Frac.lt_iff (a b : Frac) : a.lt b = true ↔ a.toRat < b.toRat := by
  have ha : (0 : ℚ) < a.den := by exact_mod_cast a.den_pos
  have hb : (0 : ℚ) < b.den := by exact_mod_cast b.den_pos
  simp only [Frac.lt, Frac.toRat, decide_eq_true_eq]
  rw [div_lt_div_iff₀ ha hb]
  norm_cast

theorem belowStandard_eq_false (go : GoogleOptions) (w h : Nat) :
    belowStandard go w h = false ↔
      go.minWidth ≤ w ∧ go.minHeight ≤ h ∧
        go.minMegapixels.toRat ≤ ((w * h : Nat) : ℚ) / 1000000 := by
  have hlt := Frac.lt_iff ⟨w * h, 1000000, by decide⟩ go.minMegapixels
  have hrat : Frac.toRat ⟨w * h, 1000000, by decide⟩ = ((w * h : Nat) : ℚ) / 1000000 := by
    simp [Frac.toRat]
  rw [hrat] at hlt
  simp only [belowStandard, Bool.or_eq_false_iff, decide_eq_false_iff_not, not_lt]
  constructor
  · rintro ⟨⟨h1, h2⟩, h3⟩
    refine ⟨h1, h2, ?_⟩
    by_contra hc
    have := hlt.mpr (lt_of_not_le hc)
    rw [this] at h3
    exact Bool.noConfusion h3
  · rintro ⟨h1, h2, h3⟩
    refine ⟨⟨h1, h2⟩, ?_⟩
    cases hb : Frac.lt ⟨w * h, 1000000, by decide⟩ go.minMegapixels with
    | false => rfl
    | true => exact absurd (hlt.mp hb) (not_lt.mpr h3)

theorem rejectsDownloaded_pos (go : GoogleOptions) (w h : Nat) (hw : 0 < w) (hh : 0 < h) :
    rejectsDownloaded go (some w) (some h) = belowStandard go w h := by
  have h1 : (w == 0) = false := by simp; omega
  have h2 : (h == 0) = false := by simp; omega
  simp [rejectsDownloaded, truthyNum, h1, h2]

theorem rejectsDownloaded_eq_false_iff (go : GoogleOptions) (w h : Nat) (hw : 0 < w)
    (hh : 0 < h) :
    rejectsDownloaded go (some w) (some h) = false ↔
      (go.minWidth ≤ w ∧ go.minHeight ≤ h ∧
        go.minMegapixels.toRat ≤ ((w * h : Nat) : ℚ) / 1000000) := by
  rw [rejectsDownloaded_pos go w h hw hh]
  exact belowStandard_eq_false go w h

theorem huntLoop_results_ok (urls : UrlOracle) (go : GoogleOptions) (opts : Options)
    (world : Nat → Effects) (searchTerm searchFolder : String) (target : Nat)
    (cands : List ImageCandidate) (Q : AcquisitionResult → Prop)
    (hQ : ∀ (c : ImageCandidate) (k : Bool) (st st' : LoopState), StepFacts go c k st st' →
      ∀ r, st'.results = st.results ++ [r] → Q r) :
    ∀ (fuel : Nat) (st : LoopState), (∀ r ∈ st.results, Q r) →
      ∀ r ∈ (huntLoop urls go opts world searchTerm searchFolder target cands fuel st).results,
        Q r := by
  intro fuel
  induction fuel with
  | zero => intro st h; exact h
  | succ fuel ih =>
    intro st h
    simp only [huntLoop]
    split
    · split
      · exact h
      · rename_i c hc
        apply ih
        have hs := processCandidate_facts urls go opts (world st.processed) searchTerm
          searchFolder c st
        obtain ⟨r0, hr0, _⟩ := hs.results
        intro r hr
        rw [hr0] at hr
        rcases List.mem_append.mp hr with h1 | h1
        · exact h r h1
        · have : r = r0 := by simpa using h1
          subst this
          exact hQ c _ st _ hs r hr0
    · exact h

/-! ## The acquisition loop: quota and exhaustion -/

/-- C1: when the quota `T` (line 567) is at most the number of candidates and every candidate
passes the measured quality gate, the batch returns exactly `T` results, all of them kept, has
processed exactly `T` candidates and reports the mission accomplished. -/
theorem quota_met_when_all_pass (urls : UrlOracle) (go : GoogleOptions) (opts : Options)
    (world : Nat → Effects) (storage : List String) (cands : List ImageCandidate)
    (searchTerm : String) (targetCount : Option Nat)
    (hT : targetOf go targetCount ≤ cands.length)
    (hall : ∀ i, i < cands.length → passesAt urls go world cands i = true) :
    (downloadEnhancedImageBatch urls go opts world storage cands searchTerm
        targetCount).results.length = targetOf go targetCount ∧
    ((downloadEnhancedImageBatch urls go opts world storage cands searchTerm
        targetCount).results.filter (fun r => r.kept)).length = targetOf go targetCount ∧
    (downloadEnhancedImageBatch urls go opts world storage cands searchTerm
        targetCount).final.processed = targetOf go targetCount ∧
    (downloadEnhancedImageBatch urls go opts world storage cands searchTerm
        targetCount).final.actuallyKeptImages = targetOf go targetCount ∧
    (downloadEnhancedImageBatch urls go opts world storage cands searchTerm
        targetCount).report = Report.missionAccomplished := by
  obtain ⟨hinv, hexit⟩ := batch_final urls go opts world storage cands searchTerm targetCount
  have hle := hinv.kept_le
  have hkept := hinv.kept_eq
  rw [countBelow_all _ _ (fun i hi => hall i (lt_of_lt_of_le hi hinv.processed_le))] at hkept
  have hlen := hinv.results_length
  have hfil := hinv.kept_results
  have hp : (downloadEnhancedImageBatch urls go opts world storage cands searchTerm
      targetCount).final.processed = targetOf go targetCount := by omega
  have hrep : (downloadEnhancedImageBatch urls go opts world storage cands searchTerm
      targetCount).report = Report.missionAccomplished := by
    show (if _ then Report.missionAccomplished else Report.huntIncomplete) = _
    rw [if_pos]
    show (downloadEnhancedImageBatch urls go opts world storage cands searchTerm
      targetCount).final.actuallyKeptImages ≥ targetOf go targetCount
    omega
  refine ⟨?_, ?_, hp, by omega, hrep⟩
  · show (downloadEnhancedImageBatch urls go opts world storage cands searchTerm
      targetCount).final.results.length = _
    omega
  · show ((downloadEnhancedImageBatch urls go opts world storage cands searchTerm
      targetCount).final.results.filter (fun r => r.kept)).length = _
    omega

/-- Witness of C1: quota 2 over three candidates whose downloads all measure 800 x 600. -/
theorem quota_met_when_all_pass_witness :
    (downloadEnhancedImageBatch demoUrls (demoStandard true) demoOptions allPassWorld []
        ((List.range 3).map thumbnailOnly) "Red Dragon" (some 2)).results.length = 2 ∧
    ((downloadEnhancedImageBatch demoUrls (demoStandard true) demoOptions allPassWorld []
        ((List.range 3).map thumbnailOnly) "Red Dragon" (some 2)).results.filter
          (fun r => r.kept)).length = 2 ∧
    (downloadEnhancedImageBatch demoUrls (demoStandard true) demoOptions allPassWorld []
        ((List.range 3).map thumbnailOnly) "Red Dragon" (some 2)).final.processed = 2 ∧
    (downloadEnhancedImageBatch demoUrls (demoStandard true) demoOptions allPassWorld []
        ((List.range 3).map thumbnailOnly) "Red Dragon" (some 2)).final.actuallyKeptImages = 2 ∧
    (downloadEnhancedImageBatch demoUrls (demoStandard true) demoOptions allPassWorld []
        ((List.range 3).map thumbnailOnly) "Red Dragon" (some 2)).report =
      Report.missionAccomplished :=
  quota_met_when_all_pass demoUrls (demoStandard true) demoOptions allPassWorld []
    ((List.range 3).map thumbnailOnly) "Red Dragon" (some 2) (by decide) (by decide)

/-- C2: when fewer than `T` candidates pass the measured quality gate, the batch processes all
`L` candidates, returns `L` results of which fewer than `T` are kept, and takes the "hunt
incomplete" branch of lines 754-758. -/
theorem hunt_incomplete_when_too_few_pass (urls : UrlOracle) (go : GoogleOptions)
    (opts : Options) (world : Nat → Effects) (storage : List String)
    (cands : List ImageCandidate) (searchTerm : String) (targetCount : Option Nat)
    (hfew : countBelow (passesAt urls go world cands) cands.length < targetOf go targetCount) :
    (downloadEnhancedImageBatch urls go opts world storage cands searchTerm
        targetCount).results.length = cands.length ∧
    (downloadEnhancedImageBatch urls go opts world storage cands searchTerm
        targetCount).final.processed = cands.length ∧
    ((downloadEnhancedImageBatch urls go opts world storage cands searchTerm
        targetCount).results.filter (fun r => r.kept)).length < targetOf go targetCount ∧
    (downloadEnhancedImageBatch urls go opts world storage cands searchTerm
        targetCount).report = Report.huntIncomplete := by
  obtain ⟨hinv, hexit⟩ := batch_final urls go opts world storage cands searchTerm targetCount
  have hkept := hinv.kept_eq
  have hmono := countBelow_mono (passesAt urls go world cands) hinv.processed_le
  have hlen := hinv.results_length
  have hfil := hinv.kept_results
  have hple := hinv.processed_le
  have hp : (downloadEnhancedImageBatch urls go opts world storage cands searchTerm
      targetCount).final.processed = cands.length := by omega
  refine ⟨?_, hp, ?_, ?_⟩
  · show (downloadEnhancedImageBatch urls go opts world storage cands searchTerm
      targetCount).final.results.length = _
    omega
  · show ((downloadEnhancedImageBatch urls go opts world storage cands searchTerm
      targetCount).final.results.filter (fun r => r.kept)).length < _
    omega
  · show (if _ then Report.missionAccomplished else Report.huntIncomplete) = _
    rw [if_neg]
    show ¬ (downloadEnhancedImageBatch urls go opts world storage cands searchTerm
      targetCount).final.actuallyKeptImages ≥ targetOf go targetCount
    omega

/-- Witness of C2: quota 3 over ten candidates of which only the first two pass. -/
theorem hunt_incomplete_when_too_few_pass_witness :
    (downloadEnhancedImageBatch demoUrls (demoStandard true) demoOptions
        (fun i => if i < 2 then allPassWorld i else allSmallWorld i) [] scenarioDCandidates
        "Red Dragon" (some 3)).results.length = scenarioDCandidates.length ∧
    (downloadEnhancedImageBatch demoUrls (demoStandard true) demoOptions
        (fun i => if i < 2 then allPassWorld i else allSmallWorld i) [] scenarioDCandidates
        "Red Dragon" (some 3)).final.processed = scenarioDCandidates.length ∧
    ((downloadEnhancedImageBatch demoUrls (demoStandard true) demoOptions
        (fun i => if i < 2 then allPassWorld i else allSmallWorld i) [] scenarioDCandidates
        "Red Dragon" (some 3)).results.filter (fun r => r.kept)).length <
      targetOf (demoStandard true) (some 3) ∧
    (downloadEnhancedImageBatch demoUrls (demoStandard true) demoOptions
        (fun i => if i < 2 then allPassWorld i else allSmallWorld i) [] scenarioDCandidates
        "Red Dragon" (some 3)).report = Report.huntIncomplete :=
  hunt_incomplete_when_too_few_pass demoUrls (demoStandard true) demoOptions
    (fun i => if i < 2 then allPassWorld i else allSmallWorld i) [] scenarioDCandidates
    "Red Dragon" (some 3) (by decide)

/-- C3: when the `T`-th candidate that passes the measured quality gate sits at position `p`
(counted from 1), the batch stops right after candidate `p`: it returns exactly `p` results,
the kept counter is `T`, and every action on a collaborator belongs to one of the first `p`
candidates. -/
theorem stops_at_quota_position (urls : UrlOracle) (go : GoogleOptions) (opts : Options)
    (world : Nat → Effects) (storage : List String) (cands : List ImageCandidate)
    (searchTerm : String) (targetCount : Option Nat) (p : Nat) (hp : 1 ≤ p)
    (hpass : passesAt urls go world cands (p - 1) = true)
    (hcount : countBelow (passesAt urls go world cands) (p - 1) + 1 =
      targetOf go targetCount) :
    (downloadEnhancedImageBatch urls go opts world storage cands searchTerm
        targetCount).results.length = p ∧
    (downloadEnhancedImageBatch urls go opts world storage cands searchTerm
        targetCount).final.processed = p ∧
    (downloadEnhancedImageBatch urls go opts world storage cands searchTerm
        targetCount).final.actuallyKeptImages = targetOf go targetCount ∧
    ∀ ev ∈ (downloadEnhancedImageBatch urls go opts world storage cands searchTerm
        targetCount).final.trace, ev.1 < p := by
  obtain ⟨hinv, hexit⟩ := batch_final urls go opts world storage cands searchTerm targetCount
  have hpL : p - 1 < cands.length := passesAt_lt urls go world cands _ hpass
  have hcp : countBelow (passesAt urls go world cands) p = targetOf go targetCount := by
    have hpe : p = (p - 1) + 1 := by omega
    rw [hpe]
    simp only [countBelow, Nat.add_sub_cancel, hpass, if_true]
    exact hcount
  have hkept := hinv.kept_eq
  have hlen := hinv.results_length
  have hproc : (downloadEnhancedImageBatch urls go opts world storage cands searchTerm
      targetCount).final.processed = p := by
    rcases Nat.lt_trichotomy (downloadEnhancedImageBatch urls go opts world storage cands
      searchTerm targetCount).final.processed p with h | h | h
    · exfalso
      have hm := countBelow_mono (passesAt urls go world cands) (Nat.le_sub_one_of_lt h)
      omega
    · exact h
    · exfalso
      rcases hinv.entered with h0 | h1
      · omega
      · have hm := countBelow_mono (passesAt urls go world cands)
          (Nat.le_sub_one_of_lt h)
        omega
  refine ⟨?_, hproc, ?_, ?_⟩
  · show (downloadEnhancedImageBatch urls go opts world storage cands searchTerm
      targetCount).final.results.length = _
    omega
  · rw [hkept, hproc]
    exact hcp
  · intro ev hev
    have := hinv.trace_lt ev hev
    omega

/-- Witness of C3, scenario D: quota 3 over ten candidates, the first two fail the measured
gate and the following ones pass: five results, three kept, nothing done for candidates 6-10. -/
theorem scenario_D_stops_after_fifth :
    (downloadEnhancedImageBatch demoUrls (demoStandard true) demoOptions scenarioDWorld []
        scenarioDCandidates "Red Dragon" (some 3)).results.length = 5 ∧
    (downloadEnhancedImageBatch demoUrls (demoStandard true) demoOptions scenarioDWorld []
        scenarioDCandidates "Red Dragon" (some 3)).final.processed = 5 ∧
    (downloadEnhancedImageBatch demoUrls (demoStandard true) demoOptions scenarioDWorld []
        scenarioDCandidates "Red Dragon" (some 3)).final.actuallyKeptImages =
      targetOf (demoStandard true) (some 3) ∧
    ∀ ev ∈ (downloadEnhancedImageBatch demoUrls (demoStandard true) demoOptions scenarioDWorld
        [] scenarioDCandidates "Red Dragon" (some 3)).final.trace, ev.1 < 5 :=
  stops_at_quota_position demoUrls (demoStandard true) demoOptions scenarioDWorld []
    scenarioDCandidates "Red Dragon" (some 3) 5 (by decide) (by decide) (by decide)

/-! ## The quality gate -/

/-- Remark on the guard of line 697, outside what the decoder reports for a file it has
decoded: a width of `0` is falsy, so the comparison is skipped and the file would be admitted
although `0 >= minWidth` fails for the default standard. -/
theorem zero_width_admitted_unchecked :
    ¬ (rejectsDownloaded (demoStandard true) (some 0) (some 600) = false ↔
        ((demoStandard true).minWidth ≤ 0 ∧ (demoStandard true).minHeight ≤ 600 ∧
          (demoStandard true).minMegapixels.toRat ≤ ((0 * 600 : Nat) : ℚ) / 1000000)) := by
  intro h
  have h1 : (demoStandard true).minWidth ≤ 0 := (h.mp (by decide)).1
  exact absurd h1 (by decide)

/-- C4: for every standard and all measured dimensions `w` and `h` of a decoded file (the
decoder reports a width and a height of at least 1 pixel), the check of lines 697-702 admits
the file if and only if the width and the height reach the minimum and the pixel count divided
by 1000000 reaches the minimum megapixels. -/
theorem postDownload_admits_iff (go : GoogleOptions) (w h : Nat) (hw : 0 < w) (hh : 0 < h) :
    rejectsDownloaded go (some w) (some h) = false ↔
      (go.minWidth ≤ w ∧ go.minHeight ≤ h ∧
        go.minMegapixels.toRat ≤ ((w * h : Nat) : ℚ) / 1000000) := by
  rw [rejectsDownloaded_pos go w h hw hh]
  exact belowStandard_eq_false go w h

/-- Witness of C4: 800 x 600 against the default standard. -/
theorem postDownload_admits_iff_witness :
    rejectsDownloaded (demoStandard true) (some 800) (some 600) = false ↔
      ((demoStandard true).minWidth ≤ 800 ∧ (demoStandard true).minHeight ≤ 600 ∧
        (demoStandard true).minMegapixels.toRat ≤ ((800 * 600 : Nat) : ℚ) / 1000000) :=
  postDownload_admits_iff (demoStandard true) 800 600 (by decide) (by decide)

/-- Remark on the guard of line 697, outside what the decoder reports for a file it has
decoded: `0 x 0` would be admitted (the comparison is skipped) while `1 x 1` is rejected by
the default standard. -/
theorem admit_not_monotone_from_zero :
    ¬ (0 ≤ 1 → 0 ≤ 1 → rejectsDownloaded (demoStandard true) (some 0) (some 0) = false →
        rejectsDownloaded (demoStandard true) (some 1) (some 1) = false) := by
  intro h
  exact absurd (h (by decide) (by decide) (by decide)) (by decide)

/-- C5: admission is monotonic on the measured dimensions of decoded files (a width and a
height of at least 1 pixel): a file at least as wide and as high as an admitted one is admitted
under the same standard. -/
theorem postDownload_admit_monotone (go : GoogleOptions) (w h w' h' : Nat) (hw : 0 < w)
    (hh : 0 < h) (hww : w ≤ w') (hhh : h ≤ h')
    (hadm : rejectsDownloaded go (some w) (some h) = false) :
    rejectsDownloaded go (some w') (some h') = false := by
  rw [rejectsDownloaded_eq_false_iff go w h hw hh] at hadm
  rw [rejectsDownloaded_eq_false_iff go w' h' (lt_of_lt_of_le hw hww) (lt_of_lt_of_le hh hhh)]
  obtain ⟨h1, h2, h3⟩ := hadm
  refine ⟨le_trans h1 hww, le_trans h2 hhh, le_trans h3 ?_⟩
  have hmul : w * h ≤ w' * h' := Nat.mul_le_mul hww hhh
  have hq : ((w * h : Nat) : ℚ) ≤ ((w' * h' : Nat) : ℚ) := by exact_mod_cast hmul
  exact div_le_div_of_nonneg_right hq (by norm_num)

/-- Witness of C5: 800 x 600 is admitted, hence so is 1024 x 768. -/
theorem postDownload_admit_monotone_witness :
    rejectsDownloaded (demoStandard true) (some 1024) (some 768) = false :=
  postDownload_admit_monotone (demoStandard true) 800 600 1024 768 (by decide) (by decide)
    (by decide) (by decide) (by decide)

/-- Remark on the guard of line 697, outside what the decoder reports for a file it has
decoded: were the metadata to lack the dimensions, the file would be kept without any
comparison. -/
theorem kept_without_dimensions :
    ∃ r ∈ (downloadEnhancedImageBatch demoUrls (demoStandard true) demoOptions
        noDimensionsWorld [] [thumbnailOnly 0] "Red Dragon" (some 1)).results,
      r.kept = true ∧
        ¬ ∃ m, r.metadata = some m ∧ meetsStandard (demoStandard true) m.width m.height := by
  have hres : ((downloadEnhancedImageBatch demoUrls (demoStandard true) demoOptions
      noDimensionsWorld [] [thumbnailOnly 0] "Red Dragon" (some 1)).results.map
        (fun r => (r.kept, r.metadata.map (fun m => m.width)))) = [(true, some none)] := by
    decide
  cases hr : (downloadEnhancedImageBatch demoUrls (demoStandard true) demoOptions
      noDimensionsWorld [] [thumbnailOnly 0] "Red Dragon" (some 1)).results with
  | nil => rw [hr] at hres; simp at hres
  | cons r rest =>
    rw [hr] at hres
    simp only [List.map_cons, List.cons.injEq, Prod.mk.injEq] at hres
    obtain ⟨⟨hk, hm⟩, _⟩ := hres
    refine ⟨r, List.mem_cons_self _ _, hk, ?_⟩
    rintro ⟨m, hmeta, w, h, hw, _⟩
    rw [hmeta] at hm
    simp only [Option.map_some', Option.some.injEq] at hm
    rw [hm] at hw
    exact Option.noConfusion hw

theorem kept_results_pass_check (urls : UrlOracle) (go : GoogleOptions) (opts : Options)
    (world : Nat → Effects) (storage : List String) (cands : List ImageCandidate)
    (searchTerm : String) (targetCount : Option Nat) (r : AcquisitionResult)
    (hr : r ∈ (downloadEnhancedImageBatch urls go opts world storage cands searchTerm
      targetCount).results) (hk : r.kept = true) :
    ∃ m, r.metadata = some m ∧
      ∀ w h, m.width = some w → m.height = some h → 0 < w → 0 < h →
        meetsStandard go m.width m.height := by
  have hall := huntLoop_results_ok urls go opts world searchTerm (searchFolderOf searchTerm)
    (targetOf go targetCount) cands
    (fun r => r.kept = true → ∃ m, r.metadata = some m ∧
      rejectsDownloaded go m.width m.height = false)
    (by
      intro c k st st' hs r0 hr0
      obtain ⟨r1, hr1, _, _, _, hok⟩ := hs.results
      have : r0 = r1 := by
        have := hr0.symm.trans hr1
        simpa using this
      subst this
      exact hok)
    cands.length (initialState storage) (fun _ h => absurd h (by simp [initialState]))
  obtain ⟨m, hm, hrej⟩ := hall r hr hk
  refine ⟨m, hm, ?_⟩
  intro w h hw hh hwpos hhpos
  rw [hw, hh] at hrej ⊢
  exact ⟨w, h, rfl, rfl, (rejectsDownloaded_eq_false_iff go w h hwpos hhpos).mp hrej⟩

/-! ## Storage -/

/-- A rejection by the quality gate unlinks the downloaded file before the result is pushed. -/
theorem rejected_download_unlinked (go : GoogleOptions) (raw : RawMetadata)
    (searchTerm : String) (c : ImageCandidate) (r : ResolvedImage) (filepath : String)
    (st : LoopState) (h : rejectsDownloaded go raw.width raw.height = true) :
    filepath ∉ (gradeDownload go (some raw) searchTerm c r filepath st).storage := by
  simp [gradeDownload, getImageMetadata, h, LoopState.push, LoopState.advance, LoopState.log]

/-- C7, the code at the failing input: the download is saved but cannot be decoded, so
`getImageMetadata` returns `null` and line 694 throws; the `catch` records `kept = false` and
the downloaded file is still in storage when the batch returns. -/
theorem undecodable_download_left_in_storage :
    (downloadEnhancedImageBatch demoUrls (demoStandard true) demoOptions undecodableWorld []
        [thumbnailOnly 0] "Red Dragon" (some 1)).results.map (fun r => (r.kept, r.error)) =
      [(false, some (Failure.thrown "Cannot read properties of null (reading 'width')"))] ∧
    (0, Event.download "https://encrypted-tbn0.gstatic.com/images?q=0"
        "downloads/candidates/red_dragon/red_dragon_1_thumbnail_1700000000000.jpg") ∈
      (downloadEnhancedImageBatch demoUrls (demoStandard true) demoOptions undecodableWorld []
        [thumbnailOnly 0] "Red Dragon" (some 1)).final.trace ∧
    "downloads/candidates/red_dragon/red_dragon_1_thumbnail_1700000000000.jpg" ∈
      (downloadEnhancedImageBatch demoUrls (demoStandard true) demoOptions undecodableWorld []
        [thumbnailOnly 0] "Red Dragon" (some 1)).final.storage := by
  decide

/-! ## The URL normalizer -/

theorem cleanValue_idem (validUrl : String → Bool) (u : Option String) :
    cleanValue validUrl (cleanValue validUrl u) = cleanValue validUrl u := by
  cases h : cleanValue validUrl u with
  | none => rfl
  | some r =>
    obtain ⟨h1, h2, h3⟩ := cleanValue_truthy validUrl u r h
    simp [cleanValue, h1, h2, h3]

theorem cleanImageUrl_ok (hasLogger : Bool) (validUrl : String → Bool) (u r : Option String)
    (h : cleanImageUrl hasLogger validUrl u = .ok r) : r = cleanValue validUrl u := by
  cases hasLogger with
  | true =>
    rw [cleanImageUrl_eq] at h
    exact (Except.ok.inj h).symm
  | false =>
    cases u with
    | none =>
      simp only [cleanImageUrl, truthyStr, Bool.not_false, if_true] at h
      exact (Except.ok.inj h).symm
    | some s =>
      by_cases hs : s = ""
      · simp only [cleanImageUrl, truthyStr, hs, beq_self_eq_true, Bool.not_true, Bool.not_false,
          if_true] at h
        rw [← Except.ok.inj h]
        simp [cleanValue, hs]
      · cases hv : validUrl (unescapeUrl s)
        · simp [cleanImageUrl, truthyStr, hs, cleanImageUrlBody, newURL, hv] at h
        · have h2 : cleanImageUrl false validUrl (some s) = .ok (some (unescapeUrl s)) := by
            simp [cleanImageUrl, truthyStr, hs, cleanImageUrlBody, newURL, hv]
          rw [h2] at h
          rw [← Except.ok.inj h]
          simp [cleanValue, hs, hv]

theorem cleanImageUrl_cleanValue (hasLogger : Bool) (validUrl : String → Bool)
    (u : Option String) :
    cleanImageUrl hasLogger validUrl (cleanValue validUrl u) = .ok (cleanValue validUrl u) := by
  cases h : cleanValue validUrl u with
  | none => simp [cleanImageUrl, truthyStr]
  | some r =>
    obtain ⟨h1, h2, h3⟩ := cleanValue_truthy validUrl u r h
    simp [cleanImageUrl, truthyStr, h1, cleanImageUrlBody, newURL, h2, h3]

/-- C8: `cleanImageUrl` is idempotent, with URL validity a fixed predicate: it returns without
raising, and cleaning its result again returns the same result; `null` is cleaned to `null`.
This is on an initialised scraper; whatever the state of the logger, whenever the function
returns a value, cleaning that value again returns it. -/
theorem cleanImageUrl_idempotent (validUrl : String → Bool) (u : Option String) :
    (∃ r, cleanImageUrl true validUrl u = .ok r ∧ cleanImageUrl true validUrl r = .ok r) ∧
      cleanImageUrl true validUrl none = .ok none ∧
      (∀ hasLogger r, cleanImageUrl hasLogger validUrl u = .ok r →
        cleanImageUrl hasLogger validUrl r = .ok r) ∧
      ∀ hasLogger, cleanImageUrl hasLogger validUrl none = .ok none := by
  refine ⟨⟨cleanValue validUrl u, cleanImageUrl_eq validUrl u, by
    rw [cleanImageUrl_eq, cleanValue_idem]⟩, rfl, ?_, fun _ => rfl⟩
  intro hasLogger r h
  rw [cleanImageUrl_ok hasLogger validUrl u r h]
  exact cleanImageUrl_cleanValue hasLogger validUrl u

/-- Once the scraper is initialised, `cleanImageUrl` does not raise.  It returns `null` exactly
when the input is absent, empty, or its unescaped form fails URL parsing; otherwise it returns
the unescaped form, in which no `\u003d` and no `\u0026` is left. -/
theorem cleanImageUrl_initialized (validUrl : String → Bool) (u : Option String) :
    ∃ r, cleanImageUrl true validUrl u = .ok r ∧
      (r = none ↔
        (u = none ∨ u = some "" ∨ ∃ s, u = some s ∧ validUrl (unescapeUrl s) = false)) ∧
      (∀ s, u = some s → r ≠ none →
        r = some (unescapeUrl s) ∧ ¬ escapedEquals <:+: (unescapeUrl s).data ∧
          ¬ escapedAmpersand <:+: (unescapeUrl s).data) := by
  refine ⟨cleanValue validUrl u, cleanImageUrl_eq validUrl u, ?_, ?_⟩
  · cases u with
    | none => simp [cleanValue]
    | some s =>
      by_cases hs : s = ""
      · simp [cleanValue, hs]
      · cases hv : validUrl (unescapeUrl s) <;> simp [cleanValue, hs, hv]
  · intro s hu hne
    subst hu
    refine ⟨?_, unescapeUrl_no_escapedEquals s, unescapeUrl_no_escapedAmpersand s⟩
    by_cases hs : s = ""
    · simp [cleanValue, hs] at hne
    · cases hv : validUrl (unescapeUrl s)
      · simp [cleanValue, hs, hv] at hne
      · simp [cleanValue, hs, hv]

theorem cleanImageUrl_raises_iff (hasLogger : Bool) (validUrl : String → Bool)
    (u : Option String) :
    (∃ message, cleanImageUrl hasLogger validUrl u = .error message) ↔
      (hasLogger = false ∧ ∃ s, u = some s ∧ s ≠ "" ∧ validUrl (unescapeUrl s) = false) := by
  cases hasLogger with
  | true =>
    rw [cleanImageUrl_eq]
    simp
  | false =>
    cases u with
    | none => simp [cleanImageUrl, truthyStr]
    | some s =>
      by_cases hs : s = ""
      · simp [cleanImageUrl, truthyStr, hs]
      · cases hv : validUrl (unescapeUrl s) <;>
          simp [cleanImageUrl, truthyStr, hs, cleanImageUrlBody, newURL, hv]

/-- C9: on a scraper that has not been initialised, `cleanImageUrl('not a url')` raises: the
string fails URL parsing, the `catch` block calls `this.logger.warn` and `this.logger` is
`null`.  On an initialised scraper the same call returns `null`. -/
theorem cleanImageUrl_raises_without_logger :
    demoUrls.validUrl (unescapeUrl "not a url") = false ∧
      cleanImageUrl false demoUrls.validUrl (some "not a url") =
        .error "Cannot read properties of null (reading 'warn')" ∧
      cleanImageUrl true demoUrls.validUrl (some "not a url") = .ok none :=
  ⟨by decide, rfl, rfl⟩

/-! ## The resolution strategist -/

theorem sourcePageStep_trace (urls : UrlOracle) (e : Effects) (c : ImageCandidate)
    (t : Option String) :
    ∀ ev ∈ (sourcePageStep urls e c t).1, ∃ s, ev = Event.navigate s := by
  intro ev hev
  unfold sourcePageStep at hev
  repeat' split at hev
  all_goals simp only [List.mem_singleton, List.not_mem_nil] at hev
  all_goals exact ⟨_, hev⟩

/-- C10: whenever `navigateToSourceForFullSize` has issued the HEAD request on the cleaned
full-size URL and the answer was 200, it returns tier `real-fullsize` with that URL as
`finalImageUrl`, whatever `sourcePageUrl` is, and it has navigated to no source page. -/
theorem real_fullsize_on_head_200 (urls : UrlOracle) (e : Effects) (c : ImageCandidate)
    (u : String)
    (hhead : Event.headCheck u (some 200) ∈ (navigateToSourceForFullSize urls e c).1) :
    (navigateToSourceForFullSize urls e c).2 =
        .ok { candidate := c, finalImageUrl := some u, resolution := .realFullsize } ∧
      cleanImageUrl true urls.validUrl c.fullSizeUrl = .ok (some u) ∧
      ∀ s, Event.navigate s ∉ (navigateToSourceForFullSize urls e c).1 := by
  have hsrc := sourcePageStep_trace urls e c (cleanValue urls.validUrl c.thumbnailUrl)
  have hno : Event.headCheck u (some 200) ∉
      (sourcePageStep urls e c (cleanValue urls.validUrl c.thumbnailUrl)).1 := by
    intro hmem
    obtain ⟨s, hs⟩ := hsrc _ hmem
    exact Event.noConfusion hs
  unfold navigateToSourceForFullSize at hhead ⊢
  rw [cleanImageUrl_eq] at hhead ⊢
  simp only at hhead ⊢
  by_cases hfs : truthyStr c.fullSizeUrl = true
  · rw [if_pos hfs, cleanImageUrl_eq] at hhead ⊢
    simp only at hhead ⊢
    split at hhead
    · exact absurd hhead (by simp)
    · rename_i hthumb
      rw [if_neg hthumb]
      cases hfull : cleanValue urls.validUrl c.fullSizeUrl with
      | none =>
        rw [hfull] at hhead
        exact absurd hhead hno
      | some fullUrl =>
        rw [hfull] at hhead
        simp only at hhead ⊢
        split at hhead
        · rename_i hdiff
          rw [if_pos hdiff]
          cases hh : e.head with
          | status code =>
            rw [hh] at hhead
            simp only at hhead ⊢
            split at hhead
            · rename_i hcode
              rw [if_pos hcode]
              have hu : u = fullUrl := by
                simp only [List.mem_singleton, Event.headCheck.injEq] at hhead
                exact hhead.1
              subst hu
              refine ⟨rfl, rfl, ?_⟩
              intro s hs
              simp at hs
            · rename_i hcode
              exfalso
              rcases List.mem_cons.mp hhead with h1 | h1
              · simp only [Event.headCheck.injEq, Option.some.injEq] at h1
                exact hcode (by rw [← h1.2]; rfl)
              · exact hno h1
          | error message =>
            rw [hh] at hhead
            simp only at hhead
            exfalso
            rcases List.mem_cons.mp hhead with h1 | h1
            · simp at h1
            · exact hno h1
        · exact absurd hhead hno
  · rw [if_neg hfs] at hhead
    simp only at hhead
    split at hhead
    · exact absurd hhead (by simp)
    · exact absurd hhead hno

/-- Witness of C10, scenario B: the full-size URL answers 200 and a source page is present;
the tier is `real-fullsize` and the source page is not visited. -/
theorem scenario_B_real_fullsize :
    (navigateToSourceForFullSize demoUrls headOkEffects anchorCandidate).2 =
        .ok { candidate := anchorCandidate,
              finalImageUrl := some "https://example.org/dragon.jpg?v=1",
              resolution := .realFullsize } ∧
      cleanImageUrl true demoUrls.validUrl anchorCandidate.fullSizeUrl =
        .ok (some "https://example.org/dragon.jpg?v=1") ∧
      ∀ s, Event.navigate s ∉ (navigateToSourceForFullSize demoUrls headOkEffects
        anchorCandidate).1 :=
  real_fullsize_on_head_200 demoUrls headOkEffects anchorCandidate
    "https://example.org/dragon.jpg?v=1" (by decide)

/-! ## Lemmas on the candidate extractor -/

theorem take_take_append {α : Type} (n : Nat) (a b : List α) :
    (a.take n ++ b).take n = (a ++ b).take n := by
  rcases Nat.lt_or_ge a.length n with h | h
  · rw [List.take_of_length_le (Nat.le_of_lt h)]
  · have h1 : n ≤ (a.take n).length := by simp [List.length_take, h]
    rw [List.take_append_of_le_length h1, List.take_append_of_le_length h, List.take_take,
      Nat.min_self]

theorem pushUntilQuota_eq {α : Type} (maxResults : Nat) (emit : α → Option ImageCandidate) :
    ∀ (xs : List α) (images : List ImageCandidate), images.length ≤ maxResults →
      pushUntilQuota maxResults emit xs images =
        (images ++ xs.filterMap emit).take maxResults := by
  intro xs
  induction xs with
  | nil =>
    intro images h
    simp [pushUntilQuota, List.take_of_length_le h]
  | cons x rest ih =>
    intro images h
    simp only [pushUntilQuota]
    split
    · rename_i hge
      rw [List.take_append_of_le_length hge, List.take_of_length_le h]
    · rename_i hlt
      cases hx : emit x with
      | none =>
        simp only [List.filterMap_cons, hx]
        exact ih images h
      | some c =>
        simp only [List.filterMap_cons, hx]
        rw [ih (images ++ [c]) (by simp only [List.length_append, List.length_singleton]; omega)]
        simp

theorem quotaStep_eq {α : Type} (n : Nat) (a x : List α) :
    (if (a.take n).length < n then (a.take n ++ x).take n else a.take n) = (a ++ x).take n := by
  split
  · exact take_take_append n a x
  · rename_i h
    have hlen : n ≤ a.length := by
      simp only [List.length_take] at h
      omega
    rw [List.take_append_of_le_length hlen]

theorem scriptLoop_eq (maxResults : Nat) :
    ∀ (scripts : List Script) (images : List ImageCandidate), images.length ≤ maxResults →
      scriptLoop maxResults scripts images =
        (images ++ (scripts.filter (fun script =>
            jsIncludes (script.textContent.getD "") "encrypted-tbn" &&
              jsIncludes (script.textContent.getD "") "http")).flatMap
          (fun script => script.pairMatches.filterMap scriptCandidate)).take maxResults := by
  intro scripts
  induction scripts with
  | nil =>
    intro images h
    simp [scriptLoop, List.take_of_length_le h]
  | cons script rest ih =>
    intro images h
    simp only [scriptLoop]
    split
    · rename_i hge
      rw [List.take_append_of_le_length hge, List.take_of_length_le h]
    · rename_i hlt
      split
      · rename_i hc
        rw [pushUntilQuota_eq maxResults scriptCandidate _ images h,
          ih _ (by simp [List.length_take]), take_take_append]
        simp [List.filter_cons, hc, List.flatMap_cons, List.append_assoc]
      · rename_i hc
        rw [ih images h]
        simp [List.filter_cons, hc]

/-- The extractor returns the first `maxResults` of what the three strategies yield, in strategy
order. -/
theorem extract_eq_take (decodeURIComponent : String → Option String) (page : PageState)
    (maxResults : Nat) :
    extractEnhancedImageData decodeURIComponent page maxResults =
      (allCandidates decodeURIComponent page).take maxResults := by
  have h1 : (match page.ldi with
      | some entries => pushUntilQuota maxResults ldiEmit entries []
      | none => []) =
      (match page.ldi with
        | some entries => entries.filterMap ldiEmit
        | none => []).take maxResults := by
    cases page.ldi with
    | none => simp
    | some entries =>
      simp only
      rw [pushUntilQuota_eq maxResults ldiEmit entries [] (Nat.zero_le _)]
      simp
  simp only [extractEnhancedImageData, allCandidates]
  rw [h1]
  have h2 : ∀ (a : List ImageCandidate),
      (if (a.take maxResults).length < maxResults then
        pushUntilQuota maxResults (imgresCandidate decodeURIComponent) page.imgresLinks
          (a.take maxResults)
      else a.take maxResults) =
      (a ++ page.imgresLinks.filterMap (imgresCandidate decodeURIComponent)).take
        maxResults := by
    intro a
    rw [pushUntilQuota_eq _ _ _ _ (by simp [List.length_take])]
    exact quotaStep_eq maxResults a _
  rw [h2]
  have h3 : ∀ (a : List ImageCandidate),
      (if (a.take maxResults).length < maxResults then
        scriptLoop maxResults page.scripts (a.take maxResults)
      else a.take maxResults) =
      (a ++ (page.scripts.filter (fun script =>
            jsIncludes (script.textContent.getD "") "encrypted-tbn" &&
              jsIncludes (script.textContent.getD "") "http")).flatMap
          (fun script => script.pairMatches.filterMap scriptCandidate)).take maxResults := by
    intro a
    rw [scriptLoop_eq _ _ _ (by simp [List.length_take])]
    exact quotaStep_eq maxResults a _
  rw [h3, List.take_take, Nat.min_self]

/-! ## The candidate extractor -/

/-- C13: for every page state and every quota `q`, the sequence `extractEnhancedImageData`
returns has length at most `q`. -/
theorem extract_length_le_quota (decodeURIComponent : String → Option String)
    (page : PageState) (q : Nat) :
    (extractEnhancedImageData decodeURIComponent page q).length ≤ q := by
  rw [extract_eq_take, List.length_take]
  exact Nat.min_le_left _ _

/-- C14, counterexample: an image that shows up in the structured data, in a result anchor and
in an inline script is returned three times, with the same thumbnail URL and the same full-size
URL each time. -/
theorem repeated_image_returned_thrice :
    (extractEnhancedImageData demoDecode repeatedImagePage 10).length = 3 ∧
    ¬ ((extractEnhancedImageData demoDecode repeatedImagePage 10).map
        (fun c => c.fullSizeUrl)).Nodup ∧
    ¬ ((extractEnhancedImageData demoDecode repeatedImagePage 10).map
        (fun c => c.thumbnailUrl)).Nodup := by
  decide

/-- C14, amended: the sequence `extractEnhancedImageData` returns is the first `q` elements of
what the structured-data strategy, the result-anchor strategy and the inline-script strategy
yield, in that order; nothing is removed, so an image found several times appears several
times. -/
theorem extract_is_strategy_order_prefix (decodeURIComponent : String → Option String)
    (page : PageState) (q : Nat) :
    extractEnhancedImageData decodeURIComponent page q =
      ((match page.ldi with
          | some entries => entries.filterMap ldiEmit
          | none => []) ++
        page.imgresLinks.filterMap (imgresCandidate decodeURIComponent) ++
        (page.scripts.filter (fun script =>
            jsIncludes (script.textContent.getD "") "encrypted-tbn" &&
              jsIncludes (script.textContent.getD "") "http")).flatMap
          (fun script => script.pairMatches.filterMap scriptCandidate)).take q :=
  extract_eq_take decodeURIComponent page q

/-- C15, the code at the failing input: a result anchor of a large image whose container holds
no thumbnail image yields a candidate whose `thumbnailUrl` is `null`; the resolution strategist
then returns tier `failed` for it although its full-size URL answers 200. -/
theorem anchor_candidate_without_thumbnail :
    extractEnhancedImageData demoDecode anchorWithoutThumbnailPage 10 = [anchorOnlyCandidate] ∧
    anchorOnlyCandidate.thumbnailUrl = none ∧
    navigateToSourceForFullSize demoUrls headOkEffects anchorOnlyCandidate =
      ([], .ok { candidate := anchorOnlyCandidate, finalImageUrl := none,
                 resolution := .failed }) :=
  ⟨by decide, rfl, rfl⟩

/-! ## The acquisition loop: order of the results -/

theorem huntLoop_preserves (urls : UrlOracle) (go : GoogleOptions) (opts : Options)
    (world : Nat → Effects) (searchTerm searchFolder : String) (target : Nat)
    (cands : List ImageCandidate) (P : LoopState → Prop)
    (hstep : ∀ (st : LoopState) (c : ImageCandidate), P st →
      st.actuallyKeptImages < target → cands[st.processed]? = some c →
      P (processCandidate urls go opts (world st.processed) searchTerm searchFolder c st)) :
    ∀ (fuel : Nat) (st : LoopState), P st →
      P (huntLoop urls go opts world searchTerm searchFolder target cands fuel st) := by
  intro fuel
  induction fuel with
  | zero => intro st h; exact h
  | succ fuel ih =>
    intro st h
    simp only [huntLoop]
    split
    · rename_i hg
      split
      · exact h
      · rename_i c hc
        exact ih _ (hstep st c h hg.1 hc)
    · exact h

/-- C16: the result list follows the candidates in processing order, failures included: its
length is the number of candidates processed and result `i` is built from candidate `i`. -/
theorem results_follow_candidates (urls : UrlOracle) (go : GoogleOptions) (opts : Options)
    (world : Nat → Effects) (storage : List String) (cands : List ImageCandidate)
    (searchTerm : String) (targetCount : Option Nat) :
    (downloadEnhancedImageBatch urls go opts world storage cands searchTerm
        targetCount).results.length =
      (downloadEnhancedImageBatch urls go opts world storage cands searchTerm
        targetCount).final.processed ∧
    (downloadEnhancedImageBatch urls go opts world storage cands searchTerm
        targetCount).results.map (fun r => r.candidate) =
      cands.take (downloadEnhancedImageBatch urls go opts world storage cands searchTerm
        targetCount).final.processed ∧
    ∀ (i : Nat) (r : AcquisitionResult),
      (downloadEnhancedImageBatch urls go opts world storage cands searchTerm
        targetCount).results[i]? = some r → cands[i]? = some r.candidate := by
  have hinv := (batch_final urls go opts world storage cands searchTerm targetCount).1
  have hmap : (downloadEnhancedImageBatch urls go opts world storage cands searchTerm
      targetCount).final.results.map (fun r => r.candidate) =
      cands.take (downloadEnhancedImageBatch urls go opts world storage cands searchTerm
        targetCount).final.processed := by
    apply huntLoop_preserves urls go opts world searchTerm (searchFolderOf searchTerm)
      (targetOf go targetCount) cands
      (fun st => st.results.map (fun r => r.candidate) = cands.take st.processed)
    · intro st c hP _ hc
      have hs := processCandidate_facts urls go opts (world st.processed) searchTerm
        (searchFolderOf searchTerm) c st
      obtain ⟨r, hr, _, _, hcand, _⟩ := hs.results
      rw [hr, hs.processed, List.map_append, hP, List.take_succ, hc]
      simp [hcand]
    · simp [initialState]
  refine ⟨hinv.results_length, hmap, ?_⟩
  intro i r hi
  have hmap' : ((downloadEnhancedImageBatch urls go opts world storage cands searchTerm
      targetCount).results.map (fun r => r.candidate))[i]? = some r.candidate := by
    rw [List.getElem?_map, hi]
    rfl
  have hmap2 : (downloadEnhancedImageBatch urls go opts world storage cands searchTerm
      targetCount).results.map (fun r => r.candidate) =
      cands.take (downloadEnhancedImageBatch urls go opts world storage cands searchTerm
        targetCount).final.processed := hmap
  rw [hmap2] at hmap'
  rcases Nat.lt_or_ge i (downloadEnhancedImageBatch urls go opts world storage cands searchTerm
        targetCount).final.processed with hlt | hge
  · rw [List.getElem?_take_of_lt hlt] at hmap'
    exact hmap'
  · rw [List.getElem?_eq_none_iff.mpr (by simp [List.length_take]; omega)] at hmap'
    exact absurd hmap' (by simp)

/-! ## The resolution strategist: tiers -/

theorem ne_none_of_truthyStr (x : Option String) (h : truthyStr x = true) : x ≠ none := by
  intro hx
  rw [hx] at h
  exact Bool.noConfusion h

theorem sourcePageStep_no_head (urls : UrlOracle) (e : Effects) (c : ImageCandidate)
    (t : Option String) (u : String) (s : Option Nat) :
    Event.headCheck u s ∉ (sourcePageStep urls e c t).1 := by
  intro hmem
  obtain ⟨x, hx⟩ := sourcePageStep_trace urls e c t _ hmem
  exact Event.noConfusion hx

theorem sourcePageStep_final (urls : UrlOracle) (e : Effects) (c : ImageCandidate)
    (t : Option String) (ht : truthyStr t = true) (r : ResolvedImage)
    (h : (sourcePageStep urls e c t).2 = .ok r) :
    r.resolution ≠ .failed ∧ r.finalImageUrl ≠ none := by
  unfold sourcePageStep at h
  repeat' split at h
  all_goals first
    | (simp only [Except.ok.injEq] at h
       rw [← h]
       exact ⟨by simp, ne_none_of_truthyStr _ ht⟩)
    | (simp only [Except.ok.injEq] at h
       rw [← h]
       rename_i hc
       exact ⟨by simp, ne_none_of_truthyStr _ hc⟩)
    | simp at h

/-- C11: when `navigateToSourceForFullSize` returns tier `enhanced`, the direct full-size check
was either skipped (no HEAD request was issued, because there is no full-size URL or it
normalizes to `null` or to the thumbnail URL) or it failed (the HEAD request answered a status
other than 200, or raised an error). -/
theorem enhanced_only_after_direct_check_skipped_or_failed (urls : UrlOracle) (e : Effects)
    (c : ImageCandidate) (r : ResolvedImage)
    (hres : (navigateToSourceForFullSize urls e c).2 = .ok r)
    (henh : r.resolution = .enhanced) :
    ((∀ u s, Event.headCheck u s ∉ (navigateToSourceForFullSize urls e c).1) ∧
      (truthyStr c.fullSizeUrl = false ∨ cleanValue urls.validUrl c.fullSizeUrl = none ∨
        cleanValue urls.validUrl c.fullSizeUrl = cleanValue urls.validUrl c.thumbnailUrl)) ∨
    (∃ u code, e.head = .status code ∧ code ≠ 200 ∧
      Event.headCheck u (some code) ∈ (navigateToSourceForFullSize urls e c).1) ∨
    (∃ u message, e.head = .error message ∧
      Event.headCheck u none ∈ (navigateToSourceForFullSize urls e c).1) := by
  have hno := sourcePageStep_no_head urls e c (cleanValue urls.validUrl c.thumbnailUrl)
  unfold navigateToSourceForFullSize at hres ⊢
  rw [cleanImageUrl_eq] at hres ⊢
  simp only at hres ⊢
  by_cases hfs : truthyStr c.fullSizeUrl = true
  · rw [if_pos hfs, cleanImageUrl_eq] at hres ⊢
    simp only at hres ⊢
    split at hres
    · simp only [Except.ok.injEq] at hres
      rw [← hres] at henh
      exact absurd henh (by simp)
    · rename_i hthumb
      rw [if_neg hthumb]
      cases hfull : cleanValue urls.validUrl c.fullSizeUrl with
      | none =>
        exact Or.inl ⟨fun u s => hno u s, Or.inr (Or.inl rfl)⟩
      | some fullUrl =>
        rw [hfull] at hres
        simp only at hres ⊢
        split at hres
        · rename_i hdiff
          rw [if_pos hdiff]
          cases hh : e.head with
          | status code =>
            rw [hh] at hres
            simp only at hres ⊢
            split at hres
            · simp only [Except.ok.injEq] at hres
              rw [← hres] at henh
              exact absurd henh (by simp)
            · rename_i hcode
              rw [if_neg hcode]
              refine Or.inr (Or.inl ⟨fullUrl, code, rfl, ?_, List.mem_cons_self _ _⟩)
              intro hc
              exact hcode (by simp [hc])
          | error message =>
            simp only
            exact Or.inr (Or.inr ⟨fullUrl, message, rfl, List.mem_cons_self _ _⟩)
        · rename_i hdiff
          rw [if_neg hdiff]
          refine Or.inl ⟨fun u s => hno u s, Or.inr (Or.inr ?_)⟩
          have hne : fullUrl ≠ "" := (cleanValue_truthy urls.validUrl _ _ hfull).1
          have ht : truthyStr (some fullUrl) = true := (truthyStr_some fullUrl).mpr hne
          rw [ht] at hdiff
          simpa using hdiff
  · rw [if_neg hfs] at hres ⊢
    simp only at hres ⊢
    split at hres
    · simp only [Except.ok.injEq] at hres
      rw [← hres] at henh
      exact absurd henh (by simp)
    · rename_i hthumb
      rw [if_neg hthumb]
      exact Or.inl ⟨fun u s => hno u s, Or.inl (by simpa using hfs)⟩

/-- Witness of C11: the full-size URL answers 404, the source page offers a large image, and
the tier is `enhanced`. -/
theorem enhanced_only_after_direct_check_skipped_or_failed_witness :
    ((∀ u s, Event.headCheck u s ∉
        (navigateToSourceForFullSize demoUrls headFailsEffects anchorCandidate).1) ∧
      (truthyStr anchorCandidate.fullSizeUrl = false ∨
        cleanValue demoUrls.validUrl anchorCandidate.fullSizeUrl = none ∨
        cleanValue demoUrls.validUrl anchorCandidate.fullSizeUrl =
          cleanValue demoUrls.validUrl anchorCandidate.thumbnailUrl)) ∨
    (∃ u code, headFailsEffects.head = .status code ∧ code ≠ 200 ∧
      Event.headCheck u (some code) ∈
        (navigateToSourceForFullSize demoUrls headFailsEffects anchorCandidate).1) ∨
    (∃ u message, headFailsEffects.head = .error message ∧
      Event.headCheck u none ∈
        (navigateToSourceForFullSize demoUrls headFailsEffects anchorCandidate).1) :=
  enhanced_only_after_direct_check_skipped_or_failed demoUrls headFailsEffects anchorCandidate
    { candidate := anchorCandidate, finalImageUrl := some "https://example.org/large.jpg",
      resolution := .enhanced } rfl rfl

/-- C12, counterexample: for a candidate with nothing but a thumbnail that fails to normalize,
the inline path of lines 616-621 builds a record of tier `thumbnail` without a `finalImageUrl`. -/
theorem inline_record_thumbnail_without_url :
    ∃ r, resolveCandidate demoUrls (allPassWorld 0) relativeThumbnailCandidate = .ok r ∧
      ¬ (r.resolution = .failed ↔ r.finalImageUrl = none) :=
  ⟨{ candidate := relativeThumbnailCandidate, finalImageUrl := none, resolution := .thumbnail },
    rfl, by decide⟩

/-- C12, amended: every record `navigateToSourceForFullSize` returns has tier `failed` if and
only if its `finalImageUrl` is absent; the record the inline thumbnail path builds for a
candidate with no full-size and no source-page URL always has tier `thumbnail`, and its
`finalImageUrl` is the cleaned thumbnail URL, absent exactly when the thumbnail fails to
normalize. -/
theorem failed_iff_no_final_url (urls : UrlOracle) (e : Effects) (c : ImageCandidate) :
    (∀ r, (navigateToSourceForFullSize urls e c).2 = .ok r →
      (r.resolution = .failed ↔ r.finalImageUrl = none)) ∧
    (truthyStr c.fullSizeUrl = false → truthyStr c.sourcePageUrl = false →
      ∃ r, resolveCandidate urls e c = .ok r ∧ r.resolution = .thumbnail ∧
        r.finalImageUrl = cleanValue urls.validUrl c.thumbnailUrl) := by
  constructor
  · intro r hres
    have hsrc := sourcePageStep_final urls e c (cleanValue urls.validUrl c.thumbnailUrl)
    unfold navigateToSourceForFullSize at hres
    rw [cleanImageUrl_eq] at hres
    simp only at hres
    have hfull : ∃ f, (if truthyStr c.fullSizeUrl = true then
        cleanImageUrl true urls.validUrl c.fullSizeUrl else .ok none) = .ok f := by
      split
      · exact ⟨_, cleanImageUrl_eq _ _⟩
      · exact ⟨_, rfl⟩
    obtain ⟨f, hf⟩ := hfull
    rw [hf] at hres
    simp only at hres
    split at hres
    · simp only [Except.ok.injEq] at hres
      rw [← hres]
      simp
    · rename_i hthumb
      have ht : truthyStr (cleanValue urls.validUrl c.thumbnailUrl) = true := by
        simpa using hthumb
      have hok : r.resolution ≠ .failed ∧ r.finalImageUrl ≠ none → 
          (r.resolution = .failed ↔ r.finalImageUrl = none) := by
        rintro ⟨h1, h2⟩
        exact ⟨fun h => absurd h h1, fun h => absurd h h2⟩
      repeat' split at hres
      all_goals first
        | exact hok (hsrc ht r hres)
        | (simp only [Except.ok.injEq] at hres
           rw [← hres]
           simp)
  · intro hfs hsp
    refine ⟨{ candidate := c, finalImageUrl := cleanValue urls.validUrl c.thumbnailUrl,
              resolution := .thumbnail }, ?_, rfl, rfl⟩
    simp only [resolveCandidate, hfs, hsp, Bool.or_self, Bool.false_eq_true, if_false]
    rw [cleanImageUrl_eq]

/-! ## The acquisition loop: faults and file names -/

theorem downloadable_guards (go : GoogleOptions) (r : ResolvedImage)
    (h : downloadable go r = true) :
    (!truthyStr r.finalImageUrl || r.resolution == .failed) = false ∧
    (r.resolution == .thumbnail && !go.fallbackToThumbnails) = false := by
  simp only [downloadable, Bool.and_eq_true, bne_iff_ne, ne_eq, Bool.not_eq_true',
    Bool.and_eq_false_imp, beq_iff_eq, Bool.not_eq_false'] at h
  obtain ⟨⟨h1, h2⟩, h3⟩ := h
  refine ⟨?_, ?_⟩
  · simp [h1, h2]
  · cases hb : (r.resolution == Resolution.thumbnail)
    · rfl
    · have := h3 (by simpa using hb)
      simp [this]

theorem afterResolution_fault (urls : UrlOracle) (go : GoogleOptions) (opts : Options)
    (e : Effects) (searchTerm searchFolder : String) (c : ImageCandidate) (r : ResolvedImage)
    (st : LoopState) (m : String) (hd : downloadable go r = true)
    (hf : (match e.download with
      | .error message => some message
      | .saved =>
        match e.inspect with
        | none => some "Cannot read properties of null (reading 'width')"
        | some _ => none) = some m) :
    (afterResolution urls go opts e searchTerm searchFolder c r st).results =
        st.results ++ [failureRecord c (.thrown m)] ∧
    (afterResolution urls go opts e searchTerm searchFolder c r st).actuallyKeptImages =
        st.actuallyKeptImages ∧
    (afterResolution urls go opts e searchTerm searchFolder c r st).processed =
        st.processed + 1 := by
  obtain ⟨h1, h2⟩ := downloadable_guards go r hd
  unfold afterResolution
  rw [h1, h2]
  simp only [Bool.false_eq_true, if_false]
  cases hfin : r.finalImageUrl with
  | none =>
    rw [hfin] at h1
    simp [truthyStr] at h1
  | some u =>
    simp only
    cases hdl : e.download with
    | error message =>
      rw [hdl] at hf
      simp only [Option.some.injEq] at hf
      subst hf
      exact ⟨rfl, rfl, rfl⟩
    | saved =>
      rw [hdl] at hf
      simp only at hf ⊢
      cases hi : e.inspect with
      | none =>
        rw [hi] at hf
        simp only [Option.some.injEq] at hf
        subst hf
        exact ⟨rfl, rfl, rfl⟩
      | some raw =>
        rw [hi] at hf
        exact absurd hf (by simp)

theorem processCandidate_fault (urls : UrlOracle) (go : GoogleOptions) (opts : Options)
    (e : Effects) (searchTerm searchFolder : String) (c : ImageCandidate) (st : LoopState)
    (m : String) (hfault : faultOf urls go e c = some m) :
    (processCandidate urls go opts e searchTerm searchFolder c st).results =
        st.results ++ [failureRecord c (.thrown m)] ∧
    (processCandidate urls go opts e searchTerm searchFolder c st).actuallyKeptImages =
        st.actuallyKeptImages ∧
    (processCandidate urls go opts e searchTerm searchFolder c st).processed =
        st.processed + 1 := by
  unfold faultOf at hfault
  unfold processCandidate
  split
  · rename_i hif
    have hres : resolveCandidate urls e c = (navigateToSourceForFullSize urls e c).2 := by
      simp only [resolveCandidate, hif, if_true]
    rw [hres] at hfault
    split
    · rename_i events message hnav
      rw [hnav] at hfault
      simp only [Option.some.injEq] at hfault
      subst hfault
      exact ⟨rfl, rfl, rfl⟩
    · rename_i events enhancedData hnav
      rw [hnav] at hfault
      simp only at hfault
      split at hfault
      · rename_i hd
        have h := afterResolution_fault urls go opts e searchTerm searchFolder c enhancedData
          (if enhancedData.resolution == .enhanced then
            { st.log events with
              sourceNavigationCount := (st.log events).sourceNavigationCount + 1 }
          else st.log events) m hd hfault
        obtain ⟨h1, h2, h3⟩ := h
        refine ⟨?_, ?_, ?_⟩
        · rw [h1]; split <;> rfl
        · rw [h2]; split <;> rfl
        · rw [h3]; split <;> rfl
      · exact absurd hfault (by simp)
  · rename_i hif
    have hres : resolveCandidate urls e c =
        (match cleanImageUrl true urls.validUrl c.thumbnailUrl with
          | .error message => .error message
          | .ok finalUrl =>
            .ok { candidate := c, finalImageUrl := finalUrl, resolution := .thumbnail }) := by
      simp only [resolveCandidate, hif, Bool.false_eq_true, if_false]
    rw [hres] at hfault
    rw [cleanImageUrl_eq] at hfault ⊢
    simp only at hfault ⊢
    split at hfault
    · rename_i hd
      exact afterResolution_fault urls go opts e searchTerm searchFolder c _ st m hd hfault
    · exact absurd hfault (by simp)

/-- C19: an error raised while one candidate is processed (by the resolution, by the download
or by reading the metadata) is caught: the candidate gets exactly one result, with
`success = false`, `kept = false` and the error message, the kept counter is unchanged, and the
loop goes on with the next candidate. -/
theorem fault_is_recorded_and_loop_goes_on (urls : UrlOracle) (go : GoogleOptions)
    (opts : Options) (world : Nat → Effects) (searchTerm searchFolder : String) (target : Nat)
    (cands : List ImageCandidate) (st : LoopState) (c : ImageCandidate) (m : String)
    (hc : cands[st.processed]? = some c) (hk : st.actuallyKeptImages < target)
    (hfault : faultOf urls go (world st.processed) c = some m) :
    (processCandidate urls go opts (world st.processed) searchTerm searchFolder c st).results =
        st.results ++ [{ candidate := c, finalImageUrl := none, resolution := none,
                         filepath := none, metadata := none, searchTerm := none,
                         error := some (.thrown m), success := false, kept := false }] ∧
    (processCandidate urls go opts (world st.processed) searchTerm searchFolder c
        st).actuallyKeptImages = st.actuallyKeptImages ∧
    (processCandidate urls go opts (world st.processed) searchTerm searchFolder c
        st).processed = st.processed + 1 ∧
    ∀ fuel, huntLoop urls go opts world searchTerm searchFolder target cands (fuel + 1) st =
      huntLoop urls go opts world searchTerm searchFolder target cands fuel
        (processCandidate urls go opts (world st.processed) searchTerm searchFolder c st) := by
  obtain ⟨h1, h2, h3⟩ := processCandidate_fault urls go opts (world st.processed) searchTerm
    searchFolder c st m hfault
  refine ⟨h1, h2, h3, ?_⟩
  intro fuel
  have hlt : st.processed < cands.length := by
    by_contra hge
    rw [List.getElem?_eq_none_iff.mpr (Nat.le_of_not_lt hge)] at hc
    exact absurd hc (by simp)
  simp only [huntLoop, hk, hlt, and_self, if_true, hc]

/-- Witness of C19: the download of the first of two candidates is refused; the failure is
recorded and the loop goes on. -/
theorem fault_is_recorded_and_loop_goes_on_witness :
    (processCandidate demoUrls (demoStandard true) demoOptions (downloadFailsWorld 0)
        "Red Dragon" "red_dragon" (thumbnailOnly 0) (initialState [])).results =
        [] ++ [{ candidate := thumbnailOnly 0, finalImageUrl := none, resolution := none,
                 filepath := none, metadata := none, searchTerm := none,
                 error := some (.thrown "Request failed with status code 403"),
                 success := false, kept := false }] ∧
    (processCandidate demoUrls (demoStandard true) demoOptions (downloadFailsWorld 0)
        "Red Dragon" "red_dragon" (thumbnailOnly 0) (initialState [])).actuallyKeptImages =
      0 ∧
    (processCandidate demoUrls (demoStandard true) demoOptions (downloadFailsWorld 0)
        "Red Dragon" "red_dragon" (thumbnailOnly 0) (initialState [])).processed = 0 + 1 ∧
    ∀ fuel, huntLoop demoUrls (demoStandard true) demoOptions downloadFailsWorld "Red Dragon"
        "red_dragon" 2 [thumbnailOnly 0, thumbnailOnly 1] (fuel + 1) (initialState []) =
      huntLoop demoUrls (demoStandard true) demoOptions downloadFailsWorld "Red Dragon"
        "red_dragon" 2 [thumbnailOnly 0, thumbnailOnly 1] fuel
        (processCandidate demoUrls (demoStandard true) demoOptions (downloadFailsWorld 0)
          "Red Dragon" "red_dragon" (thumbnailOnly 0) (initialState [])) :=
  fault_is_recorded_and_loop_goes_on demoUrls (demoStandard true) demoOptions
    downloadFailsWorld "Red Dragon" "red_dragon" 2 [thumbnailOnly 0, thumbnailOnly 1]
    (initialState []) (thumbnailOnly 0) "Request failed with status code 403" (by decide)
    (by decide) (by decide)

theorem KeeperNamed.after_pre {opts : Options} {searchFolder : String} {now : Nat}
    {st st1 st' : LoopState} (h : KeeperNamed opts searchFolder now st1 st')
    (hr : st1.results = st.results) (hk : st1.actuallyKeptImages = st.actuallyKeptImages) :
    KeeperNamed opts searchFolder now st st' := by
  obtain ⟨r, h1, h2⟩ := h
  refine ⟨r, by rw [h1, hr], ?_⟩
  rw [← hk]
  exact h2

theorem catchHandler_keeper (opts : Options) (searchFolder : String) (now : Nat)
    (st : LoopState) (c : ImageCandidate) (m : String) :
    KeeperNamed opts searchFolder now st (catchHandler st c m) :=
  ⟨_, rfl, fun h => absurd h (by simp [failureRecord])⟩

theorem gradeDownload_keeper (go : GoogleOptions) (inspect : Option RawMetadata)
    (searchTerm : String) (c : ImageCandidate) (r : ResolvedImage) (filepath : String)
    (st : LoopState) :
    ∃ x, (gradeDownload go inspect searchTerm c r filepath st).results = st.results ++ [x] ∧
      (x.kept = true → x.resolution = some r.resolution ∧ x.filepath = some filepath) := by
  cases inspect with
  | none => exact ⟨_, rfl, fun h => absurd h (by simp [failureRecord])⟩
  | some raw =>
    simp only [gradeDownload, getImageMetadata]
    split
    · exact ⟨_, rfl, fun h => absurd h (by simp [rejectionRecord])⟩
    · exact ⟨_, rfl, fun _ => ⟨rfl, rfl⟩⟩

theorem afterResolution_keeper (urls : UrlOracle) (go : GoogleOptions) (opts : Options)
    (e : Effects) (searchTerm searchFolder : String) (c : ImageCandidate) (r : ResolvedImage)
    (st : LoopState) :
    KeeperNamed opts searchFolder e.now st
      (afterResolution urls go opts e searchTerm searchFolder c r st) := by
  unfold afterResolution
  split
  · exact ⟨_, rfl, fun h => absurd h (by simp [failureRecord])⟩
  · split
    · exact ⟨_, rfl, fun h => absurd h (by simp [failureRecord])⟩
    · split
      · exact catchHandler_keeper opts searchFolder e.now st c _
      · rename_i finalImageUrl hfin
        cases e.download with
        | error message =>
          exact (catchHandler_keeper opts searchFolder e.now _ c message).after_pre rfl rfl
        | saved =>
          simp only
          obtain ⟨x, hx, hkeep⟩ := gradeDownload_keeper go e.inspect searchTerm c r
            (pathJoin [pathJoin [opts.downloadDir, pathJoin ["candidates", searchFolder]],
              searchFolder ++ "_" ++ toString (st.actuallyKeptImages + 1) ++ "_" ++
                r.resolution.tag ++ "_" ++ toString e.now ++ "." ++
                (if getImageExtension urls finalImageUrl == "" then "jpg"
                  else getImageExtension urls finalImageUrl)])
            { st.log [.download finalImageUrl
                (pathJoin [pathJoin [opts.downloadDir, pathJoin ["candidates", searchFolder]],
                  searchFolder ++ "_" ++ toString (st.actuallyKeptImages + 1) ++ "_" ++
                    r.resolution.tag ++ "_" ++ toString e.now ++ "." ++
                    (if getImageExtension urls finalImageUrl == "" then "jpg"
                      else getImageExtension urls finalImageUrl)])] with
              storage :=
                (pathJoin [pathJoin [opts.downloadDir, pathJoin ["candidates", searchFolder]],
                  searchFolder ++ "_" ++ toString (st.actuallyKeptImages + 1) ++ "_" ++
                    r.resolution.tag ++ "_" ++ toString e.now ++ "." ++
                    (if getImageExtension urls finalImageUrl == "" then "jpg"
                      else getImageExtension urls finalImageUrl)]) ::
                  (st.log [.download finalImageUrl
                    (pathJoin [pathJoin [opts.downloadDir, pathJoin ["candidates", searchFolder]],
                      searchFolder ++ "_" ++ toString (st.actuallyKeptImages + 1) ++ "_" ++
                        r.resolution.tag ++ "_" ++ toString e.now ++ "." ++
                        (if getImageExtension urls finalImageUrl == "" then "jpg"
                          else getImageExtension urls finalImageUrl)])]).storage }
          refine ⟨x, hx, ?_⟩
          intro hk
          obtain ⟨h1, h2⟩ := hkeep hk
          exact ⟨r.resolution, _, h1, h2⟩

theorem processCandidate_keeper (urls : UrlOracle) (go : GoogleOptions) (opts : Options)
    (e : Effects) (searchTerm searchFolder : String) (c : ImageCandidate) (st : LoopState) :
    KeeperNamed opts searchFolder e.now st
      (processCandidate urls go opts e searchTerm searchFolder c st) := by
  unfold processCandidate
  split
  · split
    · rename_i events message hnav
      exact (catchHandler_keeper opts searchFolder e.now _ c message).after_pre rfl rfl
    · rename_i events enhancedData hnav
      refine (afterResolution_keeper urls go opts e searchTerm searchFolder c enhancedData
        _).after_pre ?_ ?_
      · split <;> rfl
      · split <;> rfl
  · rw [cleanImageUrl_eq]
    exact afterResolution_keeper urls go opts e searchTerm searchFolder c _ st

/-- C20: the file downloaded for the `j`-th kept result (counting from 1) is named
`<search folder>_<j>_<tier>_<timestamp>.<ext>` inside the folder of the search term: the number
in the name is the kept counter plus one at download time, not the candidate index, so the
numbers of the kept results are 1, 2, ..., `actuallyKeptImages` in order. -/
theorem kept_files_numbered_in_order (urls : UrlOracle) (go : GoogleOptions) (opts : Options)
    (world : Nat → Effects) (storage : List String) (cands : List ImageCandidate)
    (searchTerm : String) (targetCount : Option Nat) :
    ((downloadEnhancedImageBatch urls go opts world storage cands searchTerm
        targetCount).results.filter (fun r => r.kept)).length =
      (downloadEnhancedImageBatch urls go opts world storage cands searchTerm
        targetCount).final.actuallyKeptImages ∧
    ∀ (j : Nat) (r : AcquisitionResult),
      ((downloadEnhancedImageBatch urls go opts world storage cands searchTerm
        targetCount).results.filter (fun r => r.kept))[j]? = some r →
      ∃ tier now ext, r.resolution = some tier ∧
        r.filepath = some (storagePath opts (searchFolderOf searchTerm)
          (filenameFor (searchFolderOf searchTerm) (j + 1) tier now ext)) := by
  apply huntLoop_preserves urls go opts world searchTerm (searchFolderOf searchTerm)
    (targetOf go targetCount) cands
    (fun st => (st.results.filter (fun r => r.kept)).length = st.actuallyKeptImages ∧
      ∀ (j : Nat) (r : AcquisitionResult),
        (st.results.filter (fun r => r.kept))[j]? = some r →
        ∃ tier now ext, r.resolution = some tier ∧
          r.filepath = some (storagePath opts (searchFolderOf searchTerm)
            (filenameFor (searchFolderOf searchTerm) (j + 1) tier now ext)))
  · intro st c hP _ _
    obtain ⟨hlen, hnames⟩ := hP
    have hs := processCandidate_facts urls go opts (world st.processed) searchTerm
      (searchFolderOf searchTerm) c st
    obtain ⟨x, hx, hnamed⟩ := processCandidate_keeper urls go opts (world st.processed)
      searchTerm (searchFolderOf searchTerm) c st
    obtain ⟨r0, hr0, hk0, _⟩ := hs.results
    have hxr : x = r0 := by
      have := hx.symm.trans hr0
      simpa using this
    subst hxr
    rw [hx, hs.kept, List.filter_append]
    cases hkx : x.kept with
    | false =>
      have hm : measuredPass urls go (world st.processed) c = false := by rw [← hk0, hkx]
      simp only [List.filter_cons, hkx, Bool.false_eq_true, if_false, List.filter_nil,
        List.append_nil, hm, Nat.add_zero]
      exact ⟨hlen, hnames⟩
    | true =>
      have hm : measuredPass urls go (world st.processed) c = true := by rw [← hk0, hkx]
      simp only [List.filter_cons, hkx, if_true, List.filter_nil, hm, List.length_append,
        List.length_singleton, hlen, true_and]
      intro j r hj
      rcases Nat.lt_or_ge j (st.results.filter (fun r => r.kept)).length with hlt | hge
      · rw [List.getElem?_append_left hlt] at hj
        exact hnames j r hj
      · rw [List.getElem?_append_right hge] at hj
        have hj0 : j - (st.results.filter (fun r => r.kept)).length = 0 := by
          by_contra hne
          rw [List.getElem?_eq_none_iff.mpr (by simp; omega)] at hj
          exact absurd hj (by simp)
        rw [hj0] at hj
        simp only [List.getElem?_cons_zero, Option.some.injEq] at hj
        subst hj
        obtain ⟨tier, ext, h1, h2⟩ := hnamed hkx
        have hjk : j + 1 = st.actuallyKeptImages + 1 := by omega
        rw [hjk]
        exact ⟨tier, _, ext, h1, h2⟩
  · refine ⟨rfl, ?_⟩
    intro j r hj
    simp [initialState] at hj

/-- Witness of C20, scenario D: the third kept result comes from the fifth candidate and its
file carries the number 3. -/
theorem kept_files_numbered_in_order_witness :
    ∃ tier now ext, (some Resolution.thumbnail : Option Resolution) = some tier ∧
      some "downloads/candidates/red_dragon/red_dragon_3_thumbnail_1700000000004.jpg" =
        some (storagePath demoOptions (searchFolderOf "Red Dragon")
          (filenameFor (searchFolderOf "Red Dragon") (2 + 1) tier now ext)) :=
  (kept_files_numbered_in_order demoUrls (demoStandard true) demoOptions scenarioDWorld []
    scenarioDCandidates "Red Dragon" (some 3)).2 2
    (keeperRecord
      { candidate := thumbnailOnly 4, finalImageUrl := (thumbnailOnly 4).thumbnailUrl,
        resolution := .thumbnail }
      "downloads/candidates/red_dragon/red_dragon_3_thumbnail_1700000000004.jpg"
      { width := some 800, height := some 600, format := "jpeg", size := 90000, quality := 45,
        filepath :=
          "downloads/candidates/red_dragon/red_dragon_3_thumbnail_1700000000004.jpg" }
      "Red Dragon")
    (by decide)

/-! ## Scenario A and the thumbnail fallback -/

theorem processCandidate_thumbnail_only (urls : UrlOracle) (go : GoogleOptions)
    (opts : Options) (e : Effects) (searchTerm searchFolder : String) (c : ImageCandidate)
    (st : LoopState) (hfs : truthyStr c.fullSizeUrl = false)
    (hsp : truthyStr c.sourcePageUrl = false) :
    processCandidate urls go opts e searchTerm searchFolder c st =
      afterResolution urls go opts e searchTerm searchFolder c
        { candidate := c, finalImageUrl := cleanValue urls.validUrl c.thumbnailUrl,
          resolution := .thumbnail } st := by
  unfold processCandidate
  rw [cleanImageUrl_eq]
  simp [hfs, hsp]

theorem truthyStr_cleanValue (validUrl : String → Bool) (u : Option String)
    (h : cleanValue validUrl u ≠ none) : truthyStr (cleanValue validUrl u) = true := by
  cases hc : cleanValue validUrl u with
  | none => exact absurd hc h
  | some t => exact (truthyStr_some t).mpr (cleanValue_truthy validUrl u t hc).1

theorem afterResolution_thumbnail_rejected (urls : UrlOracle) (go : GoogleOptions)
    (opts : Options) (e : Effects) (searchTerm searchFolder : String) (c : ImageCandidate)
    (t : Option String) (st : LoopState) (ht : truthyStr t = true)
    (hfb : go.fallbackToThumbnails = false) :
    afterResolution urls go opts e searchTerm searchFolder c
        { candidate := c, finalImageUrl := t, resolution := .thumbnail } st =
      (st.push (failureRecord c .thumbnailRejected)).advance := by
  unfold afterResolution
  simp [ht, hfb]

theorem afterResolution_thumbnail_kept (urls : UrlOracle) (go : GoogleOptions)
    (opts : Options) (e : Effects) (searchTerm searchFolder : String) (c : ImageCandidate)
    (t : Option String) (st : LoopState) (raw : RawMetadata) (ht : truthyStr t = true)
    (hfb : go.fallbackToThumbnails = true) (hdl : e.download = .saved)
    (hi : e.inspect = some raw) (hadm : rejectsDownloaded go raw.width raw.height = false) :
    ∃ r, (afterResolution urls go opts e searchTerm searchFolder c
        { candidate := c, finalImageUrl := t, resolution := .thumbnail } st).results =
        st.results ++ [r] ∧ r.kept = true ∧ r.resolution = some .thumbnail := by
  cases t with
  | none => exact absurd ht (by simp [truthyStr])
  | some u =>
    unfold afterResolution
    simp only [ht, hfb, hdl, hi, gradeDownload, getImageMetadata, hadm, Bool.not_true,
      Bool.false_or, beq_iff_eq, Bool.and_false, Bool.false_eq_true, if_false]
    exact ⟨_, rfl, rfl, rfl⟩

/-- C17, scenario A: candidates with a thumbnail that normalizes and no full-size or
source-page URL, the standard 400 x 400 pixels and 0.4 megapixels, every download measuring
800 x 600, and a quota not below the number of candidates (five in the scenario).  With
`fallbackToThumbnails` enabled every candidate is kept, with tier `thumbnail`; with it disabled
every result is a thumbnail rejection with `kept = false`, and nothing is downloaded. -/
theorem scenario_A_thumbnail_fallback (urls : UrlOracle) (go : GoogleOptions) (opts : Options)
    (world : Nat → Effects) (storage : List String) (cands : List ImageCandidate)
    (searchTerm : String) (targetCount : Option Nat)
    (hcands : ∀ c ∈ cands, truthyStr c.fullSizeUrl = false ∧
      truthyStr c.sourcePageUrl = false ∧ cleanValue urls.validUrl c.thumbnailUrl ≠ none)
    (hworld : ∀ i, (world i).download = .saved ∧
      ∃ raw, (world i).inspect = some raw ∧ raw.width = some 800 ∧ raw.height = some 600)
    (hstd : go.minWidth = 400 ∧ go.minHeight = 400 ∧ go.minMegapixels = ⟨2, 5, by decide⟩)
    (hT : cands.length ≤ targetOf go targetCount) :
    (go.fallbackToThumbnails = true →
      (downloadEnhancedImageBatch urls go opts world storage cands searchTerm
          targetCount).results.length = cands.length ∧
      ∀ r ∈ (downloadEnhancedImageBatch urls go opts world storage cands searchTerm
          targetCount).results, r.kept = true ∧ r.resolution = some .thumbnail) ∧
    (go.fallbackToThumbnails = false →
      (downloadEnhancedImageBatch urls go opts world storage cands searchTerm
          targetCount).results.length = cands.length ∧
      (∀ r ∈ (downloadEnhancedImageBatch urls go opts world storage cands searchTerm
          targetCount).results, r.kept = false ∧ r.error = some .thumbnailRejected) ∧
      (downloadEnhancedImageBatch urls go opts world storage cands searchTerm
          targetCount).final.trace = [] ∧
      (downloadEnhancedImageBatch urls go opts world storage cands searchTerm
          targetCount).final.storage = storage) := by
  obtain ⟨hinv, hexit⟩ := batch_final urls go opts world storage cands searchTerm targetCount
  have hlen := hinv.results_length
  have hfil := hinv.kept_results
  have hple := hinv.processed_le
  have hadm : rejectsDownloaded go (some 800) (some 600) = false := by
    obtain ⟨h1, h2, h3⟩ := hstd
    simp [rejectsDownloaded, truthyNum, belowStandard, h1, h2, h3, Frac.lt]
  constructor
  · intro hfb
    have hall : ∀ r ∈ (downloadEnhancedImageBatch urls go opts world storage cands searchTerm
        targetCount).final.results, r.kept = true ∧ r.resolution = some .thumbnail := by
      apply huntLoop_preserves urls go opts world searchTerm (searchFolderOf searchTerm)
        (targetOf go targetCount) cands
        (fun st => ∀ r ∈ st.results, r.kept = true ∧ r.resolution = some .thumbnail)
      · intro st c hP _ hc
        obtain ⟨hfs, hsp, hth⟩ := hcands c (List.getElem?_mem hc)
        obtain ⟨hdl, raw, hi, hw, hh⟩ := hworld st.processed
        rw [processCandidate_thumbnail_only urls go opts _ _ _ c st hfs hsp]
        obtain ⟨r0, hr0, hk0, hres0⟩ := afterResolution_thumbnail_kept urls go opts
          (world st.processed) searchTerm (searchFolderOf searchTerm) c
          (cleanValue urls.validUrl c.thumbnailUrl) st raw
          (truthyStr_cleanValue _ _ hth) hfb hdl hi (by rw [hw, hh]; exact hadm)
        intro r hr
        rw [hr0] at hr
        rcases List.mem_append.mp hr with h1 | h1
        · exact hP r h1
        · have : r = r0 := by simpa using h1
          subst this
          exact ⟨hk0, hres0⟩
      · intro r hr
        simp [initialState] at hr
    refine ⟨?_, hall⟩
    have hfilter : (downloadEnhancedImageBatch urls go opts world storage cands searchTerm
        targetCount).final.results.filter (fun r => r.kept) =
        (downloadEnhancedImageBatch urls go opts world storage cands searchTerm
        targetCount).final.results :=
      List.filter_eq_self.mpr (fun r hr => (hall r hr).1)
    rw [hfilter] at hfil
    show (downloadEnhancedImageBatch urls go opts world storage cands searchTerm
        targetCount).final.results.length = cands.length
    omega
  · intro hfb
    have hall : (∀ r ∈ (downloadEnhancedImageBatch urls go opts world storage cands searchTerm
        targetCount).final.results, r.kept = false ∧ r.error = some .thumbnailRejected) ∧
        (downloadEnhancedImageBatch urls go opts world storage cands searchTerm
          targetCount).final.trace = [] ∧
        (downloadEnhancedImageBatch urls go opts world storage cands searchTerm
          targetCount).final.storage = storage := by
      apply huntLoop_preserves urls go opts world searchTerm (searchFolderOf searchTerm)
        (targetOf go targetCount) cands
        (fun st => (∀ r ∈ st.results, r.kept = false ∧ r.error = some .thumbnailRejected) ∧
          st.trace = [] ∧ st.storage = storage)
      · intro st c hP _ hc
        obtain ⟨hfs, hsp, hth⟩ := hcands c (List.getElem?_mem hc)
        rw [processCandidate_thumbnail_only urls go opts _ _ _ c st hfs hsp,
          afterResolution_thumbnail_rejected urls go opts _ _ _ c _ st
            (truthyStr_cleanValue _ _ hth) hfb]
        refine ⟨?_, hP.2.1, hP.2.2⟩
        intro r hr
        simp only [LoopState.advance, LoopState.push, List.mem_append,
          List.mem_singleton] at hr
        rcases hr with h1 | h1
        · exact hP.1 r h1
        · rw [h1]
          exact ⟨rfl, rfl⟩
      · exact ⟨fun r hr => absurd hr (by simp [initialState]), rfl, rfl⟩
    refine ⟨?_, hall⟩
    have hfilter : (downloadEnhancedImageBatch urls go opts world storage cands searchTerm
        targetCount).final.results.filter (fun r => r.kept) = [] :=
      List.filter_eq_nil_iff.mpr (fun r hr => by simp [(hall.1 r hr).1])
    rw [hfilter] at hfil
    show (downloadEnhancedImageBatch urls go opts world storage cands searchTerm
        targetCount).final.results.length = cands.length
    simp only [List.length_nil] at hfil
    omega

/-- Witness of C17: five structured-data candidates under the configuration the constructor
builds, with the fallback enabled and with the default (disabled). -/
theorem scenario_A_thumbnail_fallback_witness :
    ((downloadEnhancedImageBatch demoUrls (googleOptionsOf { fallbackToThumbnails := some true })
          demoOptions allPassWorld [] ((List.range 5).map thumbnailOnly) "Red Dragon"
          none).results.length = ((List.range 5).map thumbnailOnly).length ∧
      ∀ r ∈ (downloadEnhancedImageBatch demoUrls
          (googleOptionsOf { fallbackToThumbnails := some true }) demoOptions allPassWorld []
          ((List.range 5).map thumbnailOnly) "Red Dragon" none).results,
        r.kept = true ∧ r.resolution = some .thumbnail) ∧
    ((downloadEnhancedImageBatch demoUrls (googleOptionsOf {}) demoOptions allPassWorld []
          ((List.range 5).map thumbnailOnly) "Red Dragon" none).results.length =
        ((List.range 5).map thumbnailOnly).length ∧
      (∀ r ∈ (downloadEnhancedImageBatch demoUrls (googleOptionsOf {}) demoOptions allPassWorld
          [] ((List.range 5).map thumbnailOnly) "Red Dragon" none).results,
        r.kept = false ∧ r.error = some .thumbnailRejected) ∧
      (downloadEnhancedImageBatch demoUrls (googleOptionsOf {}) demoOptions allPassWorld []
          ((List.range 5).map thumbnailOnly) "Red Dragon" none).final.trace = [] ∧
      (downloadEnhancedImageBatch demoUrls (googleOptionsOf {}) demoOptions allPassWorld []
          ((List.range 5).map thumbnailOnly) "Red Dragon" none).final.storage = []) :=
  ⟨(scenario_A_thumbnail_fallback demoUrls (googleOptionsOf { fallbackToThumbnails := some true })
      demoOptions allPassWorld [] ((List.range 5).map thumbnailOnly) "Red Dragon" none
      (by decide) (fun _ => ⟨rfl, _, rfl, rfl, rfl⟩) (by decide) (by decide)).1 rfl,
   (scenario_A_thumbnail_fallback demoUrls (googleOptionsOf {}) demoOptions allPassWorld []
      ((List.range 5).map thumbnailOnly) "Red Dragon" none
      (by decide) (fun _ => ⟨rfl, _, rfl, rfl, rfl⟩) (by decide) (by decide)).2 rfl⟩

/-! ## Source-page navigations -/

/-- C18, the code at the failing input: with `maxSourceNavigations` configured as 1, and also
with it set to 0, two candidates that have only a source page are both navigated to:
the option is never read by the loop. -/
theorem navigations_exceed_configured_limit :
    (googleOptionsOf { maxSourceNavigations := some 1 }).maxSourceNavigations = 1 ∧
    navigationCount (downloadEnhancedImageBatch demoUrls
        (googleOptionsOf { maxSourceNavigations := some 1 }) demoOptions sourcePageWorld []
        ((List.range 2).map sourcePageCandidate) "Red Dragon" none).final.trace = 2 ∧
    (googleOptionsOf { googleOptions := { maxSourceNavigations := some 0 } }).maxSourceNavigations
      = 0 ∧
    navigationCount (downloadEnhancedImageBatch demoUrls
        (googleOptionsOf { googleOptions := { maxSourceNavigations := some 0 } }) demoOptions
        sourcePageWorld [] ((List.range 2).map sourcePageCandidate) "Red Dragon"
        none).final.trace = 2 := by
  decide

/-! ## The result-anchor strategy: declared dimensions -/

theorem half_le_megapixels (n : Nat) : (1 / 2 : ℚ) ≤ (n : ℚ) / 1000000 ↔ 500000 ≤ n := by
  rw [le_div_iff₀ (by norm_num : (0 : ℚ) < 1000000)]
  constructor
  · intro h
    have h2 : ((500000 : Nat) : ℚ) ≤ (n : ℚ) := by
      push_cast
      linarith
    exact_mod_cast h2
  · intro h
    have h2 : ((500000 : Nat) : ℚ) ≤ (n : ℚ) := by exact_mod_cast h
    push_cast at h2
    linarith

theorem not_lt_half_iff (n : Nat) :
    (Frac.lt ⟨n, 1000000, by decide⟩ ⟨1, 2, by decide⟩ = false) ↔ 500000 ≤ n := by
  simp only [Frac.lt, decide_eq_false_iff_not, not_lt]
  omega

theorem imgresCandidate_some (decodeURIComponent : String → Option String) (link : ImgresLink)
    (c : ImageCandidate) (h : imgresCandidate decodeURIComponent link = some c) :
    512 < parsedOrZero link.w ∧ 512 < parsedOrZero link.h ∧
      500000 ≤ (parsedOrZero link.w * parsedOrZero link.h).toNat ∧
      c.width = .num (parsedOrZero link.w).toNat ∧
      c.height = .num (parsedOrZero link.h).toNat ∧ c.source = "imgres-link" := by
  unfold imgresCandidate at h
  dsimp only at h
  split at h
  · simp at h
  · split at h
    · simp at h
    · rename_i imgurl himg
      split at h
      · rename_i hdim
        simp only [Bool.and_eq_true, decide_eq_true_eq] at hdim
        split at h
        · rename_i hmp
          have hmp2 := (not_lt_half_iff _).mp (by simpa using hmp)
          split at h
          · simp at h
          · split at h
            · split at h
              · simp at h
              · simp only [Option.some.injEq] at h
                rw [← h]
                exact ⟨hdim.1.2, hdim.2, hmp2, rfl, rfl, rfl⟩
            · simp only [Option.some.injEq] at h
              rw [← h]
              exact ⟨hdim.1.2, hdim.2, hmp2, rfl, rfl, rfl⟩
        · simp at h
      · simp at h

theorem imgresCandidate_none (decodeURIComponent : String → Option String) (link : ImgresLink)
    (h : ¬ (512 < parsedOrZero link.w ∧ 512 < parsedOrZero link.h ∧
      500000 ≤ (parsedOrZero link.w * parsedOrZero link.h).toNat)) :
    imgresCandidate decodeURIComponent link = none := by
  cases hc : imgresCandidate decodeURIComponent link with
  | none => rfl
  | some c =>
    obtain ⟨h1, h2, h3, _⟩ := imgresCandidate_some decodeURIComponent link c hc
    exact absurd ⟨h1, h2, h3⟩ h

theorem ldiEmit_source (entry : LdiEntry) (c : ImageCandidate) (h : ldiEmit entry = some c) :
    c.source = "ldi-enhanced" := by
  cases entry with
  | malformed => simp [ldiEmit] at h
  | tuple imageInfo =>
    simp only [ldiEmit, ldiCandidate] at h
    repeat' split at h
    all_goals first
      | (simp only [Option.some.injEq] at h
         rw [← h])
      | simp at h

theorem scriptCandidate_source (m : PairMatch) (c : ImageCandidate)
    (h : scriptCandidate m = some c) : c.source = "script-enhanced" := by
  unfold scriptCandidate at h
  split at h
  · simp only [Option.some.injEq] at h
    rw [← h]
  · exact absurd h (by simp)

theorem mem_allCandidates_imgres (decodeURIComponent : String → Option String)
    (page : PageState) (c : ImageCandidate) (hc : c ∈ allCandidates decodeURIComponent page)
    (hs : c.source = "imgres-link") :
    ∃ link ∈ page.imgresLinks, imgresCandidate decodeURIComponent link = some c := by
  simp only [allCandidates, List.mem_append, List.mem_filterMap, List.mem_flatMap,
    List.mem_filter] at hc
  rcases hc with (hc | hc) | hc
  · exfalso
    cases hl : page.ldi with
    | none =>
      rw [hl] at hc
      simp at hc
    | some entries =>
      rw [hl] at hc
      obtain ⟨entry, _, he⟩ := List.mem_filterMap.mp hc
      have := ldiEmit_source entry c he
      rw [hs] at this
      exact absurd this (by decide)
  · exact hc
  · exfalso
    obtain ⟨script, _, m, _, hm⟩ := hc
    have := scriptCandidate_source m c hm
    rw [hs] at this
    exact absurd this (by decide)

/-- C21: every candidate the result-anchor strategy emits has the declared width and height of
its anchor, both numbers above 512, and `width * height / 1000000 >= 0.5`; an anchor that
fails one of the three conditions contributes no candidate.  The same holds for every
candidate of that strategy in the output of `extractEnhancedImageData`. -/
theorem imgres_candidates_meet_declared_floor (decodeURIComponent : String → Option String)
    (link : ImgresLink) (page : PageState) (q : Nat) :
    (∀ c, imgresCandidate decodeURIComponent link = some c →
      ∃ w h : Nat, c.width = .num w ∧ c.height = .num h ∧
        (w : Int) = parsedOrZero link.w ∧ (h : Int) = parsedOrZero link.h ∧
        512 < w ∧ 512 < h ∧ (1 / 2 : ℚ) ≤ ((w * h : Nat) : ℚ) / 1000000) ∧
    (¬ (512 < parsedOrZero link.w ∧ 512 < parsedOrZero link.h ∧
        (1 / 2 : ℚ) ≤
          (((parsedOrZero link.w * parsedOrZero link.h).toNat : Nat) : ℚ) / 1000000) →
      imgresCandidate decodeURIComponent link = none) ∧
    (∀ c ∈ extractEnhancedImageData decodeURIComponent page q, c.source = "imgres-link" →
      ∃ w h : Nat, c.width = .num w ∧ c.height = .num h ∧
        512 < w ∧ 512 < h ∧ (1 / 2 : ℚ) ≤ ((w * h : Nat) : ℚ) / 1000000) := by
  have key : ∀ (l : ImgresLink) (c : ImageCandidate),
      imgresCandidate decodeURIComponent l = some c →
      ∃ w h : Nat, c.width = .num w ∧ c.height = .num h ∧
        (w : Int) = parsedOrZero l.w ∧ (h : Int) = parsedOrZero l.h ∧
        512 < w ∧ 512 < h ∧ (1 / 2 : ℚ) ≤ ((w * h : Nat) : ℚ) / 1000000 := by
    intro l c hc
    obtain ⟨h1, h2, h3, hw, hh, _⟩ := imgresCandidate_some decodeURIComponent l c hc
    have hwn : ((parsedOrZero l.w).toNat : Int) = parsedOrZero l.w :=
      Int.toNat_of_nonneg (by omega)
    have hhn : ((parsedOrZero l.h).toNat : Int) = parsedOrZero l.h :=
      Int.toNat_of_nonneg (by omega)
    have hprod : (parsedOrZero l.w * parsedOrZero l.h).toNat =
        (parsedOrZero l.w).toNat * (parsedOrZero l.h).toNat := by
      have : (((parsedOrZero l.w).toNat * (parsedOrZero l.h).toNat : Nat) : Int) =
          parsedOrZero l.w * parsedOrZero l.h := by
        push_cast
        rw [hwn, hhn]
      rw [← this]
      exact Int.toNat_natCast _
    refine ⟨(parsedOrZero l.w).toNat, (parsedOrZero l.h).toNat, hw, hh, hwn, hhn, by omega,
      by omega, ?_⟩
    rw [half_le_megapixels, ← hprod]
    exact h3
  refine ⟨key link, ?_, ?_⟩
  · intro hneg
    apply imgresCandidate_none
    intro h
    exact hneg ⟨h.1, h.2.1, (half_le_megapixels _).mpr h.2.2⟩
  · intro c hc hs
    rw [extract_eq_take] at hc
    obtain ⟨l, _, hl⟩ := mem_allCandidates_imgres decodeURIComponent page c
      (List.mem_of_mem_take hc) hs
    obtain ⟨w, h, hw, hh, _, _, h5, h6, h7⟩ := key l c hl
    exact ⟨w, h, hw, hh, h5, h6, h7⟩

/-- Witness of C21: the anchor declared 1600 x 1200 yields a candidate with these dimensions. -/
theorem imgres_candidates_meet_declared_floor_witness :
    ∃ c, imgresCandidate demoDecode (dragonAnchor none none) = some c ∧
      ∃ w h : Nat, c.width = .num w ∧ c.height = .num h ∧
        (w : Int) = 1600 ∧ (h : Int) = 1200 ∧
        512 < w ∧ 512 < h ∧ (1 / 2 : ℚ) ≤ ((w * h : Nat) : ℚ) / 1000000 :=
  ⟨_, rfl, (imgres_candidates_meet_declared_floor demoDecode (dragonAnchor none none)
    repeatedImagePage 3).1 _ rfl⟩

/-! ## The direct check and the status it accepts -/

theorem sourcePageStep_not_real (urls : UrlOracle) (e : Effects) (c : ImageCandidate)
    (t : Option String) (r : ResolvedImage) (h : (sourcePageStep urls e c t).2 = .ok r) :
    r.resolution ≠ .realFullsize := by
  unfold sourcePageStep at h
  repeat' split at h
  all_goals first
    | (simp only [Except.ok.injEq] at h
       rw [← h]
       simp)
    | simp at h

theorem navigate_after_head (urls : UrlOracle) (e : Effects) (c : ImageCandidate)
    (f : String) (code : Nat)
    (hthumb : truthyStr (cleanValue urls.validUrl c.thumbnailUrl) = true)
    (hfull : cleanValue urls.validUrl c.fullSizeUrl = some f)
    (hdiff : some f ≠ cleanValue urls.validUrl c.thumbnailUrl)
    (hhead : e.head = .status code) :
    navigateToSourceForFullSize urls e c =
      if code = 200 then
        ([.headCheck f (some code)],
          .ok { candidate := c, finalImageUrl := some f, resolution := .realFullsize })
      else
        (.headCheck f (some code) ::
            (sourcePageStep urls e c (cleanValue urls.validUrl c.thumbnailUrl)).1,
          (sourcePageStep urls e c (cleanValue urls.validUrl c.thumbnailUrl)).2) := by
  have hfs : truthyStr c.fullSizeUrl = true := by
    cases hc : c.fullSizeUrl with
    | none =>
      rw [hc] at hfull
      simp [cleanValue] at hfull
    | some u =>
      rw [hc] at hfull
      rw [truthyStr_some]
      intro hu
      rw [hu] at hfull
      simp [cleanValue] at hfull
  have hf : truthyStr (some f) = true :=
    (truthyStr_some f).mpr (cleanValue_truthy _ _ f hfull).1
  unfold navigateToSourceForFullSize
  rw [cleanImageUrl_eq, if_pos hfs, cleanImageUrl_eq, hfull]
  simp only [hthumb, hf, hhead, Bool.not_true, Bool.false_eq_true, if_false, Bool.true_and,
    bne_iff_ne, ne_eq, hdiff, not_false_eq_true, if_true, beq_iff_eq]

/-- C22, counterexample: the full-size URL of `anchorCandidate` normalizes to a URL other than
the thumbnail and the HEAD request answers 204, a status of the 200 class; the record returned
has tier `thumbnail`, not `real-fullsize`. -/
theorem head_204_is_not_real_fullsize :
    cleanValue demoUrls.validUrl anchorCandidate.fullSizeUrl =
        some "https://example.org/dragon.jpg?v=1" ∧
      cleanValue demoUrls.validUrl anchorCandidate.fullSizeUrl ≠
        cleanValue demoUrls.validUrl anchorCandidate.thumbnailUrl ∧
      headNoContentEffects.head = .status 204 ∧ 200 ≤ 204 ∧ 204 ≤ 299 ∧
      navigateToSourceForFullSize demoUrls headNoContentEffects anchorCandidate =
        ([.headCheck "https://example.org/dragon.jpg?v=1" (some 204),
          .navigate "https://example.org/gallery"],
         .ok { candidate := anchorCandidate,
               finalImageUrl := some "https://encrypted-tbn0.gstatic.com/images?q=tbn",
               resolution := .thumbnail }) :=
  ⟨by decide, by decide, rfl, by decide, by decide, rfl⟩

/-- C22, amended: when the thumbnail is usable, the full-size URL normalizes to a URL `f`
different from the thumbnail and the HEAD request answers with status `code`, the tier is
`real-fullsize` (with `f` as final URL, after the HEAD request alone) if `code` is 200, and for
every other status, those of the 200 class included, the function goes on to the source page
and the thumbnail and the tier is not `real-fullsize`. -/
theorem real_fullsize_iff_status_200 (urls : UrlOracle) (e : Effects) (c : ImageCandidate)
    (f : String) (code : Nat)
    (hthumb : truthyStr (cleanValue urls.validUrl c.thumbnailUrl) = true)
    (hfull : cleanValue urls.validUrl c.fullSizeUrl = some f)
    (hdiff : some f ≠ cleanValue urls.validUrl c.thumbnailUrl)
    (hhead : e.head = .status code) :
    (code = 200 →
      navigateToSourceForFullSize urls e c =
        ([.headCheck f (some 200)],
          .ok { candidate := c, finalImageUrl := some f, resolution := .realFullsize })) ∧
    (code ≠ 200 →
      (navigateToSourceForFullSize urls e c).1 =
          .headCheck f (some code) ::
            (sourcePageStep urls e c (cleanValue urls.validUrl c.thumbnailUrl)).1 ∧
        (navigateToSourceForFullSize urls e c).2 =
          (sourcePageStep urls e c (cleanValue urls.validUrl c.thumbnailUrl)).2 ∧
        ∀ r, (navigateToSourceForFullSize urls e c).2 = .ok r →
          r.resolution ≠ .realFullsize) := by
  have h := navigate_after_head urls e c f code hthumb hfull hdiff hhead
  constructor
  · intro hc
    rw [h, if_pos hc, hc]
  · intro hc
    rw [h, if_neg hc]
    exact ⟨rfl, rfl, fun r hr => sourcePageStep_not_real urls e c _ r hr⟩

/-- Witness of C22 (amended): the candidate of the counterexample, with HEAD answering 204. -/
theorem real_fullsize_iff_status_200_witness :
    truthyStr (cleanValue demoUrls.validUrl anchorCandidate.thumbnailUrl) = true ∧
      cleanValue demoUrls.validUrl anchorCandidate.fullSizeUrl =
        some "https://example.org/dragon.jpg?v=1" ∧
      headNoContentEffects.head = .status 204 ∧
      ∀ r, (navigateToSourceForFullSize demoUrls headNoContentEffects anchorCandidate).2 =
        .ok r → r.resolution ≠ .realFullsize :=
  ⟨by decide, by decide, rfl,
    ((real_fullsize_iff_status_200 demoUrls headNoContentEffects anchorCandidate
      "https://example.org/dragon.jpg?v=1" 204 (by decide) (by decide) (by decide) rfl).2
        (by decide)).2.2⟩

/-! ## The on-page search and advertising elements -/

/-- C23: on `pageWithAdBanner` the banner is skipped by the pass over all images, because its
source contains `ads` and its class contains `ad`, and is then chosen by the pass over the
content selectors, which has no such test: `findHighestResolutionImage` returns the banner. -/
theorem content_pass_returns_ad_banner :
    pass1Src adBanner = none ∧
      jsIncludes "https://cdn.example.org/ads/banner.jpg" "ads" = true ∧
      classIncludes adBanner "ad" = true ∧
      findHighestResolutionImage pageWithAdBanner =
        some "https://cdn.example.org/ads/banner.jpg" ∧
      (bestImageOnPage pageWithAdBanner).map (fun b => b.fromContentArea) = some true := by
  decide

/-! ## The structured-data strategy: the thumbnail test -/

theorem ldiEmit_some (entry : LdiEntry) (c : ImageCandidate) (h : ldiEmit entry = some c) :
    ∃ imageInfo s, entry = .tuple imageInfo ∧ imageInfo[0]? = some (Slot.str s) ∧
      jsIncludes s "encrypted-tbn" = true ∧ c.thumbnailUrl = some s := by
  cases entry with
  | malformed => simp [ldiEmit] at h
  | tuple imageInfo =>
    simp only [ldiEmit, ldiCandidate] at h
    split at h
    · rename_i thumbnailUrl hslot
      split at h
      · rename_i hthumb
        simp only [Bool.and_eq_true] at hthumb
        simp only [Option.some.injEq] at h
        refine ⟨imageInfo, thumbnailUrl, rfl, hslot, hthumb.2, ?_⟩
        rw [← h]
      · simp at h
    · simp at h

theorem pushUntilQuota_skip {α : Type} (maxResults : Nat) (emit : α → Option ImageCandidate)
    (bad : α) (hbad : emit bad = none) (post : List α) :
    ∀ (pre : List α) (images : List ImageCandidate),
      pushUntilQuota maxResults emit (pre ++ bad :: post) images =
        pushUntilQuota maxResults emit (pre ++ post) images := by
  intro pre
  induction pre with
  | nil =>
    intro images
    simp only [List.nil_append]
    cases post with
    | nil =>
      simp only [pushUntilQuota, hbad]
      split <;> rfl
    | cons x rest =>
      rw [pushUntilQuota]
      split
      · rename_i hfull
        rw [pushUntilQuota, if_pos hfull]
      · rw [hbad]
  | cons x rest ih =>
    intro images
    simp only [List.cons_append, pushUntilQuota]
    split
    · rfl
    · split
      · exact ih _
      · exact ih _

/-- C27: an entry of the structured data yields a candidate only if slot 0 of its tuple is a
string containing `encrypted-tbn` (that string is the candidate's thumbnail); a malformed entry
yields none; and an entry that yields no candidate leaves the extraction of the other entries
as it is without that entry, in the loop of the strategy and in the output of
`extractEnhancedImageData`. -/
theorem ldi_entry_needs_cdn_thumbnail (decodeURIComponent : String → Option String)
    (page : PageState) (pre post : List LdiEntry) (bad : LdiEntry) (maxResults : Nat)
    (images : List ImageCandidate) :
    (∀ entry c, ldiEmit entry = some c →
      ∃ imageInfo s, entry = .tuple imageInfo ∧ imageInfo[0]? = some (Slot.str s) ∧
        jsIncludes s "encrypted-tbn" = true ∧ c.thumbnailUrl = some s) ∧
    ldiEmit .malformed = none ∧
    (ldiEmit bad = none →
      pushUntilQuota maxResults ldiEmit (pre ++ bad :: post) images =
        pushUntilQuota maxResults ldiEmit (pre ++ post) images) ∧
    (ldiEmit bad = none →
      extractEnhancedImageData decodeURIComponent
          { page with ldi := some (pre ++ bad :: post) } maxResults =
        extractEnhancedImageData decodeURIComponent
          { page with ldi := some (pre ++ post) } maxResults) := by
  refine ⟨ldiEmit_some, rfl, ?_, ?_⟩
  · intro hbad
    exact pushUntilQuota_skip maxResults ldiEmit bad hbad post pre images
  · intro hbad
    simp only [extractEnhancedImageData]
    rw [pushUntilQuota_skip maxResults ldiEmit bad hbad post pre []]

/-- Witness of C27: an entry whose slot 0 is not a thumbnail of the CDN, between nothing and
the entry of `repeatedImagePage`, changes nothing. -/
theorem ldi_entry_needs_cdn_thumbnail_witness :
    ldiEmit (.tuple [.str "https://example.org/thumb.jpg", .num 1600, .num 1200]) = none ∧
      extractEnhancedImageData demoDecode
          { repeatedImagePage with
            ldi := some ([] ++ LdiEntry.tuple [.str "https://example.org/thumb.jpg", .num 1600,
              .num 1200] :: (repeatedImagePage.ldi.getD [])) } 3 =
        extractEnhancedImageData demoDecode
          { repeatedImagePage with ldi := some ([] ++ repeatedImagePage.ldi.getD []) } 3 :=
  ⟨by decide,
    (ldi_entry_needs_cdn_thumbnail demoDecode repeatedImagePage []
      (repeatedImagePage.ldi.getD [])
      (.tuple [.str "https://example.org/thumb.jpg", .num 1600, .num 1200]) 3 []).2.2.2
      (by decide)⟩

/-! ## The counters of the loop -/

/-- C28: after any number of iterations of the loop of `downloadEnhancedImageBatch` (`fuel`
bounds the iterations run so far), and in what the function returns, the number of results
with `kept = true` equals `actuallyKeptImages`, `success` equals `kept` on every result, and
the counter does not exceed the target. -/
theorem kept_counter_invariant (urls : UrlOracle) (go : GoogleOptions) (opts : Options)
    (world : Nat → Effects) (storage : List String) (cands : List ImageCandidate)
    (searchTerm : String) (targetCount : Option Nat) (fuel : Nat) :
    (((huntLoop urls go opts world searchTerm (searchFolderOf searchTerm)
          (targetOf go targetCount) cands fuel (initialState storage)).results.filter
        (fun r => r.kept)).length =
        (huntLoop urls go opts world searchTerm (searchFolderOf searchTerm)
          (targetOf go targetCount) cands fuel (initialState storage)).actuallyKeptImages ∧
      (∀ r ∈ (huntLoop urls go opts world searchTerm (searchFolderOf searchTerm)
          (targetOf go targetCount) cands fuel (initialState storage)).results,
        r.success = r.kept) ∧
      (huntLoop urls go opts world searchTerm (searchFolderOf searchTerm)
          (targetOf go targetCount) cands fuel (initialState storage)).actuallyKeptImages ≤
        targetOf go targetCount) ∧
    (((downloadEnhancedImageBatch urls go opts world storage cands searchTerm
          targetCount).results.filter (fun r => r.kept)).length =
        (downloadEnhancedImageBatch urls go opts world storage cands searchTerm
          targetCount).final.actuallyKeptImages ∧
      (∀ r ∈ (downloadEnhancedImageBatch urls go opts world storage cands searchTerm
          targetCount).results, r.success = r.kept) ∧
      (downloadEnhancedImageBatch urls go opts world storage cands searchTerm
          targetCount).final.actuallyKeptImages ≤
        (downloadEnhancedImageBatch urls go opts world storage cands searchTerm
          targetCount).target) := by
  have key : ∀ k : Nat,
      (((huntLoop urls go opts world searchTerm (searchFolderOf searchTerm)
          (targetOf go targetCount) cands k (initialState storage)).results.filter
        (fun r => r.kept)).length =
        (huntLoop urls go opts world searchTerm (searchFolderOf searchTerm)
          (targetOf go targetCount) cands k (initialState storage)).actuallyKeptImages ∧
      (∀ r ∈ (huntLoop urls go opts world searchTerm (searchFolderOf searchTerm)
          (targetOf go targetCount) cands k (initialState storage)).results,
        r.success = r.kept) ∧
      (huntLoop urls go opts world searchTerm (searchFolderOf searchTerm)
          (targetOf go targetCount) cands k (initialState storage)).actuallyKeptImages ≤
        targetOf go targetCount) := by
    intro k
    have hinv := huntLoop_inv urls go opts world searchTerm (searchFolderOf searchTerm)
      (targetOf go targetCount) cands k (initialState storage)
      (initialState_inv _ _ _ storage)
    refine ⟨hinv.kept_results, ?_, hinv.kept_le⟩
    apply huntLoop_results_ok urls go opts world searchTerm (searchFolderOf searchTerm)
      (targetOf go targetCount) cands (fun r => r.success = r.kept)
    · intro c keep st st' hf r hr
      obtain ⟨r', hr', hk, hs, _⟩ := hf.results
      have : r = r' := by
        have h2 := hr.symm.trans hr'
        exact (List.append_inj_right h2 rfl |> List.singleton_inj.mp)
      rw [this, hk, hs]
    · intro r hr
      simp [initialState] at hr
  exact ⟨key fuel, key cands.length⟩

/-! ## The inline thumbnail path and the resolution strategist -/

theorem navigate_thumbnail_only (urls : UrlOracle) (e : Effects) (c : ImageCandidate)
    (hfs : truthyStr c.fullSizeUrl = false) (hsp : truthyStr c.sourcePageUrl = false) :
    navigateToSourceForFullSize urls e c =
      ([], if truthyStr (cleanValue urls.validUrl c.thumbnailUrl) then
        .ok { candidate := c, finalImageUrl := cleanValue urls.validUrl c.thumbnailUrl,
              resolution := .thumbnail }
      else .ok { candidate := c, finalImageUrl := none, resolution := .failed }) := by
  have hstep : ∀ t, sourcePageStep urls e c t =
      ([], .ok { candidate := c, finalImageUrl := t, resolution := .thumbnail }) := by
    intro t
    unfold sourcePageStep
    cases hs : c.sourcePageUrl with
    | none => rfl
    | some s =>
      rw [hs] at hsp
      simp only [hsp, Bool.false_eq_true, if_false]
  unfold navigateToSourceForFullSize
  rw [cleanImageUrl_eq]
  simp only [hfs, Bool.false_eq_true, if_false, hstep]
  cases truthyStr (cleanValue urls.validUrl c.thumbnailUrl) <;> rfl

theorem log_nil (st : LoopState) : st.log [] = st := by
  simp [LoopState.log]

theorem afterResolution_no_url (urls : UrlOracle) (go : GoogleOptions) (opts : Options)
    (e : Effects) (searchTerm searchFolder : String) (c : ImageCandidate) (tier : Resolution)
    (st : LoopState) :
    afterResolution urls go opts e searchTerm searchFolder c
        { candidate := c, finalImageUrl := none, resolution := tier } st =
      (st.push (failureRecord c .noValidUrl)).advance := by
  unfold afterResolution
  simp [truthyStr]

theorem afterResolution_usable (urls : UrlOracle) (go : GoogleOptions) (opts : Options)
    (e : Effects) (searchTerm searchFolder : String) (c : ImageCandidate) (t : String)
    (st : LoopState) (ht : truthyStr (some t) = true) (r : AcquisitionResult)
    (hr : (afterResolution urls go opts e searchTerm searchFolder c
        { candidate := c, finalImageUrl := some t, resolution := .thumbnail } st).results =
      st.results ++ [r]) :
    r.error ≠ some .noValidUrl := by
  unfold afterResolution at hr
  have hne : (Resolution.thumbnail == Resolution.failed) = false := by decide
  simp only [ht, hne, Bool.not_true, Bool.false_or, Bool.false_eq_true, if_false,
    gradeDownload] at hr
  repeat' split at hr
  all_goals
    simp only [catchHandler, LoopState.push, LoopState.advance, LoopState.log,
      List.append_cancel_left_eq, List.cons.injEq, and_true] at hr
  all_goals
    rw [← hr]
    simp [failureRecord, rejectionRecord, keeperRecord]

/-- C29: for a candidate with neither a full-size URL nor a source-page URL, the iteration of
`downloadEnhancedImageBatch` (which takes the inline thumbnail path) ends in the same state,
with the same recorded result, as the iteration that calls `navigateToSourceForFullSize` on the
candidate.  Both skip the candidate with the record `No valid image URL available` when the
thumbnail fails to normalize, and only then; otherwise `navigateToSourceForFullSize` returns
the cleaned thumbnail URL at tier `thumbnail`, which is the record the inline path builds. -/
theorem inline_thumbnail_path_agrees_with_navigate (urls : UrlOracle) (go : GoogleOptions)
    (opts : Options) (e : Effects) (searchTerm searchFolder : String) (c : ImageCandidate)
    (st : LoopState) (hfs : truthyStr c.fullSizeUrl = false)
    (hsp : truthyStr c.sourcePageUrl = false) :
    processCandidate urls go opts e searchTerm searchFolder c st =
        processViaNavigate urls go opts e searchTerm searchFolder c st ∧
      (cleanValue urls.validUrl c.thumbnailUrl = none →
        processCandidate urls go opts e searchTerm searchFolder c st =
          (st.push (failureRecord c .noValidUrl)).advance) ∧
      (∀ t, cleanValue urls.validUrl c.thumbnailUrl = some t →
        navigateToSourceForFullSize urls e c =
            ([], .ok { candidate := c, finalImageUrl := some t, resolution := .thumbnail }) ∧
          resolveCandidate urls e c =
            .ok { candidate := c, finalImageUrl := some t, resolution := .thumbnail } ∧
          processCandidate urls go opts e searchTerm searchFolder c st =
            afterResolution urls go opts e searchTerm searchFolder c
              { candidate := c, finalImageUrl := some t, resolution := .thumbnail } st ∧
          ∀ r, (processCandidate urls go opts e searchTerm searchFolder c st).results =
            st.results ++ [r] → r.error ≠ some .noValidUrl) := by
  have hinline := processCandidate_thumbnail_only urls go opts e searchTerm searchFolder c st
    hfs hsp
  have hnav := navigate_thumbnail_only urls e c hfs hsp
  have hres : ∀ t, cleanValue urls.validUrl c.thumbnailUrl = some t →
      resolveCandidate urls e c =
        .ok { candidate := c, finalImageUrl := some t, resolution := .thumbnail } := by
    intro t ht
    unfold resolveCandidate
    rw [cleanImageUrl_eq, ht]
    simp [hfs, hsp]
  refine ⟨?_, ?_, ?_⟩
  · rw [hinline]
    unfold processViaNavigate
    rw [hnav]
    cases ht : cleanValue urls.validUrl c.thumbnailUrl with
    | none =>
      simp only [truthyStr, Bool.false_eq_true, if_false, log_nil]
      rw [afterResolution_no_url, afterResolution_no_url]
      rfl
    | some t =>
      have htt : truthyStr (some t) = true :=
        (truthyStr_some t).mpr (cleanValue_truthy _ _ t ht).1
      simp only [htt, if_true, log_nil]
      rfl
  · intro hnone
    rw [hinline, hnone, afterResolution_no_url]
  · intro t ht
    have htt : truthyStr (some t) = true :=
      (truthyStr_some t).mpr (cleanValue_truthy _ _ t ht).1
    refine ⟨?_, hres t ht, ?_, ?_⟩
    · rw [hnav, ht, htt]
      rfl
    · rw [hinline, ht]
    · intro r hr
      rw [hinline, ht] at hr
      exact afterResolution_usable urls go opts e searchTerm searchFolder c t st htt r hr

/-- Witness of C29: a candidate with nothing but a thumbnail, in a world that keeps it. -/
theorem inline_thumbnail_path_agrees_with_navigate_witness :
    processCandidate demoUrls (demoStandard true) demoOptions (allPassWorld 0) "red dragon"
        "red_dragon" (thumbnailOnly 0) (initialState []) =
      processViaNavigate demoUrls (demoStandard true) demoOptions (allPassWorld 0) "red dragon"
        "red_dragon" (thumbnailOnly 0) (initialState []) :=
  (inline_thumbnail_path_agrees_with_navigate demoUrls (demoStandard true) demoOptions
    (allPassWorld 0) "red dragon" "red_dragon" (thumbnailOnly 0) (initialState []) rfl rfl).1

/-! ## The structured-data strategy: the scan of the trailing slots -/

theorem eligibleUrl_truthy (item : String) (h : eligibleUrl item = true) :
    truthyStr (some item) = true := by
  rw [truthyStr_some]
  intro he
  rw [he] at h
  exact absurd h (by decide)

theorem scanTrailing_fst (slots : List Slot) :
    ∀ src, (scanTrailing slots src).1 =
      (slotStrings slots).find? (fun item => eligibleUrl item && hasImageExtension item) := by
  induction slots with
  | nil => intro src; rfl
  | cons slot rest ih =>
    intro src
    cases slot with
    | null => simpa [scanTrailing, slotStrings] using ih src
    | num n => simpa [scanTrailing, slotStrings] using ih src
    | str item =>
      have hs : slotStrings (Slot.str item :: rest) = item :: slotStrings rest := by
        simp [slotStrings]
      rw [hs, List.find?_cons]
      unfold scanTrailing
      by_cases he : eligibleUrl item = true
      · have he2 := he
        unfold eligibleUrl at he2
        rw [if_pos he2]
        by_cases hi : hasImageExtension item = true
        · simp [he, hi]
        · simp only [hi, Bool.false_eq_true, if_false, Bool.and_false]
          split
          · exact ih _
          · exact ih _
      · have he2 := he
        unfold eligibleUrl at he2
        rw [if_neg he2]
        simp only [Bool.not_eq_true] at he
        simp only [he, Bool.false_and]
        exact ih _

theorem scanTrailing_snd_keep (slots : List Slot) :
    ∀ src, truthyStr src = true → (scanTrailing slots src).2 = src := by
  induction slots with
  | nil => intro src _; rfl
  | cons slot rest ih =>
    intro src hsrc
    cases slot with
    | null => simpa [scanTrailing] using ih src hsrc
    | num n => simpa [scanTrailing] using ih src hsrc
    | str item =>
      unfold scanTrailing
      split
      · split
        · rfl
        · simp only [hsrc, Bool.not_true, Bool.false_eq_true, if_false]
          exact ih src hsrc
      · exact ih src hsrc

theorem scanTrailing_snd (slots : List Slot) :
    (scanTrailing slots none).2 =
      ((slotStrings slots).takeWhile
        (fun item => !(eligibleUrl item && hasImageExtension item))).find?
        (fun item => eligibleUrl item && !hasImageExtension item) := by
  induction slots with
  | nil => rfl
  | cons slot rest ih =>
    cases slot with
    | null => simpa [scanTrailing, slotStrings] using ih
    | num n => simpa [scanTrailing, slotStrings] using ih
    | str item =>
      have hs : slotStrings (Slot.str item :: rest) = item :: slotStrings rest := by
        simp [slotStrings]
      rw [hs]
      unfold scanTrailing
      by_cases he : eligibleUrl item = true
      · have he2 := he
        unfold eligibleUrl at he2
        rw [if_pos he2]
        by_cases hi : hasImageExtension item = true
        · simp [he, hi, List.takeWhile_cons]
        · simp only [Bool.not_eq_true] at hi
          simp only [hi, Bool.false_eq_true, if_false, truthyStr, Bool.not_false, if_true,
            List.takeWhile_cons, he, Bool.and_false, List.find?_cons, Bool.and_true]
          exact scanTrailing_snd_keep rest (some item) (eligibleUrl_truthy item he)
      · have he2 := he
        unfold eligibleUrl at he2
        rw [if_neg he2]
        simp only [Bool.not_eq_true] at he
        simp only [List.takeWhile_cons, he, Bool.false_and, Bool.not_false, if_true,
          List.find?_cons]
        exact ih

theorem ldiCandidate_fields (imageInfo : List Slot) (c : ImageCandidate)
    (h : ldiCandidate imageInfo = some c) :
    c.fullSizeUrl =
        (if truthyStr (scanTrailing (imageInfo.drop 4) none).1 then
          (scanTrailing (imageInfo.drop 4) none).1 else slotText imageInfo[3]?) ∧
      c.sourcePageUrl = (scanTrailing (imageInfo.drop 4) none).2 := by
  unfold ldiCandidate at h
  simp only at h
  split at h
  · split at h
    · simp only [Option.some.injEq] at h
      rw [← h]
      exact ⟨rfl, rfl⟩
    · simp at h
  · simp at h

/-- C26, counterexample: the first trailing string of `googleHostedTuple` that is an absolute
http URL with an image extension is on a `google` host; the candidate's `fullSizeUrl` is not
that string but slot 3, and its `sourcePageUrl` is the later gallery page. -/
theorem google_hosted_url_is_passed_over :
    ∃ c, ldiCandidate googleHostedTuple = some c ∧
      firstHttpImageUrl googleHostedTuple = some "https://www.google.com/imgres/dragon.png" ∧
      c.fullSizeUrl = some "https://example.org/dragon.jpg" ∧
      c.fullSizeUrl ≠ firstHttpImageUrl googleHostedTuple ∧
      c.sourcePageUrl = some "https://example.org/gallery" :=
  ⟨_, rfl, by decide, by decide, by decide, by decide⟩

/-- C26, amended: call a trailing string eligible when it starts with `http` and contains
neither `encrypted-tbn` nor `google`.  The candidate's `fullSizeUrl` is the first eligible
string from slot 4 on that matches the image-extension pattern, and slot 3 when there is
none; its `sourcePageUrl` is the first eligible string without an image extension that comes
before that first image URL, so when no trailing slot holds an eligible image URL it is the
first eligible string of the trailing slots. -/
theorem ldi_full_size_is_first_eligible_image (imageInfo : List Slot) (c : ImageCandidate)
    (h : ldiCandidate imageInfo = some c) :
    (∀ u, (slotStrings (imageInfo.drop 4)).find?
        (fun item => eligibleUrl item && hasImageExtension item) = some u →
      c.fullSizeUrl = some u) ∧
    ((slotStrings (imageInfo.drop 4)).find?
        (fun item => eligibleUrl item && hasImageExtension item) = none →
      c.fullSizeUrl = slotText imageInfo[3]? ∧
        c.sourcePageUrl = (slotStrings (imageInfo.drop 4)).find? eligibleUrl) ∧
    c.sourcePageUrl =
      ((slotStrings (imageInfo.drop 4)).takeWhile
        (fun item => !(eligibleUrl item && hasImageExtension item))).find?
        (fun item => eligibleUrl item && !hasImageExtension item) := by
  obtain ⟨hfull, hsrc⟩ := ldiCandidate_fields imageInfo c h
  rw [scanTrailing_fst] at hfull
  rw [scanTrailing_snd] at hsrc
  refine ⟨?_, ?_, hsrc⟩
  · intro u hu
    rw [hfull, hu]
    have hmem := List.find?_some hu
    simp only [Bool.and_eq_true] at hmem
    rw [if_pos (eligibleUrl_truthy u hmem.1)]
  · intro hnone
    rw [hnone] at hfull
    refine ⟨by simpa [truthyStr] using hfull, ?_⟩
    rw [hsrc]
    have hall : ∀ item ∈ slotStrings (imageInfo.drop 4),
        (eligibleUrl item && hasImageExtension item) = false := by
      intro item hitem
      have := List.find?_eq_none.mp hnone item hitem
      simpa using this
    generalize slotStrings (imageInfo.drop 4) = strings at hall
    induction strings with
    | nil => rfl
    | cons item rest ih =>
      have hitem := hall item (List.mem_cons_self _ _)
      have hrest := ih (fun x hx => hall x (List.mem_cons_of_mem _ hx))
      simp only [List.takeWhile_cons, hitem, Bool.not_false, if_true, List.find?_cons]
      by_cases he : eligibleUrl item = true
      · have hi : hasImageExtension item = false := by
          rw [he] at hitem
          simpa using hitem
        simp [he, hi]
      · simp only [Bool.not_eq_true] at he
        simp only [he, Bool.false_and]
        exact hrest

/-- Witness of C26 (amended): the tuple of the counterexample. -/
theorem ldi_full_size_is_first_eligible_image_witness :
    ∃ c, ldiCandidate googleHostedTuple = some c ∧
      c.fullSizeUrl = slotText googleHostedTuple[3]? ∧
      c.sourcePageUrl = (slotStrings (googleHostedTuple.drop 4)).find? eligibleUrl :=
  ⟨_, rfl, (ldi_full_size_is_first_eligible_image googleHostedTuple _ rfl).2.1 (by decide)⟩

/-! ## The quality score -/

theorem bytes_per_pixel_gt (k m p1 p2 s1 s2 : Nat) (hp2 : 0 < p2)
    (h : s1 * p2 ≤ s2 * p1) (h1 : k * p1 < m * s1) : k * p2 < m * s2 := by
  by_contra hle
  push_neg at hle
  have a := Nat.mul_le_mul_left m h
  have b := Nat.mul_le_mul_right p1 hle
  have c := Nat.mul_lt_mul_of_pos_right h1 hp2
  nlinarith

theorem assessImageQuality_mono (w1 h1 s1 w2 h2 s2 : Nat) (format : String)
    (hpos : 0 < w1 * h1) (hpix : w1 * h1 ≤ w2 * h2)
    (hbpp : s1 * (w2 * h2) ≤ s2 * (w1 * h1)) :
    assessImageQuality (some w1) (some h1) format s1 ≤
      assessImageQuality (some w2) (some h2) format s2 := by
  have hpos2 : 0 < w2 * h2 := Nat.lt_of_lt_of_le hpos hpix
  simp only [assessImageQuality]
  generalize w1 * h1 = p1 at *
  generalize w2 * h2 = p2 at *
  have h3 := bytes_per_pixel_gt 3 1 p1 p2 s1 s2 hpos2 hbpp
  have h15 := bytes_per_pixel_gt 3 2 p1 p2 s1 s2 hpos2 hbpp
  have hne1 : p1 ≠ 0 := by omega
  have hne2 : p2 ≠ 0 := by omega
  simp only [hne1, hne2, if_false]
  apply min_le_min _ (le_refl 100)
  apply Nat.add_le_add_right
  apply Nat.add_le_add
  · split_ifs <;> omega
  · split_ifs <;> omega

theorem assessImageQuality_format (width height : Option Nat) (fileSize : Nat)
    (format : String) (h1 : format ≠ "png") (h2 : format ≠ "jpeg") (h3 : format ≠ "webp") :
    assessImageQuality width height "png" fileSize >
        assessImageQuality width height "jpeg" fileSize ∧
      assessImageQuality width height "jpeg" fileSize >
        assessImageQuality width height "webp" fileSize ∧
      assessImageQuality width height "webp" fileSize >
        assessImageQuality width height format fileSize := by
  have e1 : ¬ ("jpeg" = "png") := by decide
  have e2 : ¬ ("webp" = "png") := by decide
  have e3 : ¬ ("webp" = "jpeg") := by decide
  simp only [assessImageQuality, e1, e2, e3, h1, h2, h3, if_true, if_false]
  cases width <;> cases height <;> simp only [] <;> (try split_ifs) <;> omega

/-- C25: the score of `assessImageQuality` does not decrease when the pixel count grows with
the bytes per pixel unchanged, does not decrease when the bytes per pixel grow with the pixel
count unchanged, and with dimensions and file size unchanged it is strictly higher for `png`
than for `jpeg`, for `jpeg` than for `webp`, and for `webp` than for any other format.  The
bytes per pixel are `fileSize / pixels` over the rationals, for a positive pixel count. -/
theorem quality_score_monotone_in_each_factor :
    (∀ (w1 h1 s1 w2 h2 s2 : Nat) (format : String), 0 < w1 * h1 → w1 * h1 ≤ w2 * h2 →
      (s1 : ℚ) / ((w1 * h1 : Nat) : ℚ) = (s2 : ℚ) / ((w2 * h2 : Nat) : ℚ) →
      assessImageQuality (some w1) (some h1) format s1 ≤
        assessImageQuality (some w2) (some h2) format s2) ∧
    (∀ (w1 h1 s1 w2 h2 s2 : Nat) (format : String), 0 < w1 * h1 → w1 * h1 = w2 * h2 →
      (s1 : ℚ) / ((w1 * h1 : Nat) : ℚ) ≤ (s2 : ℚ) / ((w2 * h2 : Nat) : ℚ) →
      assessImageQuality (some w1) (some h1) format s1 ≤
        assessImageQuality (some w2) (some h2) format s2) ∧
    (∀ (width height : Option Nat) (fileSize : Nat) (format : String),
      format ≠ "png" → format ≠ "jpeg" → format ≠ "webp" →
      assessImageQuality width height "png" fileSize >
          assessImageQuality width height "jpeg" fileSize ∧
        assessImageQuality width height "jpeg" fileSize >
          assessImageQuality width height "webp" fileSize ∧
        assessImageQuality width height "webp" fileSize >
          assessImageQuality width height format fileSize) := by
  have cross : ∀ (p1 p2 s1 s2 : Nat), 0 < p1 → 0 < p2 →
      (s1 : ℚ) / (p1 : ℚ) ≤ (s2 : ℚ) / (p2 : ℚ) → s1 * p2 ≤ s2 * p1 := by
    intro p1 p2 s1 s2 hp1 hp2 h
    have hq1 : (0 : ℚ) < (p1 : ℚ) := by exact_mod_cast hp1
    have hq2 : (0 : ℚ) < (p2 : ℚ) := by exact_mod_cast hp2
    rw [div_le_div_iff₀ hq1 hq2] at h
    exact_mod_cast h
  refine ⟨?_, ?_, assessImageQuality_format⟩
  · intro w1 h1 s1 w2 h2 s2 format hpos hpix hbpp
    exact assessImageQuality_mono w1 h1 s1 w2 h2 s2 format hpos hpix
      (cross _ _ _ _ hpos (Nat.lt_of_lt_of_le hpos hpix) (le_of_eq hbpp))
  · intro w1 h1 s1 w2 h2 s2 format hpos hpix hbpp
    exact assessImageQuality_mono w1 h1 s1 w2 h2 s2 format hpos (le_of_eq hpix)
      (cross _ _ _ _ hpos (hpix ▸ hpos) hbpp)

/-- Witness of C25: an 800 x 600 file and a 1600 x 1200 file, both of two bytes per pixel. -/
theorem quality_score_monotone_in_each_factor_witness :
    assessImageQuality (some 800) (some 600) "jpeg" 960000 ≤
      assessImageQuality (some 1600) (some 1200) "jpeg" 3840000 :=
  quality_score_monotone_in_each_factor.1 800 600 960000 1600 1200 3840000 "jpeg"
    (by decide) (by decide) (by norm_num)

/-! ## The storage subfolder -/

theorem alphanum_ascii (c : Char) (h : c.isAlphanum = true) : c.toNat < 128 := by
  simp only [Char.isAlphanum, Char.isAlpha, Char.isUpper, Char.isLower, Char.isDigit,
    Bool.or_eq_true, Bool.and_eq_true, decide_eq_true_eq] at h
  have : c.toNat = c.val.toNat := rfl
  simp only [UInt32.le_def, ge_iff_le] at h
  rw [this]
  rcases h with (h | h) | h
  all_goals
    have h2 := h.2
    have : (c.val.val : Nat) ≤ 122 := Nat.le_trans (Fin.le_def.mp h2) (by decide)
    exact Nat.lt_of_le_of_lt this (by decide)

set_option maxRecDepth 100000 in
theorem ascii_lowered : ∀ n : Nat, n < 128 → (Char.ofNat n).isAlphanum = true →
    (((Char.ofNat n).toLower.isLower = true ∨ (Char.ofNat n).toLower.isDigit = true) ∧
      (Char.ofNat n).toLower.isAlphanum = true ∧
      (Char.ofNat n).toLower.toLower = (Char.ofNat n).toLower ∧
      ¬ ((Char.ofNat n).val ≥ 0x10000) ∧ ¬ ((Char.ofNat n).toLower.val ≥ 0x10000)) := by
  decide

theorem alphanum_lowered (c : Char) (h : c.isAlphanum = true) :
    (c.toLower.isLower = true ∨ c.toLower.isDigit = true) ∧
      c.toLower.isAlphanum = true ∧ c.toLower.toLower = c.toLower ∧
      ¬ (c.val ≥ 0x10000) ∧ ¬ (c.toLower.val ≥ 0x10000) := by
  have h1 := ascii_lowered c.toNat (alphanum_ascii c h)
  rw [Char.ofNat_toNat] at h1
  exact h1 h

theorem searchFolderOf_data (searchTerm : String) :
    (searchFolderOf searchTerm).data = searchTerm.data.flatMap fun c =>
      if c.isAlphanum then [c.toLower]
      else if c.val ≥ 0x10000 then ['_', '_']
      else ['_'] := rfl

/-- C30: the storage subfolder name has the length of the search term (in UTF-16 code units,
the unit of `String.length` in the source), consists of lower-case letters, digits and `_`
only, so that it holds no `/`, no backslash and no `.`, and computing the name of a name gives
the name back. -/
theorem search_folder_shape (searchTerm : String) :
    jsLength (searchFolderOf searchTerm) = jsLength searchTerm ∧
      (∀ c ∈ (searchFolderOf searchTerm).data,
        (c.isLower = true ∨ c.isDigit = true ∨ c = '_') ∧
          c ≠ '/' ∧ c ≠ Char.ofNat 92 ∧ c ≠ '.') ∧
      searchFolderOf (searchFolderOf searchTerm) = searchFolderOf searchTerm := by
  refine ⟨?_, ?_, ?_⟩
  · unfold jsLength
    rw [searchFolderOf_data]
    induction searchTerm.data with
    | nil => rfl
    | cons c rest ih =>
      simp only [List.flatMap_cons, List.map_append, List.sum_append, List.map_cons,
        List.sum_cons, ih]
      congr 1
      by_cases hc : c.isAlphanum = true
      · obtain ⟨_, _, _, h4, h5⟩ := alphanum_lowered c hc
        simp [hc, h4, h5]
      · by_cases hb : c.val ≥ 0x10000
        · simp only [hc, hb, if_true, Bool.false_eq_true, if_false]
          rfl
        · simp only [hc, hb, Bool.false_eq_true, if_false]
          rfl
  · intro c hc
    have hshape : c.isLower = true ∨ c.isDigit = true ∨ c = '_' := by
      rw [searchFolderOf_data] at hc
      obtain ⟨d, _, hd⟩ := List.mem_flatMap.mp hc
      by_cases ha : d.isAlphanum = true
      · simp only [ha, if_true, List.mem_singleton] at hd
        rw [hd]
        rcases (alphanum_lowered d ha).1 with h | h
        · exact Or.inl h
        · exact Or.inr (Or.inl h)
      · by_cases hb : d.val ≥ 0x10000
        · simp only [ha, hb, if_true, Bool.false_eq_true, if_false, List.mem_cons,
            List.mem_singleton, List.not_mem_nil, or_false, or_self] at hd
          exact Or.inr (Or.inr hd)
        · simp only [ha, hb, Bool.false_eq_true, if_false, List.mem_singleton] at hd
          exact Or.inr (Or.inr hd)
    refine ⟨hshape, ?_, ?_, ?_⟩
    all_goals
      intro heq
      rw [heq] at hshape
      revert hshape
      decide
  · apply String.ext
    rw [searchFolderOf_data (searchFolderOf searchTerm), searchFolderOf_data searchTerm]
    induction searchTerm.data with
    | nil => rfl
    | cons c rest ih =>
      simp only [List.flatMap_cons, List.flatMap_append, ih]
      congr 1
      by_cases ha : c.isAlphanum = true
      · obtain ⟨_, h2, h3, _, _⟩ := alphanum_lowered c ha
        simp [ha, h2, h3]
      · by_cases hb : c.val ≥ 0x10000
        · simp only [ha, hb, if_true, Bool.false_eq_true, if_false]
          decide
        · simp only [ha, hb, Bool.false_eq_true, if_false]
          decide

/-! ## The on-page search: the largest qualifying element -/

theorem foldl_flatten_eq {α β : Type} (f : β → α → β) :
    ∀ (lists : List (List α)) (init : β),
      lists.foldl (fun st l => l.foldl f st) init = lists.flatten.foldl f init := by
  intro lists
  induction lists with
  | nil => intro init; rfl
  | cons l rest ih =>
    intro init
    simp only [List.foldl_cons, List.flatten_cons, List.foldl_append]
    exact ih _

theorem bestImageOnPage_eq (page : SourcePage) :
    bestImageOnPage page =
      ((visited page).foldl scanStep
        { bestCandidate := none, highestPixelCount := 0 }).bestCandidate := by
  unfold bestImageOnPage visited
  simp only [List.foldl_append, List.foldl_map, foldl_flatten_eq]
  rfl

theorem measuredSrc_floor (content : Bool) (img : DomElement) (src : String)
    (h : measuredSrc content img = some src) : 512 ≤ img.width ∧ 512 ≤ img.height := by
  cases content with
  | false =>
    simp only [measuredSrc, Bool.false_eq_true, if_false, pass1Src] at h
    split at h
    · simp at h
    · rename_i hdim
      simp only [Bool.or_eq_true, decide_eq_true_eq, not_or, not_lt] at hdim
      exact hdim
  | true =>
    simp only [measuredSrc, if_true, contentSrc] at h
    split at h
    · simp at h
    · split at h
      · simp at h
      · split at h
        · simp at h
        · rename_i hdim
          simp only [Bool.or_eq_true, decide_eq_true_eq, not_or, not_lt] at hdim
          exact ⟨hdim.1.2, hdim.2⟩

theorem scanStep_cases (st : ScanState) (v : Bool × DomElement) :
    (scanStep st v = st ∧
        (qualifies v.1 v.2 = true → pixelCountOf v.2 ≤ st.highestPixelCount)) ∨
      (∃ src, measuredSrc v.1 v.2 = some src ∧ qualifies v.1 v.2 = true ∧
        st.highestPixelCount < pixelCountOf v.2 ∧
        scanStep st v =
          { bestCandidate := some (bestOf v.2 src v.1),
            highestPixelCount := pixelCountOf v.2 }) := by
  obtain ⟨content, img⟩ := v
  cases content with
  | false =>
    simp only [scanStep, Bool.false_eq_true, if_false, pass1Step, qualifies, measuredSrc]
    cases hsrc : pass1Src img with
    | none => simp
    | some src =>
      simp only [Option.isSome_some, Bool.true_and, Bool.false_or, Bool.and_eq_true,
        decide_eq_true_eq]
      by_cases hgt : pixelCountOf img > st.highestPixelCount
      · by_cases hmp : Frac.lt ⟨pixelCountOf img, 1000000, by decide⟩ ⟨1, 2, by decide⟩ = false
        · by_cases hmin : pixelCountOf img > 512 * 512
          · right
            refine ⟨src, rfl, ⟨(not_lt_half_iff _).mp hmp, hmin⟩, hgt, ?_⟩
            simp [hgt, hmp, hmin]
          · left
            refine ⟨by simp [hmin], ?_⟩
            intro hq
            exact absurd hq.2 hmin
        · left
          have hmp2 : Frac.lt ⟨pixelCountOf img, 1000000, by decide⟩ ⟨1, 2, by decide⟩ =
              true := by simpa using hmp
          refine ⟨by simp [hmp2], ?_⟩
          intro hq
          exact absurd ((not_lt_half_iff _).mpr hq.1) hmp
      · left
        refine ⟨by simp [hgt], ?_⟩
        intro _
        omega
  | true =>
    simp only [scanStep, if_true, contentStep, qualifies, measuredSrc]
    cases hsrc : contentSrc img with
    | none => simp
    | some src =>
      simp only [Option.isSome_some, Bool.true_and, Bool.true_or, Bool.and_true,
        decide_eq_true_eq]
      by_cases hgt : pixelCountOf img > st.highestPixelCount
      · by_cases hmp : Frac.lt ⟨pixelCountOf img, 1000000, by decide⟩ ⟨1, 2, by decide⟩ = false
        · right
          refine ⟨src, rfl, (not_lt_half_iff _).mp hmp, hgt, ?_⟩
          simp [hgt, hmp]
        · left
          have hmp2 : Frac.lt ⟨pixelCountOf img, 1000000, by decide⟩ ⟨1, 2, by decide⟩ =
              true := by simpa using hmp
          refine ⟨by simp [hmp2], ?_⟩
          intro hq
          exact absurd ((not_lt_half_iff _).mpr hq) hmp
      · left
        refine ⟨by simp [hgt], ?_⟩
        intro _
        omega

theorem scanStep_inv (seen : List (Bool × DomElement)) (st : ScanState)
    (v : Bool × DomElement) (h : ScanInv seen st)
    (hzero : st.bestCandidate = none → st.highestPixelCount = 0) :
    ScanInv (seen ++ [v]) (scanStep st v) ∧
      ((scanStep st v).bestCandidate = none → (scanStep st v).highestPixelCount = 0) := by
  rcases scanStep_cases st v with ⟨heq, hle⟩ | ⟨src, hsrc, hq, hgt, heq⟩
  · rw [heq]
    refine ⟨⟨?_, ?_, ?_⟩, hzero⟩
    · intro w hw hqw
      rcases List.mem_append.mp hw with hw | hw
      · exact h.bound w hw hqw
      · rw [List.mem_singleton.mp hw] at hqw ⊢
        exact hle hqw
    · intro hnone w hw
      rcases List.mem_append.mp hw with hw | hw
      · exact h.absent hnone w hw
      · rw [List.mem_singleton.mp hw]
        cases hqv : qualifies v.1 v.2 with
        | false => rfl
        | true =>
          exfalso
          have h1 := hle hqv
          rw [hzero hnone] at h1
          have h2 : 500000 ≤ pixelCountOf v.2 := by
            simp only [qualifies, Bool.and_eq_true, decide_eq_true_eq] at hqv
            exact hqv.1.2
          omega
    · intro b hb
      obtain ⟨w, hw, s, h1, h2, h3, h4⟩ := h.present b hb
      exact ⟨w, List.mem_append_left _ hw, s, h1, h2, h3, h4⟩
  · rw [heq]
    refine ⟨⟨?_, ?_, ?_⟩, ?_⟩
    · intro w hw hqw
      rcases List.mem_append.mp hw with hw | hw
      · exact Nat.le_of_lt (Nat.lt_of_le_of_lt (h.bound w hw hqw) hgt)
      · rw [List.mem_singleton.mp hw]
    · intro hnone
      simp at hnone
    · intro b hb
      simp only [Option.some.injEq] at hb
      exact ⟨v, List.mem_append_right _ (List.mem_singleton.mpr rfl), src, hsrc, hq,
        hb.symm, rfl⟩
    · intro hnone
      simp at hnone

theorem scan_inv (items : List (Bool × DomElement)) :
    ∀ (seen : List (Bool × DomElement)) (st : ScanState), ScanInv seen st →
      (st.bestCandidate = none → st.highestPixelCount = 0) →
      ScanInv (seen ++ items) (items.foldl scanStep st) := by
  induction items with
  | nil =>
    intro seen st h _
    simpa using h
  | cons v rest ih =>
    intro seen st h hzero
    obtain ⟨h1, h2⟩ := scanStep_inv seen st v h hzero
    have := ih (seen ++ [v]) (scanStep st v) h1 h2
    simpa using this

theorem bestImageOnPage_inv (page : SourcePage) :
    ScanInv (visited page)
      ((visited page).foldl scanStep { bestCandidate := none, highestPixelCount := 0 }) := by
  have h0 : ScanInv [] { bestCandidate := none, highestPixelCount := 0 } :=
    ⟨fun _ hv => absurd hv (List.not_mem_nil _), fun _ _ hv => absurd hv (List.not_mem_nil _),
      fun _ hb => absurd hb (by simp)⟩
  have := scan_inv (visited page) [] _ h0 (fun _ => rfl)
  simpa using this

/-- C24: when `findHighestResolutionImage` returns an image, it is the source of an element
visited in one of the two passes that passes the tests of that pass: its rendered width and
height are at least 512, its pixel count is at least 500000, and no element that qualifies in
either pass has a greater pixel count.  It returns `null` exactly when no element qualifies in
either pass. -/
theorem highest_resolution_image_is_largest_qualifying (page : SourcePage) :
    (∀ url, findHighestResolutionImage page = some url →
      ∃ v ∈ visited page, measuredSrc v.1 v.2 = some url ∧ qualifies v.1 v.2 = true ∧
        bestImageOnPage page = some (bestOf v.2 url v.1) ∧
        512 ≤ v.2.width ∧ 512 ≤ v.2.height ∧ 500000 ≤ pixelCountOf v.2 ∧
        ∀ w ∈ visited page, qualifies w.1 w.2 = true → pixelCountOf w.2 ≤ pixelCountOf v.2) ∧
    (findHighestResolutionImage page = none ↔
      ∀ v ∈ visited page, qualifies v.1 v.2 = false) := by
  have hinv := bestImageOnPage_inv page
  have heq := bestImageOnPage_eq page
  constructor
  · intro url hurl
    unfold findHighestResolutionImage at hurl
    cases hb : bestImageOnPage page with
    | none =>
      rw [hb] at hurl
      simp at hurl
    | some b =>
      rw [hb] at hurl
      simp only [Option.some.injEq] at hurl
      obtain ⟨v, hv, src, hsrc, hq, hbest, hhigh⟩ := hinv.present b (by rw [← heq, hb])
      have hsrcurl : src = url := by
        rw [← hurl, hbest]
        rfl
      subst hsrcurl
      have hfloor := measuredSrc_floor v.1 v.2 src hsrc
      have hpc : 500000 ≤ pixelCountOf v.2 := by
        simp only [qualifies, Bool.and_eq_true, decide_eq_true_eq] at hq
        exact hq.1.2
      refine ⟨v, hv, hsrc, hq, by rw [hbest], hfloor.1, hfloor.2, hpc, ?_⟩
      intro w hw hqw
      rw [← hhigh]
      exact hinv.bound w hw hqw
  · unfold findHighestResolutionImage
    constructor
    · intro hnone
      cases hb : bestImageOnPage page with
      | none => exact hinv.absent (by rw [← heq, hb])
      | some b =>
        rw [hb] at hnone
        simp at hnone
    · intro hall
      cases hb : bestImageOnPage page with
      | none => rfl
      | some b =>
        exfalso
        obtain ⟨v, hv, _, _, hq, _, _⟩ := hinv.present b (by rw [← heq, hb])
        rw [hall v hv] at hq
        exact absurd hq (by decide)

/-- Witness of C24: on `pageWithAdBanner` an element qualifies and the search answers. -/
theorem highest_resolution_image_is_largest_qualifying_witness :
    ∃ v ∈ visited pageWithAdBanner,
      measuredSrc v.1 v.2 = some "https://cdn.example.org/ads/banner.jpg" ∧
        qualifies v.1 v.2 = true ∧
        bestImageOnPage pageWithAdBanner =
          some (bestOf v.2 "https://cdn.example.org/ads/banner.jpg" v.1) ∧
        512 ≤ v.2.width ∧ 512 ≤ v.2.height ∧ 500000 ≤ pixelCountOf v.2 ∧
        ∀ w ∈ visited pageWithAdBanner, qualifies w.1 w.2 = true →
          pixelCountOf w.2 ≤ pixelCountOf v.2 :=
  (highest_resolution_image_is_largest_qualifying pageWithAdBanner).1
    "https://cdn.example.org/ads/banner.jpg" (by decide)

/-! ## Kept results and the measured standard -/

theorem gradeDownload_measured (go : GoogleOptions) (inspect : Option RawMetadata)
    (searchTerm : String) (c : ImageCandidate) (r : ResolvedImage) (filepath : String)
    (st : LoopState) :
    ∃ x, (gradeDownload go inspect searchTerm c r filepath st).results = st.results ++ [x] ∧
      (x.kept = true → ∃ m raw, inspect = some raw ∧ x.metadata = some m ∧
        m.width = raw.width ∧ m.height = raw.height ∧
        rejectsDownloaded go raw.width raw.height = false) := by
  cases inspect with
  | none => exact ⟨_, rfl, fun h => absurd h (by simp [failureRecord])⟩
  | some raw =>
    simp only [gradeDownload, getImageMetadata]
    split
    · exact ⟨_, rfl, fun h => absurd h (by simp [rejectionRecord])⟩
    · rename_i hrej
      refine ⟨_, rfl, fun _ => ⟨_, raw, rfl, rfl, rfl, rfl, ?_⟩⟩
      simpa using hrej

theorem afterResolution_measured (urls : UrlOracle) (go : GoogleOptions) (opts : Options)
    (e : Effects) (searchTerm searchFolder : String) (c : ImageCandidate) (r : ResolvedImage)
    (st : LoopState) :
    ∃ x, (afterResolution urls go opts e searchTerm searchFolder c r st).results =
        st.results ++ [x] ∧
      (x.kept = true → ∃ m raw, e.inspect = some raw ∧ x.metadata = some m ∧
        m.width = raw.width ∧ m.height = raw.height ∧
        rejectsDownloaded go raw.width raw.height = false) := by
  unfold afterResolution
  split
  · exact ⟨_, rfl, fun h => absurd h (by simp [failureRecord])⟩
  · split
    · exact ⟨_, rfl, fun h => absurd h (by simp [failureRecord])⟩
    · split
      · exact ⟨_, rfl, fun h => absurd h (by simp [failureRecord])⟩
      · cases e.download with
        | error message => exact ⟨_, rfl, fun h => absurd h (by simp [failureRecord])⟩
        | saved => exact gradeDownload_measured go e.inspect searchTerm c r _ _

theorem processCandidate_measured (urls : UrlOracle) (go : GoogleOptions) (opts : Options)
    (e : Effects) (searchTerm searchFolder : String) (c : ImageCandidate) (st : LoopState) :
    ∃ x, (processCandidate urls go opts e searchTerm searchFolder c st).results =
        st.results ++ [x] ∧
      (x.kept = true → ∃ m raw, e.inspect = some raw ∧ x.metadata = some m ∧
        m.width = raw.width ∧ m.height = raw.height ∧
        rejectsDownloaded go raw.width raw.height = false) := by
  unfold processCandidate
  split
  · split
    · exact ⟨_, rfl, fun h => absurd h (by simp [failureRecord])⟩
    · rename_i events enhancedData hnav
      obtain ⟨x, hx, hkeep⟩ := afterResolution_measured urls go opts e searchTerm searchFolder c
        enhancedData
        (if enhancedData.resolution == .enhanced then
          { st.log events with
            sourceNavigationCount := (st.log events).sourceNavigationCount + 1 }
        else st.log events)
      refine ⟨x, ?_, hkeep⟩
      rw [hx]
      split <;> rfl
  · rw [cleanImageUrl_eq]
    exact afterResolution_measured urls go opts e searchTerm searchFolder c _ st

/-- C6: every result returned by `downloadEnhancedImageBatch` with `kept = true` carries the
measured metadata of its file, and these satisfy the configured standard: the width and the
height reach the minimum and the pixel count divided by 1000000 reaches the minimum
megapixels.  The decoder is taken to report, for every file it decodes, a width and a height
of at least 1 pixel. -/
theorem kept_results_meet_standard (urls : UrlOracle) (go : GoogleOptions) (opts : Options)
    (world : Nat → Effects) (storage : List String) (cands : List ImageCandidate)
    (searchTerm : String) (targetCount : Option Nat)
    (hdec : ∀ i raw, (world i).inspect = some raw → reportsDimensions raw = true)
    (r : AcquisitionResult)
    (hr : r ∈ (downloadEnhancedImageBatch urls go opts world storage cands searchTerm
      targetCount).results) (hk : r.kept = true) :
    ∃ m, r.metadata = some m ∧ meetsStandard go m.width m.height := by
  have hall : ∀ x ∈ (downloadEnhancedImageBatch urls go opts world storage cands searchTerm
      targetCount).results, x.kept = true →
      ∃ m, x.metadata = some m ∧ meetsStandard go m.width m.height := by
    apply huntLoop_preserves urls go opts world searchTerm (searchFolderOf searchTerm)
      (targetOf go targetCount) cands
      (fun st => ∀ x ∈ st.results, x.kept = true →
        ∃ m, x.metadata = some m ∧ meetsStandard go m.width m.height)
    · intro st c hst _ _ x hx hkx
      obtain ⟨y, hy, hkeep⟩ := processCandidate_measured urls go opts (world st.processed)
        searchTerm (searchFolderOf searchTerm) c st
      rw [hy] at hx
      rcases List.mem_append.mp hx with hx | hx
      · exact hst x hx hkx
      · rw [List.mem_singleton.mp hx] at hkx ⊢
        obtain ⟨m, raw, hraw, hm, hw, hh, hrej⟩ := hkeep hkx
        have hdim := hdec st.processed raw hraw
        unfold reportsDimensions at hdim
        refine ⟨m, hm, ?_⟩
        rw [hw, hh]
        cases hrw : raw.width with
        | none =>
          rw [hrw] at hdim
          simp at hdim
        | some w =>
          cases hrh : raw.height with
          | none =>
            rw [hrw, hrh] at hdim
            simp at hdim
          | some h =>
            rw [hrw, hrh] at hdim hrej
            simp only [Bool.and_eq_true, decide_eq_true_eq] at hdim
            exact ⟨w, h, rfl, rfl, (rejectsDownloaded_eq_false_iff go w h hdim.1 hdim.2).mp hrej⟩
    · intro x hx
      simp [initialState] at hx
  exact hall r hr hk

/-- Witness of C6: the single kept result of a run whose download measures 800 x 600. -/
theorem kept_results_meet_standard_witness :
    ∃ m, (keeperRecord
        { candidate := thumbnailOnly 0, finalImageUrl := (thumbnailOnly 0).thumbnailUrl,
          resolution := .thumbnail }
        "downloads/candidates/red_dragon/red_dragon_1_thumbnail_1700000000000.jpg"
        { width := some 800, height := some 600, format := "jpeg", size := 90000,
          quality := 45,
          filepath :=
            "downloads/candidates/red_dragon/red_dragon_1_thumbnail_1700000000000.jpg" }
        "Red Dragon").metadata = some m ∧
      meetsStandard (demoStandard true) m.width m.height :=
  kept_results_meet_standard demoUrls (demoStandard true) demoOptions allPassWorld []
    [thumbnailOnly 0] "Red Dragon" (some 1)
    (fun _ _ h => (Option.some.inj h) ▸ rfl) _ (by decide) (by decide)

end DragonSnorting
